import Mathlib

/-!
# ComTools: a verification development

Shallow embedding of `ComTools::IPtr` (include/iptr.h), the reference-counted
handle over COM interface pointers, together with the external object model it
talks to (`AddRef` / `Release` / `QueryInterface`).

* A raw interface pointer `T*` is a natural number, `nullptr` is `0`.
* Every `IPtr` object is one cell of `Machine.mem`; the cell holds its `m_ptr`
  member.  A handle is named by the index of its cell, so two references to
  the same `IPtr` object are two equal indices (aliasing is visible).
* Raw pointer variables of the caller are the cells of `Machine.raw`.
* The external object model is `Heap`: which object an interface pointer is a
  view of, one count per object, and the log of the retain / release calls
  that were issued, in order.

It also embeds `ComTools::UBSTR` (include/ubstr.h), the owning wrapper of one
string buffer, over `UMachine`: the `m_bstr` member of every live object and
the external allocator `BHeap` (buffers, the log of frees, memory left).
-/

namespace ComTools

/-! ## Data model -/

/-- Raw interface pointer `T*`: an address. -/
abbrev Ptr := Nat

/-- The null pointer. -/
def nullptr : Ptr := 0

/-- Status code `HRESULT` (a signed 32-bit value). -/
abbrev HRESULT := Int

/-- Modelled from the spec: the success status; the constant `S_OK` comes from
Windows.h, which is not part of the sources. -/
def S_OK : HRESULT := 0

/-- Modelled from the spec: the invalid-argument status returned for an absent
output slot; the constant `E_POINTER` (0x80004003) comes from Windows.h, which
is not part of the sources. -/
def E_POINTER : HRESULT := -2147467261

/-- Modelled from the spec: the capability-absent status of a query; the
constant `E_NOINTERFACE` (0x80004002) comes from Windows.h. -/
def E_NOINTERFACE : HRESULT := -2147467262

/-- The `SUCCEEDED` test on a status code: non-negative. -/
def SUCCEEDED (hr : HRESULT) : Bool := decide (0 ≤ hr)

/-- One call made on the external object model through an interface pointer. -/
inductive Call where
  | AddRef (p : Ptr)
  | Release (p : Ptr)
  deriving DecidableEq, Repr

/-- The external object model.  `objOf p` is the object the interface pointer
`p` is a view of, `rc o` the reference count of object `o`, `calls` the retain
and release calls issued so far, oldest first. -/
structure Heap where
  objOf : Ptr → Nat
  rc : Nat → Nat
  calls : List Call

/-- Modelled from the spec: the retain operation of the external object model
(`IUnknown::AddRef`, declared in Windows.h): the count of the object behind
`p` goes up by one. -/
def Heap.AddRef (h : Heap) (p : Ptr) : Heap :=
  { h with
    rc := Function.update h.rc (h.objOf p) (h.rc (h.objOf p) + 1)
    calls := h.calls ++ [Call.AddRef p] }

/-- Modelled from the spec: the release operation of the external object model
(`IUnknown::Release`, declared in Windows.h): the count of the object behind
`p` goes down by one. -/
def Heap.Release (h : Heap) (p : Ptr) : Heap :=
  { h with
    rc := Function.update h.rc (h.objOf p) (h.rc (h.objOf p) - 1)
    calls := h.calls ++ [Call.Release p] }

/-- Address of a pointer-sized cell (`T**`): the `m_ptr` member of a handle, or
a raw pointer variable of the caller. -/
inductive Slot where
  | handle (i : Nat)
  | raw (k : Nat)
  deriving DecidableEq, Repr

/-- Program state: the `m_ptr` member of every live `IPtr`, the raw pointer
variables of the caller, and the external object model. -/
structure Machine where
  mem : List Ptr
  raw : List Ptr
  heap : Heap

/-- Read of `m_ptr` of handle `self`. -/
def m_ptr (m : Machine) (self : Nat) : Ptr := m.mem.getD self nullptr

/-- Write of `m_ptr` of handle `self`. -/
def setPtr (m : Machine) (self : Nat) (p : Ptr) : Machine :=
  { m with mem := m.mem.set self p }

/-- Write through a `T**`. -/
def store (m : Machine) (s : Slot) (p : Ptr) : Machine :=
  match s with
  | Slot.handle i => setPtr m i p
  | Slot.raw k => { m with raw := m.raw.set k p }

/-- Read through a `T**`. -/
def load (m : Machine) (s : Slot) : Ptr :=
  match s with
  | Slot.handle i => m_ptr m i
  | Slot.raw k => m.raw.getD k nullptr

/-- The object model after `if (p) p->Release();`. -/
def released (h : Heap) (p : Ptr) : Heap :=
  if p ≠ nullptr then h.Release p else h

/-- The object model after `if (p) p->AddRef();`. -/
def retained (h : Heap) (p : Ptr) : Heap :=
  if p ≠ nullptr then h.AddRef p else h

/-! ## IPtr: private helpers (iptr.h 60-94) -/

/-- Source: `void InternalAddRef() const`: `if (m_ptr) m_ptr->AddRef();` -/
def InternalAddRef (m : Machine) (self : Nat) : Machine :=
  if m_ptr m self ≠ nullptr then
    { m with heap := m.heap.AddRef (m_ptr m self) }
  else m

/-- Source: `void InternalRelease()`: clears `m_ptr` first, then releases the old
value; nothing happens on a null handle. -/
def InternalRelease (m : Machine) (self : Nat) : Machine :=
  let temp := m_ptr m self
  if temp ≠ nullptr then
    let m1 := setPtr m self nullptr
    { m1 with heap := m1.heap.Release temp }
  else m

/-- Source: `void InternalCopy(T* other)`. -/
def InternalCopy (m : Machine) (self : Nat) (other : Ptr) : Machine :=
  if m_ptr m self ≠ other then
    let m1 := InternalRelease m self
    let m2 := setPtr m1 self other
    InternalAddRef m2 self
  else m

/-- Source: `void InternalMove(IPtr<U>& other)`. -/
def InternalMove (m : Machine) (self other : Nat) : Machine :=
  if m_ptr m self ≠ m_ptr m other then
    let m1 := InternalRelease m self
    let m2 := setPtr m1 self (m_ptr m1 other)
    setPtr m2 other nullptr
  else m

/-! ## IPtr: public surface (iptr.h 97-217) -/

/-- Source: `IPtr() = default`: a new handle with `m_ptr = nullptr`.  Returns the new
state and the new handle. -/
def construct_default (m : Machine) : Machine × Nat :=
  ({ m with mem := m.mem ++ [nullptr] }, m.mem.length)

/-- Source: `IPtr(IPtr const& other) : m_ptr(other.m_ptr) { InternalAddRef(); }`, also
the converting copy constructor from `IPtr<U>`. -/
def construct_copy (m : Machine) (other : Nat) : Machine × Nat :=
  let self := m.mem.length
  let m1 : Machine := { m with mem := m.mem ++ [m_ptr m other] }
  (InternalAddRef m1 self, self)

/-- Source: `IPtr(IPtr<U>&& other) : m_ptr(other.m_ptr) { other.m_ptr = nullptr; }`. -/
def construct_move (m : Machine) (other : Nat) : Machine × Nat :=
  let self := m.mem.length
  let m1 : Machine := { m with mem := m.mem ++ [m_ptr m other] }
  (setPtr m1 other nullptr, self)

/-- Source: `~IPtr() { InternalRelease(); }`, after which the handle no longer
exists. -/
def destruct (m : Machine) (self : Nat) : Machine :=
  let m1 := InternalRelease m self
  { m1 with mem := m1.mem.eraseIdx self }

/-- Source: `IPtr& operator=(IPtr const& other)`, also the converting form. -/
def assign_copy (m : Machine) (self other : Nat) : Machine :=
  InternalCopy m self (m_ptr m other)

/-- Source: `IPtr& operator=(IPtr<U>&& other)`. -/
def assign_move (m : Machine) (self other : Nat) : Machine :=
  InternalMove m self other

/-- Source: `IPtr& operator=(std::nullptr_t)`. -/
def assign_nullptr (m : Machine) (self : Nat) : Machine :=
  InternalRelease m self

/-- Source: `explicit operator bool() const`. -/
def toBool (m : Machine) (self : Nat) : Bool := m_ptr m self != nullptr

/-- Source: `friend T* get(IPtr const& obj)`. -/
def get (m : Machine) (obj : Nat) : Ptr := m_ptr m obj

/-- Source: `friend T** set(IPtr& obj)`: `if (obj) obj = nullptr; return &obj.m_ptr;` -/
def set (m : Machine) (obj : Nat) : Machine × Slot :=
  let m1 := if toBool m obj then assign_nullptr m obj else m
  (m1, Slot.handle obj)

/-- Source: `friend void attach(IPtr& obj, T* p)`. -/
def attach (m : Machine) (obj : Nat) (p : Ptr) : Machine :=
  let m1 := InternalRelease m obj
  setPtr m1 obj p

/-- Source: `friend T* detach(IPtr& obj)`. -/
def detach (m : Machine) (obj : Nat) : Machine × Ptr :=
  let temp := m_ptr m obj
  (setPtr m obj nullptr, temp)

/-- Source: `friend void swap(IPtr& left, IPtr& right)`. -/
def swap (m : Machine) (left right : Nat) : Machine :=
  let temp := m_ptr m left
  let m1 := setPtr m left (m_ptr m right)
  setPtr m1 right temp

/-- Source: `void CopyFrom(T* other)`. -/
def CopyFrom (m : Machine) (self : Nat) (other : Ptr) : Machine :=
  InternalCopy m self other

/-- Source: `HRESULT CopyTo(T** other)`; an absent slot is `none`. -/
def CopyTo (m : Machine) (self : Nat) (other : Option Slot) : Machine × HRESULT :=
  match other with
  | none => (m, E_POINTER)
  | some s =>
    let m1 := InternalAddRef m self
    (store m1 s (m_ptr m1 self), S_OK)

/-- Source: `bool operator==(IPtr<T> const& left, IPtr<T> const& right)`:
`get(left) == get(right)`. -/
def op_eq (m : Machine) (left right : Nat) : Bool := get m left == get m right

/-! ## The capability query used by `As` -/

/-- What one `QueryInterface` call did: the status it returned, the value it
stored through `ppv` (`none` when it stored nothing) and the object model
afterwards. -/
structure QIResult where
  hr : HRESULT
  out : Option Ptr
  heap : Heap

/-- A `QueryInterface` implementation of the external object model: from the
object model, the pointer the call is made through and the requested interface
identifier to the outcome of the call. -/
abbrev Query := Heap → Ptr → Nat → QIResult

/-- Modelled from the spec: the collaborator contract of the capability query
(`IUnknown::QueryInterface`, declared in Windows.h), for the call made through
`p` on object model `h`.  On success the call stores a non-null reference to a
view of the same object and that object has been retained once; on failure it
stores no reference (nothing, or null) and retains nothing.  No other count
changes and views stay views of the same objects. -/
def ObeysContractAt (q : Query) (h : Heap) (p : Ptr) (riid : Nat) : Prop :=
  (q h p riid).heap.objOf = h.objOf ∧
  (SUCCEEDED (q h p riid).hr = true →
    (∃ v, v ≠ nullptr ∧ (q h p riid).out = some v ∧ h.objOf v = h.objOf p) ∧
    (q h p riid).heap.rc = Function.update h.rc (h.objOf p) (h.rc (h.objOf p) + 1)) ∧
  (SUCCEEDED (q h p riid).hr = false →
    ((q h p riid).out = none ∨ (q h p riid).out = some nullptr) ∧
    (q h p riid).heap.rc = h.rc)

/-- Source: `IPtr<U> As(REFIID riid) const`: a fresh null handle `temp`, the query made
through `m_ptr` with `set(temp)` as its output slot, and `temp` returned.  The
call through a null `m_ptr` has no defined behaviour: `none`. -/
def As (QueryInterface : Query) (m : Machine) (self : Nat) (riid : Nat) :
    Option (Machine × Nat) :=
  if m_ptr m self = nullptr then none
  else
    let c := construct_default m
    let t := set c.1 c.2
    let r := QueryInterface t.1.heap (m_ptr t.1 self) riid
    let m3 : Machine := { t.1 with heap := r.heap }
    let m4 := match r.out with
      | some v => store m3 t.2 v
      | none => m3
    some (m4, c.2)

/-! ## Ownership bookkeeping -/

/-- Program state together with the number of raw references the caller owns
on each object. -/
structure Sys where
  m : Machine
  owned : Nat → Nat

/-- Indicator: `1` when `p` is a non-null view of object `o`, else `0`. -/
def ind (f : Ptr → Nat) (p : Ptr) (o : Nat) : Nat :=
  if p ≠ nullptr ∧ f p = o then 1 else 0

/-- Number of cells of `l` holding a non-null view of object `o`. -/
def cnt (f : Ptr → Nat) (l : List Ptr) (o : Nat) : Nat :=
  l.countP (fun p => decide (p ≠ nullptr ∧ f p = o))

/-- Number of live handles holding a view of object `o`. -/
def holders (m : Machine) (o : Nat) : Nat :=
  m.mem.countP (fun p => decide (p ≠ nullptr ∧ m.heap.objOf p = o))

/-- The ownership invariant: the count of every object is the number of
handles holding it plus the number of raw references the caller owns on it. -/
def Balanced (s : Sys) : Prop :=
  ∀ o, s.m.heap.rc o = holders s.m o + s.owned o

/-- The handle operations.  Handles are named by their cell; the output slot of
`CopyTo` is absent or a raw pointer variable of the caller. -/
inductive Op where
  | construct_default
  | construct_copy (other : Nat)
  | construct_move (other : Nat)
  | assign_copy (self other : Nat)
  | assign_move (self other : Nat)
  | assign_nullptr (self : Nat)
  | set (obj : Nat)
  | CopyFrom (self : Nat) (p : Ptr)
  | swap (left right : Nat)
  | destruct (self : Nat)
  | attach (obj : Nat) (p : Ptr)
  | detach (obj : Nat)
  | CopyTo (self : Nat) (out : Option Nat)

/-- The effect of a handle operation on the program state. -/
def Op.run : Op → Machine → Machine
  | Op.construct_default, m => (ComTools.construct_default m).1
  | Op.construct_copy other, m => (ComTools.construct_copy m other).1
  | Op.construct_move other, m => (ComTools.construct_move m other).1
  | Op.assign_copy self other, m => ComTools.assign_copy m self other
  | Op.assign_move self other, m => ComTools.assign_move m self other
  | Op.assign_nullptr self, m => ComTools.assign_nullptr m self
  | Op.set obj, m => (ComTools.set m obj).1
  | Op.CopyFrom self p, m => ComTools.CopyFrom m self p
  | Op.swap left right, m => ComTools.swap m left right
  | Op.destruct self, m => ComTools.destruct m self
  | Op.attach obj p, m => ComTools.attach m obj p
  | Op.detach obj, m => (ComTools.detach m obj).1
  | Op.CopyTo self out, m => (ComTools.CopyTo m self (out.map Slot.raw)).1

/-- One more caller-owned reference on the object behind `p`; none for null. -/
def gain (h : Heap) (owned : Nat → Nat) (p : Ptr) : Nat → Nat :=
  if p ≠ nullptr then Function.update owned (h.objOf p) (owned (h.objOf p) + 1)
  else owned

/-- One caller-owned reference fewer on the object behind `p`; none for null. -/
def spend (h : Heap) (owned : Nat → Nat) (p : Ptr) : Nat → Nat :=
  if p ≠ nullptr then Function.update owned (h.objOf p) (owned (h.objOf p) - 1)
  else owned

/-- The caller-owned references after a handle operation: `attach` consumes
one on the attached pointer, `detach` produces one on the pointer it returns,
`CopyTo` into a present slot produces one on the pointer it stores, every
other operation leaves them as they are. -/
def Op.callerOwned : Op → Machine → (Nat → Nat) → (Nat → Nat)
  | Op.attach _ p, m, owned => spend m.heap owned p
  | Op.detach obj, m, owned => gain m.heap owned (ComTools.detach m obj).2
  | Op.CopyTo self (some _), m, owned => gain m.heap owned (m_ptr m self)
  | _, _, owned => owned

/-- One step of the bookkeeping system. -/
def step (op : Op) (s : Sys) : Sys :=
  { m := op.run s.m, owned := op.callerOwned s.m s.owned }

/-- What an operation needs: the handles it names are live, and the caller
owns a reference on a non-null pointer it attaches. -/
def Op.ok : Op → Sys → Prop
  | Op.construct_default, _ => True
  | Op.construct_copy other, s => other < s.m.mem.length
  | Op.construct_move other, s => other < s.m.mem.length
  | Op.assign_copy self other, s => self < s.m.mem.length ∧ other < s.m.mem.length
  | Op.assign_move self other, s => self < s.m.mem.length ∧ other < s.m.mem.length
  | Op.assign_nullptr self, s => self < s.m.mem.length
  | Op.set obj, s => obj < s.m.mem.length
  | Op.CopyFrom self _, s => self < s.m.mem.length
  | Op.swap left right, s => left < s.m.mem.length ∧ right < s.m.mem.length
  | Op.destruct self, s => self < s.m.mem.length
  | Op.attach obj p, s =>
      obj < s.m.mem.length ∧ (p ≠ nullptr → 1 ≤ s.owned (s.m.heap.objOf p))
  | Op.detach obj, s => obj < s.m.mem.length
  | Op.CopyTo self _, s => self < s.m.mem.length

/-! ## A concrete scene

Two objects in the manner of the test object `CAB`: object `k` lives at
addresses `16 * k .. 16 * k + 15`, its `IA` view at `16 * k` and its `IB` view
at `16 * k + 8`. -/

/-- Object 1 with count 2, object 2 with count 1, no call issued yet. -/
def demoHeap : Heap :=
  { objOf := fun p => p / 16
    rc := fun o => if o = 1 then 2 else if o = 2 then 1 else 0
    calls := [] }

/-- Four handles: two on object 1, one on object 2, one null; one raw
variable. -/
def demoMachine : Machine :=
  { mem := [16, 16, 32, 0], raw := [0], heap := demoHeap }

/-- The scene with no caller-owned reference. -/
def demoSys : Sys := { m := demoMachine, owned := fun _ => 0 }

/-- Interface identifiers of the scene. -/
def IID_IUnknown : Nat := 0
/-- Identifier of interface `IA`. -/
def IID_IA : Nat := 1
/-- Identifier of interface `IB`. -/
def IID_IB : Nat := 2

/-- The query of the test object `CAB` (test_iptr.cpp 71-79) over this object
model: `IUnknown` and `IA` give the `IA` view, `IB` gives the `IB` view, both
retained; anything else stores null and returns `E_NOINTERFACE`. -/
def demoQuery : Query := fun h p riid =>
  if riid = IID_IUnknown ∨ riid = IID_IA then
    { hr := S_OK, out := some (16 * (p / 16)), heap := h.AddRef (16 * (p / 16)) }
  else if riid = IID_IB then
    { hr := S_OK, out := some (16 * (p / 16) + 8), heap := h.AddRef (16 * (p / 16) + 8) }
  else
    { hr := E_NOINTERFACE, out := some nullptr, heap := h }

/-! ## IPtr: comparison operators (iptr.h 220-254) -/

/-- Source: `bool operator!=(IPtr<T> const& left, IPtr<T> const& right)`:
`!(left == right)`. -/
def op_ne (m : Machine) (left right : Nat) : Bool := !(op_eq m left right)

/-- Source: `bool operator<(IPtr<T> const& left, IPtr<T> const& right)`:
`get(left) < get(right)`, the comparison of the two addresses. -/
def op_lt (m : Machine) (left right : Nat) : Bool := decide (get m left < get m right)

/-- Source: `bool operator>(left, right)`: `right < left`. -/
def op_gt (m : Machine) (left right : Nat) : Bool := op_lt m right left

/-- Source: `bool operator<=(left, right)`: `!(right < left)`. -/
def op_le (m : Machine) (left right : Nat) : Bool := !(op_lt m right left)

/-- Source: `bool operator>=(left, right)`: `!(left < right)`. -/
def op_ge (m : Machine) (left right : Nat) : Bool := !(op_lt m left right)

/-- A `T**` that points at an existing cell: the `m_ptr` member of a live
handle or an existing raw variable of the caller. -/
def Slot.valid (m : Machine) : Slot → Prop
  | Slot.handle i => i < m.mem.length
  | Slot.raw k => k < m.raw.length

/-- The scene after the caller has copied handle 2 into its raw variable: the
caller owns one reference on object 2, whose count is now 2. -/
def demoOwned : Sys := step (Op.CopyTo 2 (some 0)) demoSys

/-! ## UBSTR: the string buffer allocator and the wrapper (ubstr.h)

A wide character is a natural number, the terminator is `0`.  A `BSTR` is the
address of a buffer, `nullptr` for none.  A character sequence handed over as
`wchar_t const*` is `none` for a null pointer and otherwise the characters
found at that address; whoever reads it as a null-terminated string stops at
the first terminator (or at the end of the list). -/

/-- Wide character `wchar_t`. -/
abbrev wchar_t := Nat

/-- The characters of a null-terminated string stored in `s`: those before the
first terminator. -/
def cstr (s : List wchar_t) : List wchar_t := s.takeWhile (fun c => c ≠ 0)

/-- Source: `wcslen`: the number of characters before the first terminator. -/
def wcslen (s : List wchar_t) : Nat := (cstr s).length

/-- Source: `std::wstring::c_str()`: a non-null pointer to the characters of the
string, which are followed by a terminator. -/
def c_str (ws : List wchar_t) : Option (List wchar_t) := some ws

/-- The string buffers of the external allocator.  Buffer number `k` lives at
address `k + 1`; `bufs` holds its characters while it is allocated and `none`
once it has been freed.  `frees` lists the buffers handed to `SysFreeString`,
oldest first.  `avail` is the number of allocations that will still succeed
(`0`: out of memory). -/
structure BHeap where
  bufs : List (Option (List wchar_t))
  frees : List Ptr
  avail : Nat

/-- The characters of the buffer at address `p`; `none` when `p` is null or
does not point at an allocated buffer. -/
def BHeap.read (h : BHeap) (p : Ptr) : Option (List wchar_t) :=
  if p = nullptr then none else h.bufs.getD (p - 1) none

/-- Modelled from the spec: the allocator `allocate(seq) -> buffer_or_empty`
(`SysAllocString` of the Windows API, which is not part of the sources).  A
null sequence gives the empty state and allocates nothing; so does any
sequence when no memory is available; otherwise a new buffer, at an address
not in use, receives a copy of the characters up to the first terminator (a
zero-length sequence gives a zero-length buffer). -/
def SysAllocString (h : BHeap) (psz : Option (List wchar_t)) : BHeap × Ptr :=
  match psz with
  | none => (h, nullptr)
  | some w =>
    if h.avail = 0 then (h, nullptr)
    else
      ({ h with bufs := h.bufs ++ [some (cstr w)], avail := h.avail - 1 },
        h.bufs.length + 1)

/-- Modelled from the spec: the deallocator `free(buffer)` (`SysFreeString` of
the Windows API): the empty state is accepted and nothing happens; otherwise
the buffer is no longer allocated and the call is recorded. -/
def SysFreeString (h : BHeap) (p : Ptr) : BHeap :=
  if p = nullptr then h
  else { h with bufs := h.bufs.set (p - 1) none, frees := h.frees ++ [p] }

/-- Program state for `UBSTR`: the `m_bstr` member of every live `UBSTR`
object (an object is named by the index of its cell) and the allocator. -/
structure UMachine where
  objs : List Ptr
  heap : BHeap

/-- Address of the `m_bstr` member of an object (`BSTR*`): the index of the
object. -/
abbrev BSTRSlot := Nat

/-- Read of `m_bstr` of object `self`. -/
def m_bstr (m : UMachine) (self : Nat) : Ptr := m.objs.getD self nullptr

/-- Source: `friend void swap(UBSTR& a, UBSTR& b)`:
`std::swap(a.m_bstr, b.m_bstr)`. -/
def UBSTR.swap (m : UMachine) (a b : Nat) : UMachine :=
  let temp := m_bstr m a
  let m1 : UMachine := { m with objs := m.objs.set a (m_bstr m b) }
  { m1 with objs := m1.objs.set b temp }

/-- Source: `friend BSTR* set(UBSTR& obj)`: frees a held buffer and clears the
member, then returns the address of the member. -/
def UBSTR.set (m : UMachine) (obj : Nat) : UMachine × BSTRSlot :=
  let m1 : UMachine :=
    if m_bstr m obj ≠ nullptr then
      { objs := m.objs.set obj nullptr, heap := SysFreeString m.heap (m_bstr m obj) }
    else m
  (m1, obj)

/-- Write through a `BSTR*`. -/
def UBSTR.store (m : UMachine) (s : BSTRSlot) (p : Ptr) : UMachine :=
  { m with objs := m.objs.set s p }

/-- Read through a `BSTR*`. -/
def UBSTR.load (m : UMachine) (s : BSTRSlot) : Ptr := m_bstr m s

/-- Source: `UBSTR() = default`: a new object with `m_bstr = nullptr`. -/
def UBSTR.construct_default (m : UMachine) : UMachine × Nat :=
  ({ m with objs := m.objs ++ [nullptr] }, m.objs.length)

/-- Source: `~UBSTR() { SysFreeString(m_bstr); }`, after which the object no
longer exists. -/
def UBSTR.destruct (m : UMachine) (self : Nat) : UMachine :=
  { objs := m.objs.eraseIdx self, heap := SysFreeString m.heap (m_bstr m self) }

/-- Source: `explicit UBSTR(wchar_t const* const wsz) : m_bstr(SysAllocString(wsz))`. -/
def UBSTR.construct_wsz (m : UMachine) (wsz : Option (List wchar_t)) : UMachine × Nat :=
  let r := SysAllocString m.heap wsz
  ({ objs := m.objs ++ [r.2], heap := r.1 }, m.objs.length)

/-- Source: `explicit UBSTR(std::wstring const& ws) : m_bstr(SysAllocString(ws.c_str()))`. -/
def UBSTR.construct_wstring (m : UMachine) (ws : List wchar_t) : UMachine × Nat :=
  let r := SysAllocString m.heap (c_str ws)
  ({ objs := m.objs ++ [r.2], heap := r.1 }, m.objs.length)

/-- Source: `UBSTR(UBSTR const& obj) : m_bstr(SysAllocString(obj.m_bstr))`: the
buffer of `obj` is read as a null-terminated sequence (a null `m_bstr` is the
null sequence). -/
def UBSTR.construct_copy (m : UMachine) (obj : Nat) : UMachine × Nat :=
  let r := SysAllocString m.heap (m.heap.read (m_bstr m obj))
  ({ objs := m.objs ++ [r.2], heap := r.1 }, m.objs.length)

/-- Source: `UBSTR(UBSTR&& obj) : m_bstr() { swap(*this, obj); }`. -/
def UBSTR.construct_move (m : UMachine) (obj : Nat) : UMachine × Nat :=
  let c := UBSTR.construct_default m
  (UBSTR.swap c.1 c.2 obj, c.2)

/-- Source: `UBSTR& operator=(UBSTR obj)` called with an lvalue: the parameter
is copy-constructed from `other`, swapped with `*this`, and destroyed when the
call is over. -/
def UBSTR.assign_copy (m : UMachine) (self other : Nat) : UMachine :=
  let c := UBSTR.construct_copy m other
  let m1 := UBSTR.swap c.1 self c.2
  UBSTR.destruct m1 c.2

/-- Source: `UBSTR& operator=(UBSTR obj)` called with an rvalue: the parameter
is move-constructed from `other`, swapped with `*this`, and destroyed when the
call is over. -/
def UBSTR.assign_move (m : UMachine) (self other : Nat) : UMachine :=
  let c := UBSTR.construct_move m other
  let m1 := UBSTR.swap c.1 self c.2
  UBSTR.destruct m1 c.2

/-- Source: `explicit operator bool() const`: `m_bstr != nullptr`. -/
def UBSTR.toBool (m : UMachine) (self : Nat) : Bool := m_bstr m self != nullptr

/-- Source: `size_t length() const`: `0` for the empty state, else `wcslen` of
the buffer; `none` when `m_bstr` does not point at an allocated buffer (the
read has no defined behaviour). -/
def UBSTR.length (m : UMachine) (self : Nat) : Option Nat :=
  if !(UBSTR.toBool m self) then some 0
  else (m.heap.read (m_bstr m self)).map wcslen

/-- Source: `std::wstring to_wstring() const`: the empty string for the empty
state, else the null-terminated string in the buffer; `none` when `m_bstr`
does not point at an allocated buffer. -/
def UBSTR.to_wstring (m : UMachine) (self : Nat) : Option (List wchar_t) :=
  if UBSTR.toBool m self then (m.heap.read (m_bstr m self)).map cstr
  else some []

/-- Source: `BSTR get() const`. -/
def UBSTR.get (m : UMachine) (self : Nat) : Ptr := m_bstr m self

/-- A sequence without terminator. -/
abbrev NoTerminator (w : List wchar_t) : Prop := ∀ c ∈ w, c ≠ 0

/-- The producer of the test (`GivesBSTR`, test_ubstr.cpp 23-26):
`*pbstr = SysAllocString(t)`. -/
def GivesBSTR (m : UMachine) (pbstr : BSTRSlot) (t : List wchar_t) : UMachine :=
  let r := SysAllocString m.heap (some t)
  UBSTR.store { m with heap := r.1 } pbstr r.2

/-- A scene for `UBSTR`: object 0 holds the buffer at address 1 with the text
`abc`, object 1 holds the buffer at address 2 with the text `xy`, object 2 is
empty; memory for three more allocations. -/
def demoU : UMachine :=
  { objs := [1, 2, 0]
    heap := { bufs := [some [97, 98, 99], some [120, 121]], frees := [], avail := 3 } }

/-- The same scene with no memory left. -/
def demoFull : UMachine :=
  { objs := [1, 2, 0]
    heap := { bufs := [some [97, 98, 99], some [120, 121]], frees := [], avail := 0 } }

/-- An allocator with nothing allocated and memory for two allocations, and no
object. -/
def emptyU : UMachine :=
  { objs := [], heap := { bufs := [], frees := [], avail := 2 } }

/-! ## IPtr: the operations as sequences of elementary steps

The same operations, spelled out as the writes to cells and the calls on the
object model they perform, in program order.  `exec` runs such a sequence;
the state in which a step is taken is the state after the steps before it. -/

/-- One elementary step: a write to the `m_ptr` member of a handle, or a call
made through an interface pointer. -/
inductive Step where
  | write (i : Nat) (v : Ptr)
  | AddRef (p : Ptr)
  | Release (p : Ptr)
  deriving DecidableEq, Repr

/-- The state after one step. -/
def Step.exec (m : Machine) : Step → Machine
  | Step.write i v => setPtr m i v
  | Step.AddRef p => { m with heap := m.heap.AddRef p }
  | Step.Release p => { m with heap := m.heap.Release p }

/-- The state after a sequence of steps. -/
def exec (m : Machine) (l : List Step) : Machine := l.foldl Step.exec m

/-- Source: `InternalAddRef`: `if (m_ptr) m_ptr->AddRef();` -/
def InternalAddRef_steps (m : Machine) (self : Nat) : List Step :=
  if m_ptr m self ≠ nullptr then [Step.AddRef (m_ptr m self)] else []

/-- Source: `InternalRelease`: `T* temp = m_ptr; if (temp) { m_ptr = nullptr;
temp->Release(); }` -/
def InternalRelease_steps (m : Machine) (self : Nat) : List Step :=
  if m_ptr m self ≠ nullptr then
    [Step.write self nullptr, Step.Release (m_ptr m self)]
  else []

/-- Source: `InternalCopy`: `if (m_ptr != other) { InternalRelease();
m_ptr = other; InternalAddRef(); }` -/
def InternalCopy_steps (m : Machine) (self : Nat) (other : Ptr) : List Step :=
  if m_ptr m self ≠ other then
    let s1 := InternalRelease_steps m self
    let s2 := [Step.write self other]
    s1 ++ s2 ++ InternalAddRef_steps (exec m (s1 ++ s2)) self
  else []

/-- Source: `InternalMove`: `if (m_ptr != other.m_ptr) { InternalRelease();
m_ptr = other.m_ptr; other.m_ptr = nullptr; }` -/
def InternalMove_steps (m : Machine) (self other : Nat) : List Step :=
  if m_ptr m self ≠ m_ptr m other then
    let s1 := InternalRelease_steps m self
    s1 ++ [Step.write self (m_ptr (exec m s1) other), Step.write other nullptr]
  else []

/-- The operations of `IPtr` that can issue a release on the held object. -/
inductive RelOp where
  | destruct (self : Nat)
  | assign_nullptr (self : Nat)
  | set (obj : Nat)
  | attach (obj : Nat) (p : Ptr)
  | CopyFrom (self : Nat) (other : Ptr)
  | assign_copy (self other : Nat)
  | assign_move (self other : Nat)

/-- The handle an operation works on. -/
def RelOp.self : RelOp → Nat
  | RelOp.destruct self => self
  | RelOp.assign_nullptr self => self
  | RelOp.set obj => obj
  | RelOp.attach obj _ => obj
  | RelOp.CopyFrom self _ => self
  | RelOp.assign_copy self _ => self
  | RelOp.assign_move self _ => self

/-- The steps of an operation, from its body in iptr.h. -/
def RelOp.steps (m : Machine) : RelOp → List Step
  | RelOp.destruct self => InternalRelease_steps m self
  | RelOp.assign_nullptr self => InternalRelease_steps m self
  | RelOp.set obj => if toBool m obj then InternalRelease_steps m obj else []
  | RelOp.attach obj p => InternalRelease_steps m obj ++ [Step.write obj p]
  | RelOp.CopyFrom self other => InternalCopy_steps m self other
  | RelOp.assign_copy self other => InternalCopy_steps m self (m_ptr m other)
  | RelOp.assign_move self other => InternalMove_steps m self other

/-- The state an operation leaves, by the functions above; the cell of a
destroyed handle is still there (see `destruct` for its removal). -/
def RelOp.result (m : Machine) : RelOp → Machine
  | RelOp.destruct self => InternalRelease m self
  | RelOp.assign_nullptr self => ComTools.assign_nullptr m self
  | RelOp.set obj => (ComTools.set m obj).1
  | RelOp.attach obj p => ComTools.attach m obj p
  | RelOp.CopyFrom self other => ComTools.CopyFrom m self other
  | RelOp.assign_copy self other => ComTools.assign_copy m self other
  | RelOp.assign_move self other => ComTools.assign_move m self other

/-! ## ComException (comexcept.h)

A `std::wstring` is the list of its characters.  The error channel and the
error-info object are external; `EWorld` holds what they will answer, the
allocator and objects of `UBSTR`, and the log of the calls made on them. -/

/-- Unsigned 32-bit `DWORD`. -/
abbrev DWORD := Nat

/-- The `GUID` structure: `Data1`, `Data2`, `Data3` and the eight bytes of
`Data4`. -/
structure GUID where
  Data1 : Nat
  Data2 : Nat
  Data3 : Nat
  Data4 : List Nat
  deriving DecidableEq, Repr

/-- Source: `GUID guid{}` and `m_guid()`: every member zero. -/
def GUID.zeroed : GUID := { Data1 := 0, Data2 := 0, Data3 := 0, Data4 := [0, 0, 0, 0, 0, 0, 0, 0] }

/-- Modelled from the spec: the all-zero "no classification" value; the
constant `IID_NULL` (the same as `GUID_NULL`) comes from the Windows headers. -/
def IID_NULL : GUID := { Data1 := 0, Data2 := 0, Data3 := 0, Data4 := [0, 0, 0, 0, 0, 0, 0, 0] }

/-- Modelled from the spec: the status of the channel when no error info is
attached; the constant `S_FALSE` comes from Windows.h. -/
def S_FALSE : HRESULT := 1

/-- The data members of `ComException`. -/
structure ComException where
  m_hr : HRESULT
  m_source : List wchar_t
  m_description : List wchar_t
  m_help_file : List wchar_t
  m_help_context : DWORD
  m_guid : GUID
  deriving DecidableEq, Repr

/-- Source: `ComException() = default` with the default member initialisers
`m_hr = 0`, empty strings, `m_help_context = 0`, `m_guid = IID_NULL`. -/
def ComException.construct_default : ComException :=
  { m_hr := 0, m_source := [], m_description := [], m_help_file := [],
    m_help_context := 0, m_guid := IID_NULL }

/-- Source: `HRESULT hr() const`. -/
def ComException.hr (e : ComException) : HRESULT := e.m_hr
/-- Source: `std::wstring source() const`. -/
def ComException.source (e : ComException) : List wchar_t := e.m_source
/-- Source: `std::wstring description() const`. -/
def ComException.description (e : ComException) : List wchar_t := e.m_description
/-- Source: `std::wstring help_file() const`. -/
def ComException.help_file (e : ComException) : List wchar_t := e.m_help_file
/-- Source: `DWORD help_context() const`. -/
def ComException.help_context (e : ComException) : DWORD := e.m_help_context
/-- Source: `GUID guid() const`. -/
def ComException.guid (e : ComException) : GUID := e.m_guid

/-- Modelled from the spec: an error-info object (`IErrorInfo`, declared in
the Windows headers), given by what each of its five reads answers: the
status it returns and the value it stores through the output pointer (`none`:
it stores nothing).  A text is stored as a buffer of the string allocator. -/
structure ErrorInfo where
  GetSource : HRESULT × Option (List wchar_t)
  GetDescription : HRESULT × Option (List wchar_t)
  GetHelpFile : HRESULT × Option (List wchar_t)
  GetHelpContext : HRESULT × Option DWORD
  GetGUID : HRESULT × Option GUID

/-- One call on the error channel or on the error-info object behind `p`. -/
inductive ECall where
  | GetErrorInfo
  | GetSource (p : Ptr)
  | GetDescription (p : Ptr)
  | GetHelpFile (p : Ptr)
  | GetHelpContext (p : Ptr)
  | GetGUID (p : Ptr)
  | Release (p : Ptr)
  deriving DecidableEq, Repr

/-- The surroundings of a `ComException` constructor: the status and the
pointer the channel will hand out at the next query, the error-info object
behind that pointer, the `UBSTR` objects with their allocator, and the calls
made so far, oldest first. -/
structure EWorld where
  hr2 : HRESULT
  pei : Ptr
  info : ErrorInfo
  u : UMachine
  log : List ECall

/-- Modelled from the spec: the query-and-clear read of the error channel
(`GetErrorInfo(0, &pei)`, Windows API): it answers the status and the pointer,
and the channel is empty afterwards. -/
def GetErrorInfo (w : EWorld) : HRESULT × Ptr × EWorld :=
  (w.hr2, w.pei,
    { w with hr2 := S_FALSE, pei := nullptr, log := w.log ++ [ECall.GetErrorInfo] })

/-- A buffer holding exactly `t`, handed out by a producer other than
`SysAllocString`. -/
def BHeap.place (h : BHeap) (t : List wchar_t) : BHeap × Ptr :=
  ({ h with bufs := h.bufs ++ [some t] }, h.bufs.length + 1)

/-- Modelled from the spec: a text read of the error-info object (`GetSource`,
`GetDescription`, `GetHelpFile`) with output slot `slot`: the call is
recorded, a buffer with the text is stored through the slot if the object
stores one, and the status is returned. -/
def readText (w : EWorld) (c : ECall) (r : HRESULT × Option (List wchar_t))
    (slot : BSTRSlot) : HRESULT × EWorld :=
  let w1 : EWorld := { w with log := w.log ++ [c] }
  match r.2 with
  | none => (r.1, w1)
  | some t =>
    let a := w1.u.heap.place t
    (r.1, { w1 with u := UBSTR.store { w1.u with heap := a.1 } slot a.2 })

/-- Source: the pattern `UBSTR x; if (SUCCEEDED(pei->GetX(set(x)))) m_x =
x.to_wstring();` of the constructor.  Returns the world, the object `x` (it
lives until the end of the block) and the value of the member afterwards;
`none` when `to_wstring` reads a buffer that is not allocated. -/
def drainText (w : EWorld) (c : ECall) (r : HRESULT × Option (List wchar_t))
    (m_x : List wchar_t) : Option (EWorld × Nat × List wchar_t) :=
  let cx := UBSTR.construct_default w.u
  let sx := UBSTR.set cx.1 cx.2
  let rx := readText { w with u := sx.1 } c r sx.2
  if SUCCEEDED rx.1 then
    match UBSTR.to_wstring rx.2.u cx.2 with
    | some t => some (rx.2, cx.2, t)
    | none => none
  else some (rx.2, cx.2, m_x)

/-- Source: `ComException(HRESULT const hr)`: the members are initialised, the
channel is queried once, and when it answers `S_OK` with a non-null pointer
the five reads are made in turn, each assigning its member only on success,
then the object is released; at the end of the block the three `UBSTR`
objects are destroyed in reverse order. -/
def ComException.construct (w : EWorld) (hr : HRESULT) : Option (EWorld × ComException) :=
  let e0 : ComException :=
    { m_hr := hr, m_source := [], m_description := [], m_help_file := [],
      m_help_context := 0, m_guid := GUID.zeroed }
  let g := GetErrorInfo w
  if g.1 = S_OK ∧ g.2.1 ≠ nullptr then
    (drainText g.2.2 (ECall.GetSource g.2.1) g.2.2.info.GetSource e0.m_source).bind fun a =>
    (drainText a.1 (ECall.GetDescription g.2.1) a.1.info.GetDescription
      e0.m_description).bind fun b =>
    (drainText b.1 (ECall.GetHelpFile g.2.1) b.1.info.GetHelpFile e0.m_help_file).bind fun c =>
    let w4 : EWorld := { c.1 with log := c.1.log ++ [ECall.GetHelpContext g.2.1] }
    let help_context : DWORD := w4.info.GetHelpContext.2.getD 0
    let m_help_context :=
      if SUCCEEDED w4.info.GetHelpContext.1 then help_context else e0.m_help_context
    let w5 : EWorld := { w4 with log := w4.log ++ [ECall.GetGUID g.2.1] }
    let guid : GUID := w5.info.GetGUID.2.getD GUID.zeroed
    let m_guid := if SUCCEEDED w5.info.GetGUID.1 then guid else e0.m_guid
    let w6 : EWorld := { w5 with log := w5.log ++ [ECall.Release g.2.1] }
    let u7 := UBSTR.destruct w6.u c.2.1
    let u8 := UBSTR.destruct u7 b.2.1
    let u9 := UBSTR.destruct u8 a.2.1
    some ({ w6 with u := u9 },
      { m_hr := hr, m_source := a.2.2, m_description := b.2.2, m_help_file := c.2.2,
        m_help_context := m_help_context, m_guid := m_guid })
  else some (g.2.2, e0)

/-- A world for the tests: the channel holds an error-info object at address
64 whose five reads succeed, in the manner of `FailWithErrorInfo`
(test_comexcept.cpp 50-75): source `Obj`, description `bad`, help file `h`,
help context 2 and a GUID. -/
def demoWorld : EWorld :=
  { hr2 := S_OK, pei := 64
    info :=
      { GetSource := (S_OK, some [79, 98, 106])
        GetDescription := (S_OK, some [98, 97, 100])
        GetHelpFile := (S_OK, some [104])
        GetHelpContext := (S_OK, some 2)
        GetGUID := (S_OK, some { Data1 := 982349371, Data2 := 36801, Data3 := 16544,
                                 Data4 := [180, 149, 225, 61, 166, 95, 139, 52] }) }
    u := emptyU
    log := [] }

/-- The same world with nothing attached to the channel, as after
`FailWithoutErrorInfo`. -/
def quietWorld : EWorld := { demoWorld with hr2 := S_FALSE, pei := nullptr }

/-- The world of `demoWorld` with an object whose description and GUID reads
fail. -/
def partWorld : EWorld :=
  { demoWorld with
    info :=
      { GetSource := (S_OK, some [79, 98, 106])
        GetDescription := (E_POINTER, some [98, 97, 100])
        GetHelpFile := (S_OK, some [104])
        GetHelpContext := (S_OK, some 2)
        GetGUID := (E_NOINTERFACE, none) } }

/-- The world of `demoWorld` with an object whose source has an embedded
terminator: the buffer it stores holds `O`, a terminator, and `b`. -/
def cutWorld : EWorld :=
  { demoWorld with
    info :=
      { GetSource := (S_OK, some [79, 0, 98])
        GetDescription := (S_OK, some [98, 97, 100])
        GetHelpFile := (S_OK, some [104])
        GetHelpContext := (S_OK, some 2)
        GetGUID := (E_NOINTERFACE, none) } }

/-! ## ComException: copy, move, swap

The `ComException` objects of a program are the cells of a list; an object is
named by the index of its cell. -/

/-- Read of object `i`. -/
def objAt (st : List ComException) (i : Nat) : ComException :=
  st.getD i ComException.construct_default

/-- Source: `std::swap(a.m, b.m)` on one member `m`, given by its getter and
setter: `tmp = a.m; a.m = b.m; b.m = tmp`. -/
def swapMember {α : Type} (get : ComException → α) (put : ComException → α → ComException)
    (st : List ComException) (a b : Nat) : List ComException :=
  let tmp := get (objAt st a)
  let st1 := st.set a (put (objAt st a) (get (objAt st b)))
  st1.set b (put (objAt st1 b) tmp)

/-- Source: `friend void swap(ComException& a, ComException& b)`: the six
members are swapped one after the other. -/
def ComException.swap (st : List ComException) (a b : Nat) : List ComException :=
  let s1 := swapMember (fun e => e.m_hr) (fun e v => { e with m_hr := v }) st a b
  let s2 := swapMember (fun e => e.m_source) (fun e v => { e with m_source := v }) s1 a b
  let s3 := swapMember (fun e => e.m_description)
    (fun e v => { e with m_description := v }) s2 a b
  let s4 := swapMember (fun e => e.m_help_file) (fun e v => { e with m_help_file := v }) s3 a b
  let s5 := swapMember (fun e => e.m_help_context)
    (fun e v => { e with m_help_context := v }) s4 a b
  swapMember (fun e => e.m_guid) (fun e v => { e with m_guid := v }) s5 a b

/-- Source: `ComException(ComException const& obj)`: member-wise copy into a
new object. -/
def ComException.construct_copy (st : List ComException) (obj : Nat) :
    List ComException × Nat :=
  (st ++ [{ m_hr := (objAt st obj).m_hr, m_source := (objAt st obj).m_source,
            m_description := (objAt st obj).m_description,
            m_help_file := (objAt st obj).m_help_file,
            m_help_context := (objAt st obj).m_help_context,
            m_guid := (objAt st obj).m_guid }], st.length)

/-- Source: `ComException(ComException&& obj) : ComException() { swap(*this,
obj); }`. -/
def ComException.construct_move (st : List ComException) (obj : Nat) :
    List ComException × Nat :=
  (ComException.swap (st ++ [ComException.construct_default]) st.length obj, st.length)

/-- Source: `ComException& operator=(ComException obj)` called with an lvalue:
the parameter is copy-constructed, swapped with `*this` and destroyed. -/
def ComException.assign_copy (st : List ComException) (self other : Nat) :
    List ComException :=
  let c := ComException.construct_copy st other
  (ComException.swap c.1 self c.2).eraseIdx c.2

/-- Source: `ComException& operator=(ComException obj)` called with an rvalue:
the parameter is move-constructed, swapped with `*this` and destroyed. -/
def ComException.assign_move (st : List ComException) (self other : Nat) :
    List ComException :=
  let c := ComException.construct_move st other
  (ComException.swap c.1 self c.2).eraseIdx c.2

/-- Two objects for the tests: the snapshot of the test and a default one. -/
def demoStore : List ComException :=
  [ComException.mk (-2147467259) [79, 98, 106] [98, 97, 100] [104] 2
     (GUID.mk 982349371 36801 16544 [180, 149, 225, 61, 166, 95, 139, 52]),
   ComException.construct_default]

/-! ## UBSTR: exclusive ownership of buffers -/

/-- Whether a buffer is allocated at address `p`: `1` if so, else `0`. -/
def live (h : BHeap) (p : Ptr) : Nat := if (h.read p).isSome then 1 else 0

/-- The predicate of exclusive ownership: no two live objects hold the same
buffer, and every buffer an object holds is allocated. -/
def ExclusiveOwnership (m : UMachine) : Prop :=
  (∀ i j, i < m.objs.length → j < m.objs.length → i ≠ j →
    m_bstr m i ≠ nullptr → m_bstr m i ≠ m_bstr m j) ∧
  (∀ i, i < m.objs.length → m_bstr m i ≠ nullptr →
    (m.heap.read (m_bstr m i)).isSome = true)

/-- No leak: every allocated buffer is held by some live object. -/
def NoLeak (m : UMachine) : Prop :=
  ∀ p, (m.heap.read p).isSome = true → ∃ i, i < m.objs.length ∧ m_bstr m i = p

/-- The bookkeeping of frees: no buffer was freed twice, and the freed buffers
are exactly the buffers that were allocated once and are no longer. -/
def FreedOnce (h : BHeap) : Prop :=
  h.frees.Nodup ∧
  ∀ p, p ∈ h.frees ↔ (p ≠ nullptr ∧ p ≤ h.bufs.length ∧ h.read p = none)

/-- The operations of `UBSTR` on the objects of a program; `receive` is the
use of `set` in the test (`GivesBSTR(set(s))`, test_ubstr.cpp 62-67): the
object is reset and a producer stores a newly allocated buffer through the
returned address. -/
inductive UOp where
  | construct_default
  | construct_wsz (wsz : Option (List wchar_t))
  | construct_wstring (ws : List wchar_t)
  | construct_copy (obj : Nat)
  | construct_move (obj : Nat)
  | assign_copy (self other : Nat)
  | assign_move (self other : Nat)
  | swap (a b : Nat)
  | set (obj : Nat)
  | receive (obj : Nat) (t : List wchar_t)
  | destruct (self : Nat)

/-- The effect of an operation on the program state. -/
def UOp.run : UOp → UMachine → UMachine
  | UOp.construct_default, m => (UBSTR.construct_default m).1
  | UOp.construct_wsz wsz, m => (UBSTR.construct_wsz m wsz).1
  | UOp.construct_wstring ws, m => (UBSTR.construct_wstring m ws).1
  | UOp.construct_copy obj, m => (UBSTR.construct_copy m obj).1
  | UOp.construct_move obj, m => (UBSTR.construct_move m obj).1
  | UOp.assign_copy self other, m => UBSTR.assign_copy m self other
  | UOp.assign_move self other, m => UBSTR.assign_move m self other
  | UOp.swap a b, m => UBSTR.swap m a b
  | UOp.set obj, m => (UBSTR.set m obj).1
  | UOp.receive obj t, m => GivesBSTR (UBSTR.set m obj).1 (UBSTR.set m obj).2 t
  | UOp.destruct self, m => UBSTR.destruct m self

/-- What an operation needs: the objects it names are live. -/
def UOp.ok : UOp → UMachine → Prop
  | UOp.construct_default, _ => True
  | UOp.construct_wsz _, _ => True
  | UOp.construct_wstring _, _ => True
  | UOp.construct_copy obj, m => obj < m.objs.length
  | UOp.construct_move obj, m => obj < m.objs.length
  | UOp.assign_copy self other, m => self < m.objs.length ∧ other < m.objs.length
  | UOp.assign_move self other, m => self < m.objs.length ∧ other < m.objs.length
  | UOp.swap a b, m => a < m.objs.length ∧ b < m.objs.length
  | UOp.set obj, m => obj < m.objs.length
  | UOp.receive obj _, m => obj < m.objs.length
  | UOp.destruct self, m => self < m.objs.length

/-- The state after a sequence of operations. -/
def runAll : List UOp → UMachine → UMachine
  | [], m => m
  | op :: ops, m => runAll ops (op.run m)

/-- Every operation of a sequence names live objects when its turn comes. -/
def okAll : List UOp → UMachine → Prop
  | [], _ => True
  | op :: ops, m => op.ok m ∧ okAll ops (op.run m)

/-- The start of a program: no object, nothing allocated, nothing freed, and
memory for `a` allocations. -/
def startU (a : Nat) : UMachine :=
  { objs := [], heap := { bufs := [], frees := [], avail := a } }

/-- A small program: two strings are built, the first is copied, the copy is
assigned to the second, the first is moved from, two objects are swapped, one
is reset, one receives a new buffer from a producer, and every object is
destroyed. -/
def demoProgram : List UOp :=
  [UOp.construct_wsz (some [97, 98]), UOp.construct_wstring [99],
   UOp.construct_copy 0, UOp.assign_copy 1 2, UOp.construct_move 0,
   UOp.swap 1 2, UOp.set 2, UOp.receive 1 [100],
   UOp.destruct 3, UOp.destruct 2, UOp.destruct 1, UOp.destruct 0]

/-! ## Basic facts about cells -/

theorem m_ptr_setPtr_self (m : Machine) (i : Nat) (v : Ptr) (h : i < m.mem.length) :
    m_ptr (setPtr m i v) i = v := by
  simp [m_ptr, setPtr, List.getD_eq_getElem?_getD, h]

theorem m_ptr_setPtr_other (m : Machine) (i j : Nat) (v : Ptr) (h : i ≠ j) :
    m_ptr (setPtr m i v) j = m_ptr m j := by
  simp [m_ptr, setPtr, List.getD_eq_getElem?_getD, List.getElem?_set_ne h]

theorem m_ptr_of_length_le (m : Machine) (i : Nat) (h : m.mem.length ≤ i) :
    m_ptr m i = nullptr := by
  simp [m_ptr, List.getD_eq_getElem?_getD, List.getElem?_eq_none h]

theorem lt_length_of_m_ptr_ne (m : Machine) (i : Nat) (h : m_ptr m i ≠ nullptr) :
    i < m.mem.length := by
  by_contra hc
  exact h (m_ptr_of_length_le m i (Nat.le_of_not_lt hc))

theorem m_ptr_append_new (m : Machine) (v : Ptr) :
    m_ptr { m with mem := m.mem ++ [v] } m.mem.length = v := by
  simp [m_ptr, List.getD_eq_getElem?_getD]

theorem m_ptr_append_old (m : Machine) (v : Ptr) (i : Nat) (h : i < m.mem.length) :
    m_ptr { m with mem := m.mem ++ [v] } i = m_ptr m i := by
  simp [m_ptr, List.getD_eq_getElem?_getD, List.getElem?_append_left h]

theorem m_ptr_heap_irrel (mem raw : List Ptr) (h1 h2 : Heap) (i : Nat) :
    m_ptr ⟨mem, raw, h1⟩ i = m_ptr ⟨mem, raw, h2⟩ i := rfl

theorem InternalAddRef_of_ne (m : Machine) (i : Nat) (h : m_ptr m i ≠ nullptr) :
    InternalAddRef m i = { m with heap := m.heap.AddRef (m_ptr m i) } := by
  simp [InternalAddRef, h]

theorem InternalAddRef_of_eq (m : Machine) (i : Nat) (h : m_ptr m i = nullptr) :
    InternalAddRef m i = m := by
  simp [InternalAddRef, h]

theorem InternalRelease_of_ne (m : Machine) (i : Nat) (h : m_ptr m i ≠ nullptr) :
    InternalRelease m i =
      { mem := m.mem.set i nullptr, raw := m.raw, heap := m.heap.Release (m_ptr m i) } := by
  simp [InternalRelease, h, setPtr]

theorem InternalRelease_of_eq (m : Machine) (i : Nat) (h : m_ptr m i = nullptr) :
    InternalRelease m i = m := by
  simp [InternalRelease, h]

theorem eraseIdx_append_last (l : List Ptr) (a : Ptr) :
    (l ++ [a]).eraseIdx l.length = l := by
  induction l with
  | nil => rfl
  | cons x xs ih => simp [List.eraseIdx, ih]

theorem eraseIdx_set_same (l : List Ptr) (i : Nat) (a : Ptr) :
    (l.set i a).eraseIdx i = l.eraseIdx i := by
  induction l generalizing i with
  | nil => rfl
  | cons x xs ih =>
    cases i with
    | zero => rfl
    | succ n => simp [List.set, List.eraseIdx, ih]

theorem rc_AddRef_Release (h : Heap) (p : Ptr) :
    ((h.AddRef p).Release p).rc = h.rc := by
  funext o
  by_cases ho : o = h.objOf p <;> simp [Heap.AddRef, Heap.Release, Function.update, ho]

/-! ## Copy construction and destruction -/

/-- C2: copy-constructing `c` from a non-null handle `h` issues exactly one
retain on the held reference (the count of its object goes from `n` to
`n + 1`, no other count moves), leaves `h` as it was and makes `c`, the new
last handle, hold the same reference; destroying `c` then issues exactly one
release, the counts are back to what they were and so are the handles.
Copy-constructing from a null handle issues no call and yields a null handle,
and destroying a null handle issues no call. -/
theorem copy_construct_then_destruct (m : Machine) (h : Nat) :
    (m_ptr m h ≠ nullptr →
      (construct_copy m h).2 = m.mem.length ∧
      (construct_copy m h).1.mem = m.mem ++ [m_ptr m h] ∧
      m_ptr (construct_copy m h).1 h = m_ptr m h ∧
      m_ptr (construct_copy m h).1 (construct_copy m h).2 = m_ptr m h ∧
      (construct_copy m h).1.heap.calls = m.heap.calls ++ [Call.AddRef (m_ptr m h)] ∧
      (construct_copy m h).1.heap.rc (m.heap.objOf (m_ptr m h))
        = m.heap.rc (m.heap.objOf (m_ptr m h)) + 1 ∧
      (∀ o, o ≠ m.heap.objOf (m_ptr m h) → (construct_copy m h).1.heap.rc o = m.heap.rc o) ∧
      (destruct (construct_copy m h).1 (construct_copy m h).2).heap.calls
        = m.heap.calls ++ [Call.AddRef (m_ptr m h), Call.Release (m_ptr m h)] ∧
      (destruct (construct_copy m h).1 (construct_copy m h).2).heap.rc = m.heap.rc ∧
      (destruct (construct_copy m h).1 (construct_copy m h).2).mem = m.mem) ∧
    (m_ptr m h = nullptr →
      (construct_copy m h).1.mem = m.mem ++ [nullptr] ∧
      m_ptr (construct_copy m h).1 (construct_copy m h).2 = nullptr ∧
      (construct_copy m h).1.heap = m.heap ∧
      (destruct m h).heap = m.heap ∧
      (destruct (construct_copy m h).1 (construct_copy m h).2).heap = m.heap) := by
  constructor
  · intro hp
    have hlt := lt_length_of_m_ptr_ne m h hp
    have hnew := m_ptr_append_new m (m_ptr m h)
    have hold := m_ptr_append_old m (m_ptr m h) h hlt
    have e1 : (construct_copy m h).1 =
        Machine.mk (m.mem ++ [m_ptr m h]) m.raw (m.heap.AddRef (m_ptr m h)) := by
      simp only [construct_copy]
      rw [InternalAddRef_of_ne _ _ (by rw [hnew]; exact hp), hnew]
    have e2 : (construct_copy m h).2 = m.mem.length := rfl
    have hn2 : m_ptr (Machine.mk (m.mem ++ [m_ptr m h]) m.raw (m.heap.AddRef (m_ptr m h)))
        m.mem.length = m_ptr m h := hnew
    have e3 : destruct (Machine.mk (m.mem ++ [m_ptr m h]) m.raw (m.heap.AddRef (m_ptr m h)))
        m.mem.length
        = Machine.mk m.mem m.raw ((m.heap.AddRef (m_ptr m h)).Release (m_ptr m h)) := by
      simp only [destruct]
      rw [InternalRelease_of_ne _ _ (by rw [hn2]; exact hp), hn2]
      simp only [eraseIdx_set_same, eraseIdx_append_last]
    rw [e2, e1, e3]
    refine ⟨rfl, rfl, hold, hnew, rfl, ?_, ?_, ?_, ?_, rfl⟩
    · simp [Heap.AddRef]
    · intro o ho
      simp [Heap.AddRef, Function.update, ho]
    · simp [Heap.AddRef, Heap.Release]
    · exact rc_AddRef_Release m.heap (m_ptr m h)
  · intro hp
    have hnew := m_ptr_append_new m nullptr
    have e1 : (construct_copy m h).1 = Machine.mk (m.mem ++ [nullptr]) m.raw m.heap := by
      simp only [construct_copy, hp]
      rw [InternalAddRef_of_eq _ _ hnew]
    have e2 : (construct_copy m h).2 = m.mem.length := rfl
    have hn2 : m_ptr (Machine.mk (m.mem ++ [nullptr]) m.raw m.heap) m.mem.length = nullptr :=
      hnew
    rw [e2, e1]
    refine ⟨rfl, hnew, rfl, ?_, ?_⟩
    · simp only [destruct]
      rw [InternalRelease_of_eq _ _ hp]
    · simp only [destruct]
      rw [InternalRelease_of_eq _ _ hn2]


/-- Witness for C2 on the scene: handle 0 holds the reference 16. -/
theorem copy_construct_then_destruct_witness :
    m_ptr demoMachine 0 ≠ nullptr ∧
    (construct_copy demoMachine 0).1.heap.calls = [Call.AddRef 16] ∧
    (construct_copy demoMachine 0).1.heap.rc 1 = 3 ∧
    (destruct (construct_copy demoMachine 0).1 (construct_copy demoMachine 0).2).mem
      = demoMachine.mem :=
  ⟨by decide,
   ((copy_construct_then_destruct demoMachine 0).1 (by decide)).2.2.2.2.1,
   ((copy_construct_then_destruct demoMachine 0).1 (by decide)).2.2.2.2.2.1,
   ((copy_construct_then_destruct demoMachine 0).1 (by decide)).2.2.2.2.2.2.2.2.2⟩

theorem InternalRelease_eq (m : Machine) (i : Nat) :
    InternalRelease m i =
      { mem := m.mem.set i nullptr, raw := m.raw, heap := released m.heap (m_ptr m i) } := by
  by_cases h : m_ptr m i = nullptr
  · rw [InternalRelease_of_eq m i h]
    have hs : m.mem.set i nullptr = m.mem := by
      by_cases hi : i < m.mem.length
      · apply List.ext_getElem (by simp)
        intro n h1 h2
        by_cases hn : i = n
        · subst hn
          simp only [List.getElem_set_self]
          simp only [m_ptr, List.getD_eq_getElem?_getD, List.getElem?_eq_getElem hi,
            Option.getD_some] at h
          exact h.symm
        · simp [List.getElem_set_ne hn]
      · exact List.set_eq_of_length_le (Nat.le_of_not_lt hi)
    simp [released, h, hs]
  · rw [InternalRelease_of_ne m i h]
    simp [released, h]

theorem InternalAddRef_eq (m : Machine) (i : Nat) :
    InternalAddRef m i = { m with heap := retained m.heap (m_ptr m i) } := by
  by_cases h : m_ptr m i = nullptr
  · rw [InternalAddRef_of_eq m i h]; simp [retained, h]
  · rw [InternalAddRef_of_ne m i h]; simp [retained, h]

theorem getD_set_self (l : List Ptr) (i : Nat) (v : Ptr) (h : i < l.length) :
    (l.set i v).getD i nullptr = v := by
  simp [List.getD_eq_getElem?_getD, h]

theorem getD_set_other (l : List Ptr) (i j : Nat) (v : Ptr) (h : i ≠ j) :
    (l.set i v).getD j nullptr = l.getD j nullptr := by
  simp [List.getD_eq_getElem?_getD, List.getElem?_set_ne h]

/-! ## Copy assignment -/

/-- C3: copy assignment `dst = src`.  When both already hold the identical
reference (self-assignment and both null included) the state is untouched: no
call is issued and no handle changes.  Otherwise the reference `dst` held is
released once if it is non-null, then the reference of `src` is retained once
if it is non-null, in this order and with no other call; `dst` ends holding
the reference of `src`, and `src` and every other handle are unchanged. -/
theorem copy_assign_spec (m : Machine) (dst src : Nat) :
    (m_ptr m dst = m_ptr m src → assign_copy m dst src = m) ∧
    (m_ptr m dst ≠ m_ptr m src → dst < m.mem.length →
      (assign_copy m dst src).heap
        = retained (released m.heap (m_ptr m dst)) (m_ptr m src) ∧
      (assign_copy m dst src).heap.calls
        = m.heap.calls
          ++ (if m_ptr m dst ≠ nullptr then [Call.Release (m_ptr m dst)] else [])
          ++ (if m_ptr m src ≠ nullptr then [Call.AddRef (m_ptr m src)] else []) ∧
      m_ptr (assign_copy m dst src) dst = m_ptr m src ∧
      m_ptr (assign_copy m dst src) src = m_ptr m src ∧
      (assign_copy m dst src).mem = m.mem.set dst (m_ptr m src)) := by
  constructor
  · intro h
    simp [assign_copy, InternalCopy, h]
  · intro hne hlt
    have hds : dst ≠ src := fun e => hne (by rw [e])
    have e : assign_copy m dst src =
        Machine.mk (m.mem.set dst (m_ptr m src)) m.raw
          (retained (released m.heap (m_ptr m dst)) (m_ptr m src)) := by
      simp only [assign_copy, InternalCopy, hne, ne_eq, not_false_eq_true, if_true]
      rw [InternalRelease_eq, InternalAddRef_eq]
      simp only [setPtr, m_ptr, List.set_set]
      rw [getD_set_self _ _ _ hlt]
    rw [e]
    refine ⟨rfl, ?_, ?_, ?_, rfl⟩
    · by_cases h1 : m_ptr m dst = nullptr <;> by_cases h2 : m_ptr m src = nullptr <;>
        simp [retained, released, h1, h2, Heap.AddRef, Heap.Release]
    · exact getD_set_self _ _ _ hlt
    · exact getD_set_other _ _ _ _ hds

/-- Witness for C3 on the scene: handle 2 (object 2) is assigned from handle 0
(object 1). -/
theorem copy_assign_spec_witness :
    m_ptr demoMachine 2 ≠ m_ptr demoMachine 0 ∧
    (assign_copy demoMachine 2 0).heap.calls = [Call.Release 32, Call.AddRef 16] ∧
    (assign_copy demoMachine 2 0).mem = [16, 16, 16, 0] ∧
    assign_copy demoMachine 0 1 = demoMachine :=
  ⟨by decide,
   ((copy_assign_spec demoMachine 2 0).2 (by decide) (by decide)).2.1,
   ((copy_assign_spec demoMachine 2 0).2 (by decide) (by decide)).2.2.2.2,
   (copy_assign_spec demoMachine 0 1).1 (by decide)⟩

theorem getD_of_length_le (l : List Ptr) (i : Nat) (h : l.length ≤ i) :
    l.getD i nullptr = nullptr := by
  rw [List.getD_eq_getElem?_getD, List.getElem?_eq_none h]
  rfl

/-! ## Move construction and move assignment -/

/-- C4, as stated, fails for move assignment between two handles that hold the
identical reference: on the scene handles 0 and 1 are distinct, live and both
hold the reference 16, and after `h0 = std::move(h1)` the source `h1` is not
null. -/
theorem move_assign_source_not_cleared :
    (0 : Nat) ≠ 1 ∧ m_ptr demoMachine 0 = 16 ∧ m_ptr demoMachine 1 = 16 ∧
    ¬ (m_ptr (assign_move demoMachine 0 1) 1 = nullptr) := by
  decide

/-- C4 (amended): move construction from any source `s` gives the new handle
the reference `s` held, leaves `s` null and issues no call at all.  Move
assignment into a live destination `d` that holds a different reference than
`s` gives `d` the reference of `s`, leaves `s` null, releases the reference
`d` held before exactly once if it was non-null and issues no other call, so
none on the moved reference.  Move assignment between handles that hold the
identical reference leaves the whole state as it is. -/
theorem move_spec (m : Machine) (d s : Nat) :
    ((construct_move m s).2 = m.mem.length ∧
      m_ptr (construct_move m s).1 (construct_move m s).2 = m_ptr m s ∧
      m_ptr (construct_move m s).1 s = nullptr ∧
      (construct_move m s).1.mem = (m.mem ++ [m_ptr m s]).set s nullptr ∧
      (construct_move m s).1.heap = m.heap) ∧
    (m_ptr m d ≠ m_ptr m s → d < m.mem.length →
      m_ptr (assign_move m d s) d = m_ptr m s ∧
      m_ptr (assign_move m d s) s = nullptr ∧
      (assign_move m d s).mem = ((m.mem.set d (m_ptr m s)).set s nullptr) ∧
      (assign_move m d s).heap = released m.heap (m_ptr m d) ∧
      (assign_move m d s).heap.calls
        = m.heap.calls
          ++ (if m_ptr m d ≠ nullptr then [Call.Release (m_ptr m d)] else []) ∧
      Call.AddRef (m_ptr m s) ∉ (if m_ptr m d ≠ nullptr then [Call.Release (m_ptr m d)] else []) ∧
      Call.Release (m_ptr m s) ∉ (if m_ptr m d ≠ nullptr then [Call.Release (m_ptr m d)] else [])) ∧
    (m_ptr m d = m_ptr m s → assign_move m d s = m) := by
  refine ⟨?_, ?_, ?_⟩
  rotate_left 2
  · intro he
    simp [assign_move, InternalMove, he]
  · refine ⟨rfl, ?_, ?_, rfl, rfl⟩
    · simp only [construct_move, setPtr, m_ptr]
      by_cases hs : s < m.mem.length
      · have hne : s ≠ m.mem.length := Nat.ne_of_lt hs
        rw [getD_set_other _ _ _ _ hne]
        simp [List.getD_eq_getElem?_getD]
      · have hle : m.mem.length ≤ s := Nat.le_of_not_lt hs
        have h0 : m.mem.getD s nullptr = nullptr := by
          simp [List.getD_eq_getElem?_getD, List.getElem?_eq_none hle]
        rw [h0]
        by_cases he : s = m.mem.length
        · subst he
          rw [getD_set_self _ _ _ (by simp)]
        · rw [getD_set_other _ _ _ _ he]
          simp [List.getD_eq_getElem?_getD]
    · simp only [construct_move, setPtr, m_ptr]
      by_cases hs : s < (m.mem ++ [m.mem.getD s nullptr]).length
      · exact getD_set_self _ _ _ hs
      · have hle := Nat.le_of_not_lt hs
        rw [List.set_eq_of_length_le hle]
        exact getD_of_length_le _ _ hle
  · intro hne hlt
    have hds : d ≠ s := fun e => hne (by rw [e])
    have e : assign_move m d s =
        Machine.mk ((m.mem.set d (m_ptr m s)).set s nullptr) m.raw
          (released m.heap (m_ptr m d)) := by
      simp only [assign_move, InternalMove, hne, ne_eq, not_false_eq_true, if_true]
      rw [InternalRelease_eq]
      simp only [setPtr, m_ptr, List.set_set]
      rw [getD_set_other _ _ _ _ hds]
    rw [e]
    refine ⟨?_, ?_, rfl, rfl, ?_, ?_, ?_⟩
    · simp only [m_ptr]
      rw [getD_set_other _ _ _ _ hds.symm, getD_set_self _ _ _ hlt]
    · simp only [m_ptr]
      by_cases hs : s < m.mem.length
      · exact getD_set_self _ _ _ (by simpa using hs)
      · have hle : ((m.mem.set d (m.mem.getD s nullptr))).length ≤ s := by
          simpa using Nat.le_of_not_lt hs
        rw [List.set_eq_of_length_le hle]
        exact getD_of_length_le _ _ hle
    · by_cases h1 : m_ptr m d = nullptr <;> simp [released, h1, Heap.Release]
    · by_cases h1 : m_ptr m d = nullptr <;> simp [h1]
    · by_cases h1 : m_ptr m d = nullptr
      · simp [h1]
      · simp only [ne_eq, h1, not_false_eq_true, if_true, List.mem_singleton, Call.Release.injEq]
        exact fun e => hne e.symm

/-- Witness for C4 (amended) on the scene: handle 2 (reference 32) is
move-assigned from handle 0 (reference 16). -/
theorem move_spec_witness :
    m_ptr demoMachine 2 ≠ m_ptr demoMachine 0 ∧
    (assign_move demoMachine 2 0).mem = [0, 16, 16, 0] ∧
    (assign_move demoMachine 2 0).heap.calls = [Call.Release 32] :=
  ⟨by decide,
   ((move_spec demoMachine 2 0).2.1 (by decide) (by decide)).2.2.1,
   ((move_spec demoMachine 2 0).2.1 (by decide) (by decide)).2.2.2.2.1⟩

/-- C5, as stated, fails: on the scene handles 0 and 1 hold the identical
non-null reference 16, and `h0 = std::move(h1)` issues no release and does not
clear the source. -/
theorem move_assign_identical_no_release :
    m_ptr demoMachine 0 = m_ptr demoMachine 1 ∧ m_ptr demoMachine 0 ≠ nullptr ∧
    (assign_move demoMachine 0 1).heap.calls = demoMachine.heap.calls ∧
    Call.Release 16 ∉ (assign_move demoMachine 0 1).heap.calls ∧
    m_ptr (assign_move demoMachine 0 1) 1 = 16 := by
  decide

/-- C5 (amended): move assignment between two handles that already hold the
identical reference changes nothing: no release is issued, the source keeps
its reference and the destination still holds it. -/
theorem move_assign_identical (m : Machine) (d s : Nat)
    (h : m_ptr m d = m_ptr m s) :
    assign_move m d s = m ∧
    (assign_move m d s).heap.calls = m.heap.calls ∧
    m_ptr (assign_move m d s) d = m_ptr m d ∧
    m_ptr (assign_move m d s) s = m_ptr m s := by
  have e : assign_move m d s = m := by
    simp [assign_move, InternalMove, h]
  rw [e]
  exact ⟨rfl, rfl, rfl, rfl⟩

/-- Witness for C5 (amended) on the scene: handles 0 and 1. -/
theorem move_assign_identical_witness :
    m_ptr demoMachine 0 = m_ptr demoMachine 1 ∧
    assign_move demoMachine 0 1 = demoMachine :=
  ⟨by decide, (move_assign_identical demoMachine 0 1 (by decide)).1⟩

/-! ## Output slot, null assignment, detach / attach, swap -/

theorem set_eq (m : Machine) (h : Nat) :
    (set m h).1 = InternalRelease m h := by
  by_cases hp : m_ptr m h = nullptr
  · have hb : toBool m h = false := by simp [toBool, hp]
    simp only [set, hb, Bool.false_eq_true, if_false]
    rw [InternalRelease_of_eq m h hp]
  · have hb : toBool m h = true := by simp [toBool, hp]
    simp only [set, hb, if_true, assign_nullptr]

/-- C6: `set(h)` returns the address of the `m_ptr` member of `h` itself, and
the cell behind that address is null in the state it returns.  If `h` held a
reference, that reference was released exactly once and no other call was
issued; if `h` was null the state is untouched.  Null assignment
`h = nullptr` leaves exactly the same state: same handles, same counts, same
calls. -/
theorem set_resets_slot (m : Machine) (h : Nat) :
    (set m h).2 = Slot.handle h ∧
    load (set m h).1 (set m h).2 = nullptr ∧
    m_ptr (set m h).1 h = nullptr ∧
    (m_ptr m h ≠ nullptr →
      (set m h).1.heap = m.heap.Release (m_ptr m h) ∧
      (set m h).1.heap.calls = m.heap.calls ++ [Call.Release (m_ptr m h)] ∧
      (set m h).1.mem = m.mem.set h nullptr) ∧
    (m_ptr m h = nullptr → (set m h).1 = m) ∧
    assign_nullptr m h = (set m h).1 := by
  have hnull : m_ptr (set m h).1 h = nullptr := by
    rw [set_eq, InternalRelease_eq]
    simp only [m_ptr]
    by_cases hi : h < m.mem.length
    · exact getD_set_self _ _ _ hi
    · have hle := Nat.le_of_not_lt hi
      rw [List.set_eq_of_length_le hle]
      exact getD_of_length_le _ _ hle
  refine ⟨rfl, hnull, hnull, ?_, ?_, ?_⟩
  · intro hp
    rw [set_eq, InternalRelease_of_ne m h hp]
    exact ⟨rfl, rfl, rfl⟩
  · intro hp
    rw [set_eq, InternalRelease_of_eq m h hp]
  · rw [set_eq]
    rfl

/-- Witness for C6 on the scene: handle 2 holds the reference 32. -/
theorem set_resets_slot_witness :
    m_ptr demoMachine 2 ≠ nullptr ∧
    (set demoMachine 2).1.heap.calls = [Call.Release 32] ∧
    (set demoMachine 2).1.mem = [16, 16, 0, 0] ∧
    (set demoMachine 3).1 = demoMachine :=
  ⟨by decide,
   ((set_resets_slot demoMachine 2).2.2.2.1 (by decide)).2.1,
   ((set_resets_slot demoMachine 2).2.2.2.1 (by decide)).2.2,
   (set_resets_slot demoMachine 3).2.2.2.2.1 (by decide)⟩

theorem set_getD_same (l : List Ptr) (i : Nat) :
    l.set i (l.getD i nullptr) = l := by
  by_cases hi : i < l.length
  · apply List.ext_getElem (by simp)
    intro n h1 h2
    by_cases hn : i = n
    · subst hn
      simp [List.getD_eq_getElem?_getD, List.getElem?_eq_getElem hi]
    · simp [List.getElem_set_ne hn]
  · exact List.set_eq_of_length_le (Nat.le_of_not_lt hi)

/-- C7: `detach(h)` returns the reference `h` held, leaves `h` null and leaves
the object model untouched (no release, no retain); `attach(h, r)` with the
returned reference right afterwards gives back exactly the original state, so
across the pair no call is issued on any object and no count changes. -/
theorem detach_attach_roundtrip (m : Machine) (h : Nat) :
    (detach m h).2 = m_ptr m h ∧
    m_ptr (detach m h).1 h = nullptr ∧
    (detach m h).1.heap = m.heap ∧
    (detach m h).1.mem = m.mem.set h nullptr ∧
    attach (detach m h).1 h (detach m h).2 = m ∧
    (attach (detach m h).1 h (detach m h).2).heap.calls = m.heap.calls := by
  have hnull : m_ptr (detach m h).1 h = nullptr := by
    simp only [detach, setPtr, m_ptr]
    by_cases hi : h < m.mem.length
    · exact getD_set_self _ _ _ hi
    · have hle := Nat.le_of_not_lt hi
      rw [List.set_eq_of_length_le hle]
      exact getD_of_length_le _ _ hle
  have hback : attach (detach m h).1 h (detach m h).2 = m := by
    simp only [attach]
    rw [InternalRelease_of_eq _ _ hnull]
    simp only [detach, setPtr, m_ptr, List.set_set]
    rw [set_getD_same]
  refine ⟨rfl, hnull, rfl, rfl, hback, ?_⟩
  rw [hback]

/-- C8: for two live handles `a` and `b`, `swap(a, b)` leaves `a` holding what
`b` held and `b` holding what `a` held, leaves the object model untouched (no
call issued, every count unchanged), and a second `swap(a, b)` restores the
original state. -/
theorem swap_spec (m : Machine) (a b : Nat)
    (ha : a < m.mem.length) (hb : b < m.mem.length) :
    m_ptr (swap m a b) a = m_ptr m b ∧
    m_ptr (swap m a b) b = m_ptr m a ∧
    (swap m a b).heap = m.heap ∧
    (swap m a b).heap.calls = m.heap.calls ∧
    (swap m a b).heap.rc = m.heap.rc ∧
    swap (swap m a b) a b = m := by
  have h1 : m_ptr (swap m a b) a = m_ptr m b := by
    simp only [swap, setPtr, m_ptr]
    by_cases hab : a = b
    · subst hab
      rw [getD_set_self _ _ _ (by simpa using ha)]
    · rw [getD_set_other _ _ _ _ (Ne.symm hab), getD_set_self _ _ _ ha]
  have h2 : m_ptr (swap m a b) b = m_ptr m a := by
    simp only [swap, setPtr, m_ptr]
    exact getD_set_self _ _ _ (by simpa using hb)
  refine ⟨h1, h2, rfl, rfl, rfl, ?_⟩
  have e : swap (swap m a b) a b =
      Machine.mk (((swap m a b).mem.set a (m_ptr (swap m a b) b)).set b (m_ptr (swap m a b) a))
        m.raw m.heap := rfl
  rw [e, h1, h2]
  have hm : (((swap m a b).mem.set a (m_ptr m a)).set b (m_ptr m b)) = m.mem := by
    simp only [swap, setPtr, m_ptr]
    apply List.ext_getElem (by simp)
    intro n hn1 hn2
    by_cases hbn : b = n
    · subst hbn
      simp [List.getD_eq_getElem?_getD, List.getElem?_eq_getElem hb]
    · rw [List.getElem_set_ne hbn]
      by_cases han : a = n
      · subst han
        simp [List.getD_eq_getElem?_getD, List.getElem?_eq_getElem ha]
      · rw [List.getElem_set_ne han, List.getElem_set_ne hbn, List.getElem_set_ne han]
  rw [hm]

/-- Witness for C8 on the scene: handle 0 (reference 16) and the null handle
3. -/
theorem swap_spec_witness :
    (0 : Nat) < demoMachine.mem.length ∧ (3 : Nat) < demoMachine.mem.length ∧
    m_ptr (swap demoMachine 0 3) 0 = m_ptr demoMachine 3 ∧
    m_ptr (swap demoMachine 0 3) 3 = m_ptr demoMachine 0 ∧
    swap (swap demoMachine 0 3) 0 3 = demoMachine :=
  ⟨by decide, by decide,
   (swap_spec demoMachine 0 3 (by decide) (by decide)).1,
   (swap_spec demoMachine 0 3 (by decide) (by decide)).2.1,
   (swap_spec demoMachine 0 3 (by decide) (by decide)).2.2.2.2.2⟩

/-! ## CopyTo with an absent slot -/

/-- C10: `CopyTo` returns `E_POINTER` exactly when the output slot is absent,
and with an absent slot the whole state is untouched: no retain is issued,
nothing is written and the handle is unchanged. -/
theorem CopyTo_absent_slot (m : Machine) (h : Nat) (slot : Option Slot) :
    ((CopyTo m h slot).2 = E_POINTER ↔ slot = none) ∧
    (CopyTo m h none).1 = m ∧
    (CopyTo m h none).1.heap.calls = m.heap.calls ∧
    m_ptr (CopyTo m h none).1 h = m_ptr m h := by
  refine ⟨?_, rfl, rfl, rfl⟩
  cases slot with
  | none => simp [CopyTo]
  | some s => simp [CopyTo, S_OK, E_POINTER]

/-! ## Capability query -/

theorem m_ptr_mk_append_new (mem raw : List Ptr) (heap : Heap) (v : Ptr) :
    m_ptr (Machine.mk (mem ++ [v]) raw heap) mem.length = v := by
  simp [m_ptr, List.getD_eq_getElem?_getD]

theorem As_eq (q : Query) (m : Machine) (h riid : Nat) (hp : m_ptr m h ≠ nullptr) :
    As q m h riid =
      some (Machine.mk (m.mem ++ [(q m.heap (m_ptr m h) riid).out.getD nullptr]) m.raw
              (q m.heap (m_ptr m h) riid).heap, m.mem.length) := by
  have hlt := lt_length_of_m_ptr_ne m h hp
  have hnew : m_ptr (construct_default m).1 (construct_default m).2 = nullptr :=
    m_ptr_append_new m nullptr
  have hset : (set (construct_default m).1 (construct_default m).2).1 = (construct_default m).1 := by
    rw [set_eq, InternalRelease_of_eq _ _ hnew]
  have hold : m_ptr (construct_default m).1 h = m_ptr m h := m_ptr_append_old m nullptr h hlt
  have hslot : (set (construct_default m).1 (construct_default m).2).2 = Slot.handle m.mem.length :=
    rfl
  simp only [As, hp, if_false, hset, hslot, hold]
  have hh : (construct_default m).1.heap = m.heap := rfl
  rw [hh]
  cases hout : (q m.heap (m_ptr m h) riid).out with
  | none => simp [construct_default, nullptr]
  | some v => simp [construct_default, store, setPtr]

/-- C9: for a non-null handle `h` and a query that obeys the collaborator
contract on the call made through it, `h.As<U>(id)` returns a new handle (the
new last one).  It holds exactly the reference the query stored (null when the
query stored nothing): it is null when the query fails and non-null, a view of
the object `h` holds, when it succeeds; when the query stores the very
reference `h` holds the result compares equal to `h`.  `h` and all other
handles are unchanged; the count of the object goes up by one on success (no
other count moves) and no count changes on failure. -/
theorem As_spec (q : Query) (m : Machine) (h riid : Nat)
    (hp : m_ptr m h ≠ nullptr)
    (hq : ObeysContractAt q m.heap (m_ptr m h) riid) :
    ∃ r : Machine, As q m h riid = some (r, m.mem.length) ∧
      r.mem = m.mem ++ [(q m.heap (m_ptr m h) riid).out.getD nullptr] ∧
      m_ptr r m.mem.length = (q m.heap (m_ptr m h) riid).out.getD nullptr ∧
      m_ptr r h = m_ptr m h ∧
      (SUCCEEDED (q m.heap (m_ptr m h) riid).hr = false →
        m_ptr r m.mem.length = nullptr ∧ toBool r m.mem.length = false ∧
        r.heap.rc = m.heap.rc) ∧
      (SUCCEEDED (q m.heap (m_ptr m h) riid).hr = true →
        m_ptr r m.mem.length ≠ nullptr ∧ toBool r m.mem.length = true ∧
        (q m.heap (m_ptr m h) riid).out = some (m_ptr r m.mem.length) ∧
        r.heap.objOf (m_ptr r m.mem.length) = r.heap.objOf (m_ptr r h) ∧
        r.heap.rc (m.heap.objOf (m_ptr m h)) = m.heap.rc (m.heap.objOf (m_ptr m h)) + 1 ∧
        (∀ o, o ≠ m.heap.objOf (m_ptr m h) → r.heap.rc o = m.heap.rc o)) ∧
      ((q m.heap (m_ptr m h) riid).out = some (m_ptr m h) →
        op_eq r m.mem.length h = true) := by
  have hlt := lt_length_of_m_ptr_ne m h hp
  refine ⟨_, As_eq q m h riid hp, rfl, ?_, ?_, ?_, ?_, ?_⟩
  · exact m_ptr_append_new m _
  · exact m_ptr_append_old m _ h hlt
  · intro hf
    obtain ⟨ho, hrc⟩ := hq.2.2 hf
    have hv : (q m.heap (m_ptr m h) riid).out.getD nullptr = nullptr := by
      rcases ho with ho | ho <;> rw [ho] <;> rfl
    have hn : m_ptr (Machine.mk (m.mem ++ [(q m.heap (m_ptr m h) riid).out.getD nullptr]) m.raw
        (q m.heap (m_ptr m h) riid).heap) m.mem.length = nullptr :=
      (m_ptr_mk_append_new _ _ _ _).trans hv
    refine ⟨hn, ?_, hrc⟩
    simp [toBool, hn]
  · intro hs
    obtain ⟨⟨v, hv0, hv, hobj⟩, hrc⟩ := hq.2.1 hs
    have hg : (q m.heap (m_ptr m h) riid).out.getD nullptr = v := by rw [hv]; rfl
    have hn : m_ptr (Machine.mk (m.mem ++ [(q m.heap (m_ptr m h) riid).out.getD nullptr]) m.raw
        (q m.heap (m_ptr m h) riid).heap) m.mem.length = v :=
      (m_ptr_mk_append_new _ _ _ _).trans hg
    have hh : m_ptr (Machine.mk (m.mem ++ [(q m.heap (m_ptr m h) riid).out.getD nullptr]) m.raw
        (q m.heap (m_ptr m h) riid).heap) h = m_ptr m h := m_ptr_append_old m _ h hlt
    rw [hn, hh]
    refine ⟨hv0, ?_, hv, ?_, ?_, ?_⟩
    · simp only [toBool, hn]
      simpa using hv0
    · show (q m.heap (m_ptr m h) riid).heap.objOf v = (q m.heap (m_ptr m h) riid).heap.objOf _
      rw [hq.1]; exact hobj
    · show (q m.heap (m_ptr m h) riid).heap.rc _ = _
      rw [hrc]; simp
    · intro o ho
      show (q m.heap (m_ptr m h) riid).heap.rc _ = _
      rw [hrc]; simp [Function.update, ho]
  · intro he
    have hg : (q m.heap (m_ptr m h) riid).out.getD nullptr = m_ptr m h := by rw [he]; rfl
    have hn : m_ptr (Machine.mk (m.mem ++ [(q m.heap (m_ptr m h) riid).out.getD nullptr]) m.raw
        (q m.heap (m_ptr m h) riid).heap) m.mem.length = m_ptr m h :=
      (m_ptr_mk_append_new _ _ _ _).trans hg
    have hh : m_ptr (Machine.mk (m.mem ++ [(q m.heap (m_ptr m h) riid).out.getD nullptr]) m.raw
        (q m.heap (m_ptr m h) riid).heap) h = m_ptr m h := m_ptr_append_old m _ h hlt
    simp only [op_eq, get, hn, hh, beq_self_eq_true]

theorem demoQuery_obeys_IB : ObeysContractAt demoQuery demoMachine.heap (m_ptr demoMachine 0) IID_IB := by
  refine ⟨rfl, ?_, ?_⟩
  · intro _
    exact ⟨⟨24, by decide, rfl, rfl⟩, rfl⟩
  · intro hf
    exact absurd hf (by decide)

/-- Witness for C9 on the scene: handle 0 (the `IA` view of object 1) is asked
for `IB`. -/
theorem As_spec_witness :
    m_ptr demoMachine 0 ≠ nullptr ∧
    ObeysContractAt demoQuery demoMachine.heap (m_ptr demoMachine 0) IID_IB ∧
    ∃ r : Machine, As demoQuery demoMachine 0 IID_IB = some (r, 4) ∧
      r.mem = [16, 16, 32, 0, 24] :=
  ⟨by decide, demoQuery_obeys_IB,
   (As_spec demoQuery demoMachine 0 IID_IB (by decide) demoQuery_obeys_IB).imp
     (fun _ hr => ⟨hr.1, hr.2.1⟩)⟩

/-! ## The ownership invariant -/

theorem holders_eq_cnt (m : Machine) (o : Nat) : holders m o = cnt m.heap.objOf m.mem o := rfl

theorem ind_nullptr (f : Ptr → Nat) (o : Nat) : ind f nullptr o = 0 := by
  simp [ind]

theorem cnt_append (f : Ptr → Nat) (l : List Ptr) (v : Ptr) (o : Nat) :
    cnt f (l ++ [v]) o = cnt f l o + ind f v o := by
  simp only [cnt, ind, List.countP_append, List.countP_cons, List.countP_nil, decide_eq_true_eq]
  simp

theorem cnt_set (f : Ptr → Nat) (l : List Ptr) (i : Nat) (v : Ptr) (o : Nat)
    (h : i < l.length) :
    cnt f (l.set i v) o + ind f (l.getD i nullptr) o = cnt f l o + ind f v o := by
  induction l generalizing i with
  | nil => simp at h
  | cons x xs ih =>
    cases i with
    | zero =>
      simp only [List.set_cons_zero, cnt, ind, List.countP_cons, List.getD_cons_zero,
        decide_eq_true_eq]
      omega
    | succ n =>
      have hn : n < xs.length := by simpa using h
      have := ih n hn
      simp only [List.set_cons_succ, cnt, List.countP_cons, List.getD_cons_succ] at this ⊢
      omega

theorem cnt_eraseIdx (f : Ptr → Nat) (l : List Ptr) (i : Nat) (o : Nat)
    (h : i < l.length) :
    cnt f (l.eraseIdx i) o + ind f (l.getD i nullptr) o = cnt f l o := by
  induction l generalizing i with
  | nil => simp at h
  | cons x xs ih =>
    cases i with
    | zero =>
      simp only [List.eraseIdx_cons_zero, cnt, ind, List.countP_cons, List.getD_cons_zero,
        decide_eq_true_eq]
    | succ n =>
      have hn : n < xs.length := by simpa using h
      have := ih n hn
      simp only [List.eraseIdx_cons_succ, cnt, List.countP_cons, List.getD_cons_succ] at this ⊢
      omega

theorem rc_released (h : Heap) (p : Ptr) (o : Nat) :
    (released h p).rc o = h.rc o - ind h.objOf p o := by
  by_cases hp : p = nullptr
  · simp [released, ind, hp]
  · by_cases ho : h.objOf p = o
    · subst ho
      simp [released, ind, hp, Heap.Release]
    · have ho2 : o ≠ h.objOf p := fun e => ho e.symm
      simp [released, ind, hp, Heap.Release, Function.update, ho, ho2]

theorem rc_retained (h : Heap) (p : Ptr) (o : Nat) :
    (retained h p).rc o = h.rc o + ind h.objOf p o := by
  by_cases hp : p = nullptr
  · simp [retained, ind, hp]
  · by_cases ho : h.objOf p = o
    · subst ho
      simp [retained, ind, hp, Heap.AddRef]
    · have ho2 : o ≠ h.objOf p := fun e => ho e.symm
      simp [retained, ind, hp, Heap.AddRef, Function.update, ho, ho2]

theorem objOf_released (h : Heap) (p : Ptr) : (released h p).objOf = h.objOf := by
  by_cases hp : p = nullptr <;> simp [released, hp, Heap.Release]

theorem objOf_retained (h : Heap) (p : Ptr) : (retained h p).objOf = h.objOf := by
  by_cases hp : p = nullptr <;> simp [retained, hp, Heap.AddRef]

theorem gain_apply (h : Heap) (owned : Nat → Nat) (p : Ptr) (o : Nat) :
    gain h owned p o = owned o + ind h.objOf p o := by
  by_cases hp : p = nullptr
  · simp [gain, ind, hp]
  · by_cases ho : h.objOf p = o
    · subst ho
      simp [gain, ind, hp]
    · have ho2 : o ≠ h.objOf p := fun e => ho e.symm
      simp [gain, ind, hp, Function.update, ho, ho2]

theorem spend_apply (h : Heap) (owned : Nat → Nat) (p : Ptr) (o : Nat) :
    spend h owned p o = owned o - ind h.objOf p o := by
  by_cases hp : p = nullptr
  · simp [spend, ind, hp]
  · by_cases ho : h.objOf p = o
    · subst ho
      simp [spend, ind, hp]
    · have ho2 : o ≠ h.objOf p := fun e => ho e.symm
      simp [spend, ind, hp, Function.update, ho, ho2]

theorem ind_le_owned (f : Ptr → Nat) (owned : Nat → Nat) (p : Ptr) (o : Nat)
    (h : p ≠ nullptr → 1 ≤ owned (f p)) : ind f p o ≤ owned o := by
  by_cases hp : p = nullptr
  · simp [ind, hp]
  · by_cases ho : f p = o
    · subst ho
      simp [ind, hp, h hp]
    · simp [ind, hp, ho]

theorem InternalCopy_of_ne (m : Machine) (self : Nat) (r : Ptr)
    (hne : m_ptr m self ≠ r) (hlt : self < m.mem.length) :
    InternalCopy m self r =
      Machine.mk (m.mem.set self r) m.raw (retained (released m.heap (m_ptr m self)) r) := by
  simp only [InternalCopy, hne, ne_eq, not_false_eq_true, if_true]
  rw [InternalRelease_eq, InternalAddRef_eq]
  simp only [setPtr, m_ptr, List.set_set]
  rw [getD_set_self _ _ _ hlt]

theorem InternalMove_of_ne (m : Machine) (d s : Nat)
    (hne : m_ptr m d ≠ m_ptr m s) :
    InternalMove m d s =
      Machine.mk ((m.mem.set d (m_ptr m s)).set s nullptr) m.raw
        (released m.heap (m_ptr m d)) := by
  have hds : d ≠ s := fun e => hne (by rw [e])
  simp only [InternalMove, hne, ne_eq, not_false_eq_true, if_true]
  rw [InternalRelease_eq]
  simp only [setPtr, m_ptr, List.set_set]
  rw [getD_set_other _ _ _ _ hds]

theorem balanced_mk (mem raw : List Ptr) (heap : Heap) (owned : Nat → Nat)
    (h : ∀ o, heap.rc o = cnt heap.objOf mem o + owned o) :
    Balanced (Sys.mk (Machine.mk mem raw heap) owned) := h

theorem balanced_apply (s : Sys) (hb : Balanced s) (o : Nat) :
    s.m.heap.rc o = cnt s.m.heap.objOf s.m.mem o + s.owned o := hb o

theorem balanced_release (s : Sys) (hb : Balanced s) (i : Nat) (hi : i < s.m.mem.length) :
    Balanced (Sys.mk (InternalRelease s.m i) s.owned) := by
  rw [InternalRelease_eq]
  apply balanced_mk
  intro o
  have h0 := balanced_apply s hb o
  have h1 := cnt_set s.m.heap.objOf s.m.mem i nullptr o hi
  rw [ind_nullptr] at h1
  rw [rc_released, objOf_released]
  simp only [m_ptr]
  omega

theorem balanced_copy (s : Sys) (hb : Balanced s) (i : Nat) (r : Ptr)
    (hi : i < s.m.mem.length) :
    Balanced (Sys.mk (InternalCopy s.m i r) s.owned) := by
  by_cases hne : m_ptr s.m i = r
  · have e : InternalCopy s.m i r = s.m := by simp [InternalCopy, hne]
    rw [e]; exact hb
  · rw [InternalCopy_of_ne _ _ _ hne hi]
    apply balanced_mk
    intro o
    have h0 := balanced_apply s hb o
    have h1 := cnt_set s.m.heap.objOf s.m.mem i r o hi
    have h2 := cnt_set s.m.heap.objOf s.m.mem i nullptr o hi
    rw [ind_nullptr] at h2
    rw [rc_retained, rc_released, objOf_retained, objOf_released]
    simp only [m_ptr]
    omega

theorem balanced_move (s : Sys) (hb : Balanced s) (d r : Nat)
    (hd : d < s.m.mem.length) (hr : r < s.m.mem.length) :
    Balanced (Sys.mk (InternalMove s.m d r) s.owned) := by
  by_cases hne : m_ptr s.m d = m_ptr s.m r
  · have e : InternalMove s.m d r = s.m := by simp [InternalMove, hne]
    rw [e]; exact hb
  · have hdr : d ≠ r := fun e => hne (by rw [e])
    rw [InternalMove_of_ne _ _ _ hne]
    apply balanced_mk
    intro o
    have h0 := balanced_apply s hb o
    have h1 := cnt_set s.m.heap.objOf s.m.mem d (m_ptr s.m r) o hd
    have h2 := cnt_set s.m.heap.objOf (s.m.mem.set d (m_ptr s.m r)) r nullptr o
      (by simpa using hr)
    have h3 := cnt_set s.m.heap.objOf s.m.mem d nullptr o hd
    rw [ind_nullptr] at h2 h3
    rw [getD_set_other _ _ _ _ hdr] at h2
    rw [rc_released, objOf_released]
    simp only [m_ptr] at h1 h2 ⊢
    omega

theorem balanced_swap (s : Sys) (hb : Balanced s) (a b : Nat)
    (ha : a < s.m.mem.length) (hb2 : b < s.m.mem.length) :
    Balanced (Sys.mk (swap s.m a b) s.owned) := by
  show Balanced (Sys.mk (Machine.mk ((s.m.mem.set a (m_ptr s.m b)).set b (m_ptr s.m a))
    s.m.raw s.m.heap) s.owned)
  apply balanced_mk
  intro o
  have h0 := balanced_apply s hb o
  have h1 := cnt_set s.m.heap.objOf s.m.mem a (m_ptr s.m b) o ha
  have h2 := cnt_set s.m.heap.objOf (s.m.mem.set a (m_ptr s.m b)) b (m_ptr s.m a) o
    (by simpa using hb2)
  have h3 : (s.m.mem.set a (m_ptr s.m b)).getD b nullptr = m_ptr s.m b := by
    by_cases hab : a = b
    · subst hab
      exact getD_set_self _ _ _ ha
    · rw [getD_set_other _ _ _ _ hab]; rfl
  rw [h3] at h2
  simp only [m_ptr] at h1 h2 ⊢
  omega

theorem balanced_destruct (s : Sys) (hb : Balanced s) (i : Nat) (hi : i < s.m.mem.length) :
    Balanced (Sys.mk (destruct s.m i) s.owned) := by
  have e : destruct s.m i =
      Machine.mk (s.m.mem.eraseIdx i) s.m.raw (released s.m.heap (m_ptr s.m i)) := by
    simp only [destruct]
    rw [InternalRelease_eq]
    simp only [eraseIdx_set_same]
  rw [e]
  apply balanced_mk
  intro o
  have h0 := balanced_apply s hb o
  have h1 := cnt_eraseIdx s.m.heap.objOf s.m.mem i o hi
  rw [rc_released, objOf_released]
  simp only [m_ptr]
  omega

theorem balanced_construct_copy (s : Sys) (hb : Balanced s) (j : Nat) :
    Balanced (Sys.mk (construct_copy s.m j).1 s.owned) := by
  have e : (construct_copy s.m j).1 =
      Machine.mk (s.m.mem ++ [m_ptr s.m j]) s.m.raw (retained s.m.heap (m_ptr s.m j)) := by
    simp only [construct_copy]
    rw [InternalAddRef_eq, m_ptr_append_new]
  rw [e]
  apply balanced_mk
  intro o
  have h0 := balanced_apply s hb o
  rw [rc_retained, objOf_retained, cnt_append]
  omega

theorem balanced_construct_move (s : Sys) (hb : Balanced s) (j : Nat)
    (hj : j < s.m.mem.length) :
    Balanced (Sys.mk (construct_move s.m j).1 s.owned) := by
  show Balanced (Sys.mk (Machine.mk ((s.m.mem ++ [m_ptr s.m j]).set j nullptr)
    s.m.raw s.m.heap) s.owned)
  apply balanced_mk
  intro o
  have h0 := balanced_apply s hb o
  have h1 := cnt_set s.m.heap.objOf (s.m.mem ++ [m_ptr s.m j]) j nullptr o
    (by simp; omega)
  have h2 : (s.m.mem ++ [m_ptr s.m j]).getD j nullptr = m_ptr s.m j := by
    simp [m_ptr, List.getD_eq_getElem?_getD, List.getElem?_append_left hj]
  rw [h2, ind_nullptr, cnt_append] at h1
  omega

theorem balanced_attach (s : Sys) (hb : Balanced s) (i : Nat) (p : Ptr)
    (hi : i < s.m.mem.length) (hp : p ≠ nullptr → 1 ≤ s.owned (s.m.heap.objOf p)) :
    Balanced (Sys.mk (attach s.m i p) (spend s.m.heap s.owned p)) := by
  have e : attach s.m i p =
      Machine.mk (s.m.mem.set i p) s.m.raw (released s.m.heap (m_ptr s.m i)) := by
    simp only [attach]
    rw [InternalRelease_eq]
    simp only [setPtr, List.set_set]
  rw [e]
  apply balanced_mk
  intro o
  have h0 := balanced_apply s hb o
  have h1 := cnt_set s.m.heap.objOf s.m.mem i p o hi
  have h2 := cnt_set s.m.heap.objOf s.m.mem i nullptr o hi
  have h3 := ind_le_owned s.m.heap.objOf s.owned p o hp
  rw [ind_nullptr] at h2
  rw [rc_released, objOf_released, spend_apply]
  simp only [m_ptr]
  omega

theorem balanced_detach (s : Sys) (hb : Balanced s) (i : Nat) (hi : i < s.m.mem.length) :
    Balanced (Sys.mk (detach s.m i).1 (gain s.m.heap s.owned (detach s.m i).2)) := by
  show Balanced (Sys.mk (Machine.mk (s.m.mem.set i nullptr) s.m.raw s.m.heap)
    (gain s.m.heap s.owned (m_ptr s.m i)))
  apply balanced_mk
  intro o
  have h0 := balanced_apply s hb o
  have h1 := cnt_set s.m.heap.objOf s.m.mem i nullptr o hi
  rw [ind_nullptr] at h1
  rw [gain_apply]
  simp only [m_ptr]
  omega

theorem balanced_CopyTo (s : Sys) (hb : Balanced s) (i k : Nat) :
    Balanced (Sys.mk (CopyTo s.m i (some (Slot.raw k))).1
      (gain s.m.heap s.owned (m_ptr s.m i))) := by
  have e : (CopyTo s.m i (some (Slot.raw k))).1 =
      Machine.mk s.m.mem (s.m.raw.set k (m_ptr s.m i)) (retained s.m.heap (m_ptr s.m i)) := by
    simp only [CopyTo]
    rw [InternalAddRef_eq]
    rfl
  rw [e]
  apply balanced_mk
  intro o
  have h0 := balanced_apply s hb o
  rw [rc_retained, objOf_retained, gain_apply]
  omega

theorem objOf_InternalRelease (m : Machine) (i : Nat) :
    (InternalRelease m i).heap.objOf = m.heap.objOf := by
  rw [InternalRelease_eq]; exact objOf_released _ _

theorem objOf_InternalAddRef (m : Machine) (i : Nat) :
    (InternalAddRef m i).heap.objOf = m.heap.objOf := by
  rw [InternalAddRef_eq]; exact objOf_retained _ _

theorem objOf_InternalCopy (m : Machine) (i : Nat) (r : Ptr) :
    (InternalCopy m i r).heap.objOf = m.heap.objOf := by
  unfold InternalCopy
  split
  · simp only [objOf_InternalAddRef, setPtr, objOf_InternalRelease]
  · rfl

theorem objOf_InternalMove (m : Machine) (d s : Nat) :
    (InternalMove m d s).heap.objOf = m.heap.objOf := by
  unfold InternalMove
  split
  · simp only [setPtr, objOf_InternalRelease]
  · rfl

theorem objOf_run (op : Op) (m : Machine) : (op.run m).heap.objOf = m.heap.objOf := by
  cases op with
  | construct_default => rfl
  | construct_copy other => exact objOf_InternalAddRef _ _
  | construct_move other => rfl
  | assign_copy self other => exact objOf_InternalCopy _ _ _
  | assign_move self other => exact objOf_InternalMove _ _ _
  | assign_nullptr self => exact objOf_InternalRelease _ _
  | set obj =>
    show (set m obj).1.heap.objOf = _
    rw [set_eq]; exact objOf_InternalRelease _ _
  | CopyFrom self p => exact objOf_InternalCopy _ _ _
  | swap left right => rfl
  | destruct self => exact objOf_InternalRelease _ _
  | attach obj p => exact objOf_InternalRelease _ _
  | detach obj => rfl
  | CopyTo self out =>
    cases out with
    | none => rfl
    | some k => exact objOf_InternalAddRef _ _

theorem balanced_step (op : Op) (s : Sys) (hok : op.ok s) (hb : Balanced s) :
    Balanced (step op s) := by
  cases op with
  | construct_default =>
    show Balanced (Sys.mk (Machine.mk (s.m.mem ++ [nullptr]) s.m.raw s.m.heap) s.owned)
    apply balanced_mk
    intro o
    have h0 := balanced_apply s hb o
    rw [cnt_append, ind_nullptr]
    exact h0
  | construct_copy other => exact balanced_construct_copy s hb other
  | construct_move other => exact balanced_construct_move s hb other hok
  | assign_copy self other => exact balanced_copy s hb self _ hok.1
  | assign_move self other => exact balanced_move s hb self other hok.1 hok.2
  | assign_nullptr self => exact balanced_release s hb self hok
  | set obj =>
    show Balanced (Sys.mk (set s.m obj).1 s.owned)
    rw [set_eq]
    exact balanced_release s hb obj hok
  | CopyFrom self p => exact balanced_copy s hb self p hok
  | swap left right => exact balanced_swap s hb left right hok.1 hok.2
  | destruct self => exact balanced_destruct s hb self hok
  | attach obj p => exact balanced_attach s hb obj p hok.1 hok.2
  | detach obj => exact balanced_detach s hb obj hok
  | CopyTo self out =>
    cases out with
    | none => exact hb
    | some k => exact balanced_CopyTo s hb self k

/-! ## The ownership invariant is preserved -/

/-- C1: every handle operation (default, copy and move construction, copy,
move and null assignment, `set`, `CopyFrom`, `swap`, destruction, `attach`,
`detach`, `CopyTo`), run on live handles, preserves the predicate "for every
object, count = number of handles holding it + number of caller-owned raw
references to it", where the caller-owned numbers move as follows: `attach` of
a non-null pointer (on which the caller owns a reference) consumes one
reference on its object, `detach` of a non-null handle and `CopyTo` from a
non-null handle into a present slot (which returns `S_OK`) each produce one on
the held object, and every other operation leaves every caller-owned number
unchanged.  No operation changes which object a pointer is a view of. -/
theorem ownership_invariant_preserved (op : Op) (s : Sys)
    (hok : op.ok s) (hb : Balanced s) :
    Balanced (step op s) ∧
    (step op s).m.heap.objOf = s.m.heap.objOf ∧
    (∀ obj p, op = Op.attach obj p → p ≠ nullptr →
      (step op s).owned (s.m.heap.objOf p) + 1 = s.owned (s.m.heap.objOf p) ∧
      ∀ o, o ≠ s.m.heap.objOf p → (step op s).owned o = s.owned o) ∧
    (∀ obj, op = Op.detach obj → m_ptr s.m obj ≠ nullptr →
      (step op s).owned (s.m.heap.objOf (m_ptr s.m obj))
        = s.owned (s.m.heap.objOf (m_ptr s.m obj)) + 1 ∧
      ∀ o, o ≠ s.m.heap.objOf (m_ptr s.m obj) → (step op s).owned o = s.owned o) ∧
    (∀ self k, op = Op.CopyTo self (some k) → m_ptr s.m self ≠ nullptr →
      (CopyTo s.m self (some (Slot.raw k))).2 = S_OK ∧
      (step op s).owned (s.m.heap.objOf (m_ptr s.m self))
        = s.owned (s.m.heap.objOf (m_ptr s.m self)) + 1 ∧
      ∀ o, o ≠ s.m.heap.objOf (m_ptr s.m self) → (step op s).owned o = s.owned o) ∧
    ((∀ obj p, p ≠ nullptr → op ≠ Op.attach obj p) →
      (∀ obj, m_ptr s.m obj ≠ nullptr → op ≠ Op.detach obj) →
      (∀ self k, m_ptr s.m self ≠ nullptr → op ≠ Op.CopyTo self (some k)) →
      (step op s).owned = s.owned) := by
  refine ⟨balanced_step op s hok hb, objOf_run op s.m, ?_, ?_, ?_, ?_⟩
  · intro obj p he hp
    subst he
    have h1 : 1 ≤ s.owned (s.m.heap.objOf p) := hok.2 hp
    show spend s.m.heap s.owned p _ + 1 = _ ∧ ∀ o, _ → spend s.m.heap s.owned p o = _
    constructor
    · rw [spend_apply]
      simp only [ind, hp, ne_eq, not_false_eq_true, and_self, if_true]
      omega
    · intro o ho
      rw [spend_apply]
      have : ind s.m.heap.objOf p o = 0 := by
        simp only [ind, ite_eq_right_iff]
        intro h; exact absurd h.2.symm ho
      omega
  · intro obj he hp
    subst he
    show gain s.m.heap s.owned (m_ptr s.m obj) _ = _ ∧
      ∀ o, _ → gain s.m.heap s.owned (m_ptr s.m obj) o = _
    constructor
    · rw [gain_apply]
      simp only [ind, hp, ne_eq, not_false_eq_true, and_self, if_true]
    · intro o ho
      rw [gain_apply]
      have : ind s.m.heap.objOf (m_ptr s.m obj) o = 0 := by
        simp only [ind, ite_eq_right_iff]
        intro h; exact absurd h.2.symm ho
      omega
  · intro self k he hp
    subst he
    show _ ∧ gain s.m.heap s.owned (m_ptr s.m self) _ = _ ∧
      ∀ o, _ → gain s.m.heap s.owned (m_ptr s.m self) o = _
    refine ⟨rfl, ?_, ?_⟩
    · rw [gain_apply]
      simp only [ind, hp, ne_eq, not_false_eq_true, and_self, if_true]
    · intro o ho
      rw [gain_apply]
      have : ind s.m.heap.objOf (m_ptr s.m self) o = 0 := by
        simp only [ind, ite_eq_right_iff]
        intro h; exact absurd h.2.symm ho
      omega
  · intro ha hd hc
    cases op with
    | attach obj p =>
      show spend s.m.heap s.owned p = s.owned
      by_cases hp : p = nullptr
      · simp [spend, hp]
      · exact absurd rfl (ha obj p hp)
    | detach obj =>
      show gain s.m.heap s.owned (m_ptr s.m obj) = s.owned
      by_cases hp : m_ptr s.m obj = nullptr
      · simp [gain, hp]
      · exact absurd rfl (hd obj hp)
    | CopyTo self out =>
      cases out with
      | none => rfl
      | some k =>
        show gain s.m.heap s.owned (m_ptr s.m self) = s.owned
        by_cases hp : m_ptr s.m self = nullptr
        · simp [gain, hp]
        · exact absurd rfl (hc self k hp)
    | construct_default => rfl
    | construct_copy other => rfl
    | construct_move other => rfl
    | assign_copy self other => rfl
    | assign_move self other => rfl
    | assign_nullptr self => rfl
    | set obj => rfl
    | CopyFrom self p => rfl
    | swap left right => rfl
    | destruct self => rfl

theorem demoSys_balanced : Balanced demoSys := by
  intro o
  show (if o = 1 then 2 else if o = 2 then 1 else 0)
    = List.countP (fun p => decide (p ≠ nullptr ∧ p / 16 = o)) [16, 16, 32, 0] + 0
  by_cases h1 : o = 1
  · subst h1; decide
  · by_cases h2 : o = 2
    · subst h2; decide
    · have e1 : ¬ (1 = o) := fun e => h1 e.symm
      have e2 : ¬ (2 = o) := fun e => h2 e.symm
      simp [List.countP_cons, nullptr, h1, h2, e1, e2]

theorem demo_detach_ok : (Op.detach 2).ok demoSys := by
  show (2 : Nat) < 4
  decide

/-- Witness for C1 on the scene: `detach` of handle 2, which holds the only
reference on object 2. -/
theorem ownership_invariant_preserved_witness :
    (Op.detach 2).ok demoSys ∧ Balanced demoSys ∧
    Balanced (step (Op.detach 2) demoSys) ∧
    (step (Op.detach 2) demoSys).owned 2 = 1 :=
  ⟨demo_detach_ok, demoSys_balanced,
   (ownership_invariant_preserved (Op.detach 2) demoSys demo_detach_ok demoSys_balanced).1,
   ((ownership_invariant_preserved (Op.detach 2) demoSys demo_detach_ok
      demoSys_balanced).2.2.2.1 2 rfl (by decide)).1⟩

/-! ## CopyTo with a present slot -/

/-- C11: for every handle `h` and every present output slot that points at an
existing cell, `h.CopyTo(slot)` returns `S_OK`, the slot afterwards holds the
reference `h` held, exactly one retain is issued on that reference when it is
non-null and no call at all when `h` is null (the slot then holds null), and
`h` holds the same reference as before. -/
theorem CopyTo_present_slot (m : Machine) (h : Nat) (s : Slot) (hs : s.valid m) :
    (CopyTo m h (some s)).2 = S_OK ∧
    load (CopyTo m h (some s)).1 s = m_ptr m h ∧
    (CopyTo m h (some s)).1.heap = retained m.heap (m_ptr m h) ∧
    (m_ptr m h ≠ nullptr →
      (CopyTo m h (some s)).1.heap.calls = m.heap.calls ++ [Call.AddRef (m_ptr m h)] ∧
      (CopyTo m h (some s)).1.heap.rc (m.heap.objOf (m_ptr m h))
        = m.heap.rc (m.heap.objOf (m_ptr m h)) + 1) ∧
    (m_ptr m h = nullptr →
      (CopyTo m h (some s)).1.heap = m.heap ∧ load (CopyTo m h (some s)).1 s = nullptr) ∧
    m_ptr (CopyTo m h (some s)).1 h = m_ptr m h := by
  have e : (CopyTo m h (some s)).1 =
      store (Machine.mk m.mem m.raw (retained m.heap (m_ptr m h))) s (m_ptr m h) := by
    simp only [CopyTo]
    rw [InternalAddRef_eq]
    rfl
  have hload : load (CopyTo m h (some s)).1 s = m_ptr m h := by
    rw [e]
    cases s with
    | handle i => exact getD_set_self _ _ _ hs
    | raw k => exact getD_set_self _ _ _ hs
  have hheap : (CopyTo m h (some s)).1.heap = retained m.heap (m_ptr m h) := by
    rw [e]
    cases s <;> rfl
  refine ⟨rfl, hload, hheap, ?_, ?_, ?_⟩
  · intro hp
    rw [hheap]
    simp [retained, hp, Heap.AddRef]
  · intro hp
    rw [hheap]
    refine ⟨by simp [retained, hp], ?_⟩
    rw [hload, hp]
  · rw [e]
    cases s with
    | handle i =>
      show (m.mem.set i (m.mem.getD h nullptr)).getD h nullptr = m.mem.getD h nullptr
      by_cases hi : i = h
      · subst hi
        exact getD_set_self _ _ _ hs
      · exact getD_set_other _ _ _ _ hi
    | raw k => rfl

theorem demo_slot_valid : (Slot.raw 0).valid demoMachine := by
  show (0 : Nat) < 1
  decide

/-- Witness for C11 on the scene: handle 0 (reference 16) copied to the raw
variable 0. -/
theorem CopyTo_present_slot_witness :
    (Slot.raw 0).valid demoMachine ∧
    (CopyTo demoMachine 0 (some (Slot.raw 0))).2 = S_OK ∧
    load (CopyTo demoMachine 0 (some (Slot.raw 0))).1 (Slot.raw 0) = 16 ∧
    (CopyTo demoMachine 0 (some (Slot.raw 0))).1.heap.calls = [Call.AddRef 16] :=
  ⟨demo_slot_valid,
   (CopyTo_present_slot demoMachine 0 (Slot.raw 0) demo_slot_valid).1,
   (CopyTo_present_slot demoMachine 0 (Slot.raw 0) demo_slot_valid).2.1,
   ((CopyTo_present_slot demoMachine 0 (Slot.raw 0) demo_slot_valid).2.2.2.1 (by decide)).1⟩

/-! ## CopyFrom -/

theorem one_le_cnt_of_holds (f : Ptr → Nat) (l : List Ptr) (i : Nat) (p : Ptr)
    (hi : i < l.length) (hp : l.getD i nullptr = p) (hn : p ≠ nullptr) :
    1 ≤ cnt f l (f p) := by
  have h1 := cnt_set f l i nullptr (f p) hi
  rw [ind_nullptr, hp] at h1
  have h2 : ind f p (f p) = 1 := by simp [ind, hn]
  omega

/-- C12: let the ownership invariant hold, let `h` be a live handle and let the
caller own a reference on the non-null raw reference `r`.  After
`h.CopyFrom(r)`, `h` holds `r`; when the caller then releases its own
reference on `r`, the count of the object behind `r` is still at least one.
If `h` held a different reference before, that reference was released exactly
once (when non-null) before the single retain of `r`, and no other call was
issued; if `h` already held `r` nothing happens. -/
theorem CopyFrom_independent (s : Sys) (h : Nat) (r : Ptr)
    (hb : Balanced s) (hh : h < s.m.mem.length) (hr : r ≠ nullptr)
    (ho : 1 ≤ s.owned (s.m.heap.objOf r)) :
    m_ptr (CopyFrom s.m h r) h = r ∧
    1 ≤ ((CopyFrom s.m h r).heap.Release r).rc (s.m.heap.objOf r) ∧
    ((CopyFrom s.m h r).heap.Release r).calls
      = (CopyFrom s.m h r).heap.calls ++ [Call.Release r] ∧
    (m_ptr s.m h ≠ r →
      (CopyFrom s.m h r).heap.calls
        = s.m.heap.calls
          ++ (if m_ptr s.m h ≠ nullptr then [Call.Release (m_ptr s.m h)] else [])
          ++ [Call.AddRef r]) ∧
    (m_ptr s.m h = r → CopyFrom s.m h r = s.m) := by
  have hbal : Balanced (Sys.mk (CopyFrom s.m h r) s.owned) := balanced_copy s hb h r hh
  have hobj : (CopyFrom s.m h r).heap.objOf = s.m.heap.objOf := objOf_InternalCopy _ _ _
  have hlen : h < (CopyFrom s.m h r).mem.length := by
    by_cases hne : m_ptr s.m h = r
    · have e : CopyFrom s.m h r = s.m := by simp [CopyFrom, InternalCopy, hne]
      rw [e]; exact hh
    · have e := InternalCopy_of_ne s.m h r hne hh
      show h < (InternalCopy s.m h r).mem.length
      rw [e]; simpa using hh
  have hholds : m_ptr (CopyFrom s.m h r) h = r := by
    by_cases hne : m_ptr s.m h = r
    · have e : CopyFrom s.m h r = s.m := by simp [CopyFrom, InternalCopy, hne]
      rw [e]; exact hne
    · have e := InternalCopy_of_ne s.m h r hne hh
      show m_ptr (InternalCopy s.m h r) h = r
      rw [e]; exact getD_set_self _ _ _ hh
  refine ⟨hholds, ?_, rfl, ?_, ?_⟩
  · have h0 := hbal (s.m.heap.objOf r)
    have h1 := one_le_cnt_of_holds (CopyFrom s.m h r).heap.objOf (CopyFrom s.m h r).mem h r
      hlen hholds hr
    rw [hobj] at h1
    have h2 : holders (CopyFrom s.m h r) (s.m.heap.objOf r)
        = cnt s.m.heap.objOf (CopyFrom s.m h r).mem (s.m.heap.objOf r) := by
      rw [holders_eq_cnt, hobj]
    have h3 : ((CopyFrom s.m h r).heap.Release r).rc (s.m.heap.objOf r)
        = (CopyFrom s.m h r).heap.rc (s.m.heap.objOf r) - 1 := by
      simp [Heap.Release, hobj]
    rw [h3]
    have h4 : (CopyFrom s.m h r).heap.rc (s.m.heap.objOf r)
        = holders (CopyFrom s.m h r) (s.m.heap.objOf r) + s.owned (s.m.heap.objOf r) := h0
    omega
  · intro hne
    show (InternalCopy s.m h r).heap.calls = _
    rw [InternalCopy_of_ne s.m h r hne hh]
    by_cases hq : m_ptr s.m h = nullptr <;>
      simp [retained, released, hq, hr, Heap.AddRef, Heap.Release]
  · intro he
    simp [CopyFrom, InternalCopy, he]

theorem demoOwned_balanced : Balanced demoOwned :=
  balanced_step (Op.CopyTo 2 (some 0)) demoSys (by show (2 : Nat) < 4; decide) demoSys_balanced

/-- Witness for C12 on the scene: the caller owns a reference on 32 and the
null handle 3 copies from it. -/
theorem CopyFrom_independent_witness :
    Balanced demoOwned ∧ (3 : Nat) < demoOwned.m.mem.length ∧
    1 ≤ demoOwned.owned (demoOwned.m.heap.objOf 32) ∧
    m_ptr (CopyFrom demoOwned.m 3 32) 3 = 32 ∧
    1 ≤ ((CopyFrom demoOwned.m 3 32).heap.Release 32).rc (demoOwned.m.heap.objOf 32) :=
  ⟨demoOwned_balanced, by decide, by decide,
   (CopyFrom_independent demoOwned 3 32 demoOwned_balanced (by decide) (by decide)
      (by decide)).1,
   (CopyFrom_independent demoOwned 3 32 demoOwned_balanced (by decide) (by decide)
      (by decide)).2.1⟩

/-! ## Equality and ordering -/

/-- C13: equality on handles of one type is decided by the raw address held
and by nothing else: `a == b` holds exactly when `get(a)` and `get(b)` are the
same address, so two null handles are equal; it is reflexive, symmetric and
transitive; and `a != b` is exactly the negation of `a == b`. -/
theorem op_eq_equivalence (m : Machine) (a b c : Nat) :
    op_eq m a a = true ∧
    (op_eq m a b = true → op_eq m b a = true) ∧
    (op_eq m a b = true → op_eq m b c = true → op_eq m a c = true) ∧
    (op_eq m a b = true ↔ get m a = get m b) ∧
    (get m a = nullptr → get m b = nullptr → op_eq m a b = true) ∧
    op_ne m a b = !(op_eq m a b) ∧
    (op_ne m a b = true ↔ ¬ (op_eq m a b = true)) := by
  refine ⟨?_, ?_, ?_, ?_, ?_, rfl, ?_⟩
  · simp [op_eq]
  · intro h
    simp only [op_eq, beq_iff_eq] at h ⊢
    exact h.symm
  · intro h1 h2
    simp only [op_eq, beq_iff_eq] at h1 h2 ⊢
    exact h1.trans h2
  · simp [op_eq]
  · intro h1 h2
    simp [op_eq, h1, h2]
  · simp [op_ne]

/-- Witness for C13 on the scene: handles 0 and 1 hold the same address, handle
2 another one, handle 3 is null. -/
theorem op_eq_equivalence_witness :
    op_eq demoMachine 0 1 = true ∧ op_eq demoMachine 1 0 = true ∧
    op_ne demoMachine 0 2 = true ∧ op_eq demoMachine 3 3 = true :=
  ⟨by decide,
   (op_eq_equivalence demoMachine 0 1 0).2.1 (by decide),
   (op_eq_equivalence demoMachine 0 2 0).2.2.2.2.2.2.2 (by decide),
   (op_eq_equivalence demoMachine 3 3 3).2.2.2.2.1 (by decide) (by decide)⟩

/-- C14: the ordering operators on handles of one type compare the raw
addresses and agree with each other: exactly one of `a < b`, `a == b`,
`a > b` holds; `a > b` iff `b < a`; `a <= b` iff not `b < a`; `a >= b` iff not
`a < b`; and whenever `a < b`, then `b > a`, `b >= a` and not `b <= a`. -/
theorem ordering_consistent (m : Machine) (a b : Nat) :
    ((op_lt m a b = true ∧ op_eq m a b = false ∧ op_gt m a b = false) ∨
     (op_lt m a b = false ∧ op_eq m a b = true ∧ op_gt m a b = false) ∨
     (op_lt m a b = false ∧ op_eq m a b = false ∧ op_gt m a b = true)) ∧
    (op_lt m a b = true ↔ get m a < get m b) ∧
    (op_gt m a b = true ↔ op_lt m b a = true) ∧
    (op_le m a b = true ↔ ¬ (op_lt m b a = true)) ∧
    (op_ge m a b = true ↔ ¬ (op_lt m a b = true)) ∧
    (op_lt m a b = true →
      op_gt m b a = true ∧ op_ge m b a = true ∧ ¬ (op_le m b a = true)) := by
  refine ⟨?_, ?_, Iff.rfl, ?_, ?_, ?_⟩
  · rcases Nat.lt_trichotomy (get m a) (get m b) with h | h | h
    · left
      refine ⟨by simp [op_lt, h], ?_, ?_⟩
      · simp only [op_eq, beq_eq_false_iff_ne]
        exact Nat.ne_of_lt h
      · simp only [op_gt, op_lt, decide_eq_false_iff_not]
        exact Nat.lt_asymm h
    · right; left
      refine ⟨?_, by simp [op_eq, h], ?_⟩
      · simp only [op_lt, decide_eq_false_iff_not]
        rw [h]; exact Nat.lt_irrefl _
      · simp only [op_gt, op_lt, decide_eq_false_iff_not]
        rw [h]; exact Nat.lt_irrefl _
    · right; right
      refine ⟨?_, ?_, by simp [op_gt, op_lt, h]⟩
      · simp only [op_lt, decide_eq_false_iff_not]
        exact Nat.lt_asymm h
      · simp only [op_eq, beq_eq_false_iff_ne]
        exact Nat.ne_of_gt h
  · simp [op_lt]
  · simp [op_le]
  · simp [op_ge]
  · intro h
    have h1 : get m a < get m b := by simpa [op_lt] using h
    refine ⟨h, ?_, ?_⟩
    · simp only [op_ge, op_lt, Bool.not_eq_true', decide_eq_false_iff_not]
      exact Nat.lt_asymm h1
    · simp only [op_le, op_lt, Bool.not_eq_true', decide_eq_false_iff_not, not_not]
      exact h1

/-- Witness for C14 on the scene: handle 0 (address 16) is below handle 2
(address 32). -/
theorem ordering_consistent_witness :
    op_lt demoMachine 0 2 = true ∧
    op_gt demoMachine 2 0 = true ∧ op_ge demoMachine 2 0 = true ∧
    ¬ (op_le demoMachine 2 0 = true) :=
  ⟨by decide, (ordering_consistent demoMachine 0 2).2.2.2.2.2 (by decide)⟩

/-! ## UBSTR: basic facts about buffers -/

theorem nat_pred_lt (p n : Nat) (h : p - 1 < n) : p ≤ n := by omega

theorem nat_pred_ne (q p : Nat) (a : q ≠ 0) (b : p ≠ 0) (c : q ≠ p) : q - 1 ≠ p - 1 := by
  omega

theorem cstr_of_noTerminator (w : List wchar_t) (h : NoTerminator w) : cstr w = w := by
  unfold cstr
  rw [List.takeWhile_eq_self_iff]
  intro c hc
  simpa using h c hc

theorem noTerminator_cstr (w : List wchar_t) : NoTerminator (cstr w) := by
  intro c hc
  have := List.mem_takeWhile_imp hc
  simpa using this

theorem cstr_cstr (w : List wchar_t) : cstr (cstr w) = cstr w :=
  cstr_of_noTerminator _ (noTerminator_cstr w)

theorem SysAllocString_ok (h : BHeap) (w : List wchar_t)
    (ha : (SysAllocString h (some w)).2 ≠ nullptr) :
    SysAllocString h (some w) =
      (BHeap.mk (h.bufs ++ [some (cstr w)]) h.frees (h.avail - 1), h.bufs.length + 1) := by
  by_cases h0 : h.avail = 0
  · exfalso
    apply ha
    simp [SysAllocString, h0]
  · simp [SysAllocString, h0]

theorem SysAllocString_avail (h : BHeap) (w : List wchar_t) :
    (SysAllocString h (some w)).2 ≠ nullptr ↔ 0 < h.avail := by
  by_cases h0 : h.avail = 0
  · simp [SysAllocString, h0]
  · simp [SysAllocString, h0, nullptr]
    omega

theorem read_fresh (bufs : List (Option (List wchar_t))) (frees : List Ptr) (a : Nat)
    (x : Option (List wchar_t)) :
    (BHeap.mk (bufs ++ [x]) frees a).read (bufs.length + 1) = x := by
  simp [BHeap.read, nullptr, List.getD_eq_getElem?_getD]

theorem read_old (bufs : List (Option (List wchar_t))) (f1 f2 : List Ptr) (a1 a2 : Nat)
    (x : Option (List wchar_t)) (p : Ptr) (buf : List wchar_t)
    (h : (BHeap.mk bufs f1 a1).read p = some buf) :
    (BHeap.mk (bufs ++ [x]) f2 a2).read p = some buf := by
  by_cases hp : p = nullptr
  · simp [BHeap.read, hp] at h
  · simp only [BHeap.read, hp, if_false, List.getD_eq_getElem?_getD] at h ⊢
    by_cases hlt : p - 1 < bufs.length
    · rw [List.getElem?_append_left hlt]; exact h
    · rw [List.getElem?_eq_none (Nat.le_of_not_lt hlt)] at h
      simp at h

theorem lt_of_read_some (h : BHeap) (p : Ptr) (buf : List wchar_t)
    (hr : h.read p = some buf) : p ≠ nullptr ∧ p ≤ h.bufs.length := by
  by_cases hp : p = nullptr
  · simp [BHeap.read, hp] at hr
  · refine ⟨hp, ?_⟩
    simp only [BHeap.read, hp, if_false, List.getD_eq_getElem?_getD] at hr
    by_cases hlt : p - 1 < h.bufs.length
    · exact nat_pred_lt p _ hlt
    · rw [List.getElem?_eq_none (Nat.le_of_not_lt hlt)] at hr
      simp at hr

theorem read_none_of_gt (h : BHeap) (p : Ptr) (hp : h.bufs.length < p) : h.read p = none := by
  have hp0 : p ≠ nullptr := by
    intro e; rw [e] at hp; exact Nat.not_lt_zero _ hp
  simp only [BHeap.read, hp0, if_false, List.getD_eq_getElem?_getD]
  rw [List.getElem?_eq_none (by omega)]
  rfl

theorem read_after_free_other (h : BHeap) (q p : Ptr) (hne : q ≠ p) (hp : p ≠ nullptr) :
    (SysFreeString h q).read p = h.read p := by
  by_cases hq : q = nullptr
  · simp [SysFreeString, hq]
  · have h1 : q - 1 ≠ p - 1 := nat_pred_ne q p hq hp hne
    simp only [SysFreeString, hq, if_false, BHeap.read, hp, List.getD_eq_getElem?_getD,
      List.getElem?_set_ne h1]

theorem read_after_free_self (h : BHeap) (q : Ptr) : (SysFreeString h q).read q = none := by
  by_cases hq : q = nullptr
  · simp [SysFreeString, hq, BHeap.read]
  · simp only [SysFreeString, hq, if_false, BHeap.read, List.getD_eq_getElem?_getD]
    by_cases hlt : q - 1 < h.bufs.length
    · simp [List.getElem?_set_self hlt]
    · rw [List.getElem?_eq_none (by simpa using Nat.le_of_not_lt hlt)]
      rfl

theorem frees_SysFreeString (h : BHeap) (q : Ptr) :
    (SysFreeString h q).frees = h.frees ++ (if q ≠ nullptr then [q] else []) := by
  by_cases hq : q = nullptr <;> simp [SysFreeString, hq]

theorem m_bstr_append_new (objs : List Ptr) (h : BHeap) (v : Ptr) :
    m_bstr (UMachine.mk (objs ++ [v]) h) objs.length = v := by
  simp [m_bstr, List.getD_eq_getElem?_getD]

theorem m_bstr_append_old (objs : List Ptr) (h1 h2 : BHeap) (v : Ptr) (i : Nat)
    (hi : i < objs.length) :
    m_bstr (UMachine.mk (objs ++ [v]) h1) i = m_bstr (UMachine.mk objs h2) i := by
  simp [m_bstr, List.getD_eq_getElem?_getD, List.getElem?_append_left hi]

/-! ## UBSTR: construction, length, text -/

theorem construct_wsz_ok (m : UMachine) (w : List wchar_t)
    (ha : (SysAllocString m.heap (some w)).2 ≠ nullptr) :
    (UBSTR.construct_wsz m (some w)).1 =
      UMachine.mk (m.objs ++ [m.heap.bufs.length + 1])
        (BHeap.mk (m.heap.bufs ++ [some (cstr w)]) m.heap.frees (m.heap.avail - 1)) := by
  simp only [UBSTR.construct_wsz]
  rw [SysAllocString_ok m.heap w ha]

theorem text_of_fresh (objs : List Ptr) (bufs : List (Option (List wchar_t)))
    (frees : List Ptr) (a : Nat) (w : List wchar_t) :
    UBSTR.toBool (UMachine.mk (objs ++ [bufs.length + 1])
        (BHeap.mk (bufs ++ [some (cstr w)]) frees a)) objs.length = true ∧
    UBSTR.length (UMachine.mk (objs ++ [bufs.length + 1])
        (BHeap.mk (bufs ++ [some (cstr w)]) frees a)) objs.length = some (cstr w).length ∧
    UBSTR.to_wstring (UMachine.mk (objs ++ [bufs.length + 1])
        (BHeap.mk (bufs ++ [some (cstr w)]) frees a)) objs.length = some (cstr w) := by
  have hb : UBSTR.toBool (UMachine.mk (objs ++ [bufs.length + 1])
      (BHeap.mk (bufs ++ [some (cstr w)]) frees a)) objs.length = true := by
    simp [UBSTR.toBool, m_bstr_append_new, nullptr]
  refine ⟨hb, ?_, ?_⟩
  · simp only [UBSTR.length, hb, Bool.not_true, Bool.false_eq_true, if_false,
      m_bstr_append_new, read_fresh, Option.map_some', wcslen, cstr_cstr]
  · simp only [UBSTR.to_wstring, hb, if_true, m_bstr_append_new, read_fresh,
      Option.map_some', cstr_cstr]

theorem text_of_default (m : UMachine) :
    UBSTR.toBool (UBSTR.construct_default m).1 (UBSTR.construct_default m).2 = false ∧
    UBSTR.length (UBSTR.construct_default m).1 (UBSTR.construct_default m).2 = some 0 ∧
    UBSTR.to_wstring (UBSTR.construct_default m).1 (UBSTR.construct_default m).2 = some [] := by
  have hb : UBSTR.toBool (UBSTR.construct_default m).1 (UBSTR.construct_default m).2 = false := by
    simp [UBSTR.toBool, UBSTR.construct_default, m_bstr_append_new]
  refine ⟨hb, ?_, ?_⟩
  · simp [UBSTR.length, hb]
  · simp [UBSTR.to_wstring, hb]

/-- C15: for every sequence `w` of wide characters without terminator whose
allocation succeeds, the `UBSTR` constructed from `w` (the new last object)
converts to `true`, has `length()` equal to the number of characters of `w`
and `to_wstring()` equal to `w`; a default-constructed `UBSTR` converts to
`false`, has length `0` and `to_wstring()` gives the empty string. -/
theorem wsz_roundtrip (m : UMachine) (w : List wchar_t)
    (hw : NoTerminator w)
    (ha : (SysAllocString m.heap (some w)).2 ≠ nullptr) :
    (UBSTR.construct_wsz m (some w)).2 = m.objs.length ∧
    UBSTR.toBool (UBSTR.construct_wsz m (some w)).1 (UBSTR.construct_wsz m (some w)).2 = true ∧
    UBSTR.length (UBSTR.construct_wsz m (some w)).1 (UBSTR.construct_wsz m (some w)).2
      = some w.length ∧
    UBSTR.to_wstring (UBSTR.construct_wsz m (some w)).1 (UBSTR.construct_wsz m (some w)).2
      = some w ∧
    UBSTR.toBool (UBSTR.construct_default m).1 (UBSTR.construct_default m).2 = false ∧
    UBSTR.length (UBSTR.construct_default m).1 (UBSTR.construct_default m).2 = some 0 ∧
    UBSTR.to_wstring (UBSTR.construct_default m).1 (UBSTR.construct_default m).2 = some [] := by
  have e2 : (UBSTR.construct_wsz m (some w)).2 = m.objs.length := rfl
  have h := text_of_fresh m.objs m.heap.bufs m.heap.frees (m.heap.avail - 1) w
  rw [cstr_of_noTerminator w hw] at h
  rw [e2, construct_wsz_ok m w ha, cstr_of_noTerminator w hw]
  exact ⟨rfl, h.1, h.2.1, h.2.2, text_of_default m⟩

/-- Witness for C15: the text `abc` on an allocator with memory left. -/
theorem wsz_roundtrip_witness :
    NoTerminator [97, 98, 99] ∧
    (SysAllocString emptyU.heap (some [97, 98, 99])).2 ≠ nullptr ∧
    UBSTR.length (UBSTR.construct_wsz emptyU (some [97, 98, 99])).1 0 = some 3 ∧
    UBSTR.to_wstring (UBSTR.construct_wsz emptyU (some [97, 98, 99])).1 0
      = some [97, 98, 99] :=
  ⟨by decide, by decide,
   (wsz_roundtrip emptyU [97, 98, 99] (by decide) (by decide)).2.2.1,
   (wsz_roundtrip emptyU [97, 98, 99] (by decide) (by decide)).2.2.2.1⟩

/-- C16, as stated, fails twice.  A `std::wstring` with an embedded terminator
is cut at it: from the three characters `a`, terminator, `b` the `UBSTR` has
length 1 and text `a`.  And when the allocator has no memory left the `UBSTR`
built from the one-character string `a` is empty: length 0. -/
theorem wstring_roundtrip_fails :
    ([97, 0, 98] : List wchar_t).length = 3 ∧
    UBSTR.length (UBSTR.construct_wstring emptyU [97, 0, 98]).1
      (UBSTR.construct_wstring emptyU [97, 0, 98]).2 = some 1 ∧
    UBSTR.to_wstring (UBSTR.construct_wstring emptyU [97, 0, 98]).1
      (UBSTR.construct_wstring emptyU [97, 0, 98]).2 = some [97] ∧
    UBSTR.length (UBSTR.construct_wstring demoFull [97]).1
      (UBSTR.construct_wstring demoFull [97]).2 = some 0 := by
  decide

/-- C16 (amended): for every `std::wstring` `ws` without embedded terminator
whose allocation succeeds, the `UBSTR` constructed from `ws` has `length()`
equal to `ws.length()` and `to_wstring()` equal to `ws`. -/
theorem wstring_roundtrip (m : UMachine) (ws : List wchar_t)
    (hw : NoTerminator ws)
    (ha : (SysAllocString m.heap (c_str ws)).2 ≠ nullptr) :
    UBSTR.length (UBSTR.construct_wstring m ws).1 (UBSTR.construct_wstring m ws).2
      = some ws.length ∧
    UBSTR.to_wstring (UBSTR.construct_wstring m ws).1 (UBSTR.construct_wstring m ws).2
      = some ws := by
  have e : UBSTR.construct_wstring m ws = UBSTR.construct_wsz m (some ws) := rfl
  have e2 : (UBSTR.construct_wsz m (some ws)).2 = m.objs.length := rfl
  have h := text_of_fresh m.objs m.heap.bufs m.heap.frees (m.heap.avail - 1) ws
  rw [cstr_of_noTerminator ws hw] at h
  rw [e, e2, construct_wsz_ok m ws ha, cstr_of_noTerminator ws hw]
  exact ⟨h.2.1, h.2.2⟩

/-- Witness for C16 (amended): the string `xy` on an allocator with memory
left. -/
theorem wstring_roundtrip_witness :
    NoTerminator [120, 121] ∧
    (SysAllocString demoU.heap (c_str [120, 121])).2 ≠ nullptr ∧
    UBSTR.length (UBSTR.construct_wstring demoU [120, 121]).1 3 = some 2 ∧
    UBSTR.to_wstring (UBSTR.construct_wstring demoU [120, 121]).1 3 = some [120, 121] :=
  ⟨by decide, by decide,
   (wstring_roundtrip demoU [120, 121] (by decide) (by decide)).1,
   (wstring_roundtrip demoU [120, 121] (by decide) (by decide)).2⟩

/-- C17, as stated, fails for the empty sequence: with memory available, the
`UBSTR` constructed from a present zero-length sequence, or from an empty
`std::wstring`, holds a (zero-length) buffer and converts to `true`. -/
theorem empty_sequence_holds_buffer :
    UBSTR.toBool (UBSTR.construct_wsz emptyU (some [])).1
      (UBSTR.construct_wsz emptyU (some [])).2 = true ∧
    UBSTR.get (UBSTR.construct_wsz emptyU (some [])).1
      (UBSTR.construct_wsz emptyU (some [])).2 ≠ nullptr ∧
    UBSTR.toBool (UBSTR.construct_wstring emptyU []).1
      (UBSTR.construct_wstring emptyU []).2 = true := by
  decide

/-- C17 (amended): constructing a `UBSTR` from an absent (null) sequence yields
the empty state: no buffer (boolean conversion `false`), nothing allocated,
`length()` is 0 and `to_wstring()` is the empty string.  Constructing it from
an empty character sequence, or from an empty `std::wstring`, yields an object
whose `length()` is 0 and whose `to_wstring()` is the empty string; it holds a
zero-length buffer (boolean conversion `true`) exactly when the allocation
succeeds. -/
theorem empty_or_absent_sequence (m : UMachine) :
    (UBSTR.toBool (UBSTR.construct_wsz m none).1 (UBSTR.construct_wsz m none).2 = false ∧
     (UBSTR.construct_wsz m none).1.heap = m.heap ∧
     UBSTR.length (UBSTR.construct_wsz m none).1 (UBSTR.construct_wsz m none).2 = some 0 ∧
     UBSTR.to_wstring (UBSTR.construct_wsz m none).1 (UBSTR.construct_wsz m none).2
       = some []) ∧
    (UBSTR.length (UBSTR.construct_wsz m (some [])).1 (UBSTR.construct_wsz m (some [])).2
       = some 0 ∧
     UBSTR.to_wstring (UBSTR.construct_wsz m (some [])).1 (UBSTR.construct_wsz m (some [])).2
       = some [] ∧
     (UBSTR.toBool (UBSTR.construct_wsz m (some [])).1 (UBSTR.construct_wsz m (some [])).2
       = true ↔ (SysAllocString m.heap (some [])).2 ≠ nullptr)) ∧
    UBSTR.construct_wstring m [] = UBSTR.construct_wsz m (some []) := by
  refine ⟨?_, ?_, rfl⟩
  · have hb : UBSTR.toBool (UBSTR.construct_wsz m none).1 (UBSTR.construct_wsz m none).2
        = false := by
      simp [UBSTR.toBool, UBSTR.construct_wsz, SysAllocString, m_bstr_append_new]
    refine ⟨hb, rfl, ?_, ?_⟩
    · simp [UBSTR.length, hb]
    · simp [UBSTR.to_wstring, hb]
  · by_cases ha : (SysAllocString m.heap (some [])).2 = nullptr
    · have e : (UBSTR.construct_wsz m (some [])).1 = UMachine.mk (m.objs ++ [nullptr]) m.heap := by
        have h0 : m.heap.avail = 0 := by
          by_contra hc
          exact ((SysAllocString_avail m.heap []).mpr (Nat.pos_of_ne_zero hc)) ha
        simp [UBSTR.construct_wsz, SysAllocString, h0]
      have e2 : (UBSTR.construct_wsz m (some [])).2 = m.objs.length := rfl
      have hb : UBSTR.toBool (UMachine.mk (m.objs ++ [nullptr]) m.heap) m.objs.length
          = false := by
        simp [UBSTR.toBool, m_bstr_append_new]
      rw [e2, e]
      refine ⟨?_, ?_, ?_⟩
      · simp [UBSTR.length, hb]
      · simp [UBSTR.to_wstring, hb]
      · simp [hb, ha]
    · have e2 : (UBSTR.construct_wsz m (some [])).2 = m.objs.length := rfl
      have h := text_of_fresh m.objs m.heap.bufs m.heap.frees (m.heap.avail - 1) []
      rw [e2, construct_wsz_ok m [] ha]
      refine ⟨h.2.1, h.2.2, ?_⟩
      simp [h.1, ha]

/-! ## UBSTR: copy and move -/

theorem set_append_left_ptr (l : List Ptr) (x v : Ptr) (d : Nat) (hd : d < l.length) :
    (l ++ [x]).set d v = l.set d v ++ [x] := by
  induction l generalizing d with
  | nil => simp at hd
  | cons a as ih =>
    cases d with
    | zero => rfl
    | succ n =>
      have hn : n < as.length := by simpa using hd
      simp [List.set, ih n hn]

theorem set_append_last_ptr (l : List Ptr) (x v : Ptr) :
    (l ++ [x]).set l.length v = l ++ [v] := by
  induction l with
  | nil => rfl
  | cons a as ih => simp [List.set, ih]

theorem set_append_beyond_ptr (l : List Ptr) (x v : Ptr) (d : Nat) (hd : l.length < d) :
    (l ++ [x]).set d v = l ++ [x] := by
  apply List.set_eq_of_length_le
  simp
  omega

/-- Closed form of "swap with the temporary, then destroy the temporary": the
temporary is the last object and holds `t`. -/
theorem swap_temp_destruct (objs : List Ptr) (H : BHeap) (t : Ptr) (d : Nat)
    (hd : d < objs.length) :
    UBSTR.destruct (UBSTR.swap (UMachine.mk (objs ++ [t]) H) d objs.length) objs.length
      = UMachine.mk (objs.set d t) (SysFreeString H (objs.getD d nullptr)) := by
  have h1 : m_bstr (UMachine.mk (objs ++ [t]) H) d = objs.getD d nullptr :=
    m_bstr_append_old objs H H t d hd
  have h2 : m_bstr (UMachine.mk (objs ++ [t]) H) objs.length = t := m_bstr_append_new objs H t
  have e : UBSTR.swap (UMachine.mk (objs ++ [t]) H) d objs.length
      = UMachine.mk (objs.set d t ++ [objs.getD d nullptr]) H := by
    simp only [UBSTR.swap, h1, h2]
    rw [set_append_left_ptr _ _ _ _ hd]
    have hl : (objs.set d t).length = objs.length := by simp
    rw [← hl, set_append_last_ptr]
  rw [e]
  have hl : (objs.set d t).length = objs.length := by simp
  have h3 : m_bstr (UMachine.mk (objs.set d t ++ [objs.getD d nullptr]) H) objs.length
      = objs.getD d nullptr := by
    rw [← hl]; exact m_bstr_append_new _ _ _
  simp only [UBSTR.destruct, h3]
  rw [← hl, eraseIdx_append_last]

theorem construct_copy_ok (m : UMachine) (s : Nat) (buf : List wchar_t)
    (hlive : m.heap.read (m_bstr m s) = some buf)
    (ha : (SysAllocString m.heap (some buf)).2 ≠ nullptr) :
    (UBSTR.construct_copy m s).1 =
      UMachine.mk (m.objs ++ [m.heap.bufs.length + 1])
        (BHeap.mk (m.heap.bufs ++ [some (cstr buf)]) m.heap.frees (m.heap.avail - 1)) := by
  simp only [UBSTR.construct_copy, hlive]
  rw [SysAllocString_ok m.heap buf ha]

theorem construct_copy_empty (m : UMachine) (s : Nat) (he : m_bstr m s = nullptr) :
    (UBSTR.construct_copy m s).1 = UMachine.mk (m.objs ++ [nullptr]) m.heap := by
  simp [UBSTR.construct_copy, he, BHeap.read, SysAllocString]

theorem lt_length_of_m_bstr_ne (m : UMachine) (i : Nat) (h : m_bstr m i ≠ nullptr) :
    i < m.objs.length := by
  by_contra hc
  exact h (getD_of_length_le _ _ (Nat.le_of_not_lt hc))

theorem to_wstring_of_live (objs : List Ptr) (H : BHeap) (i : Nat) (buf : List wchar_t)
    (h : H.read (m_bstr (UMachine.mk objs H) i) = some buf) :
    UBSTR.to_wstring (UMachine.mk objs H) i = some (cstr buf) := by
  have hp := (lt_of_read_some H _ buf h).1
  have hb : UBSTR.toBool (UMachine.mk objs H) i = true := by
    simpa [UBSTR.toBool] using hp
  simp only [UBSTR.to_wstring, hb, if_true, h, Option.map_some']

theorem to_wstring_of_empty (objs : List Ptr) (H : BHeap) (i : Nat)
    (h : m_bstr (UMachine.mk objs H) i = nullptr) :
    UBSTR.to_wstring (UMachine.mk objs H) i = some [] := by
  have hb : UBSTR.toBool (UMachine.mk objs H) i = false := by
    simp [UBSTR.toBool, h]
  simp [UBSTR.to_wstring, hb]

/-- C18, as stated, fails when the allocator has no memory left: on the scene
without memory, object 0 holds the text `abc`, and its copy is empty (it
converts to `false` and its text is the empty string). -/
theorem copy_out_of_memory :
    UBSTR.toBool demoFull 0 = true ∧
    UBSTR.to_wstring demoFull 0 = some [97, 98, 99] ∧
    UBSTR.toBool (UBSTR.construct_copy demoFull 0).1 (UBSTR.construct_copy demoFull 0).2
      = false ∧
    UBSTR.to_wstring (UBSTR.construct_copy demoFull 0).1 (UBSTR.construct_copy demoFull 0).2
      = some [] := by
  decide

theorem copy_fresh_facts (m : UMachine) (s : Nat) (buf : List wchar_t)
    (hlive : m.heap.read (m_bstr m s) = some buf) :
    m.heap.bufs.length + 1 ≠ nullptr ∧
    m.heap.bufs.length + 1 ≠ m_bstr m s ∧
    m_bstr m s ≠ m.heap.bufs.length + 1 ∧
    m.heap.read (m.heap.bufs.length + 1) = none ∧
    m_bstr m s ≠ nullptr ∧ s < m.objs.length ∧
    UBSTR.to_wstring m s = some (cstr buf) := by
  have h1 := lt_of_read_some m.heap _ buf hlive
  have hle : m_bstr m s ≤ m.heap.bufs.length := h1.2
  have hne : m.heap.bufs.length + 1 ≠ m_bstr m s := by
    intro e
    rw [← e] at hle
    exact Nat.not_succ_le_self _ hle
  exact ⟨Nat.succ_ne_zero _, hne, fun e => hne e.symm,
    read_none_of_gt m.heap _ (Nat.lt_succ_self _), h1.1,
    lt_length_of_m_bstr_ne m s h1.1, to_wstring_of_live m.objs m.heap s buf hlive⟩

theorem assign_copy_ok (m : UMachine) (d s : Nat) (buf : List wchar_t)
    (hlive : m.heap.read (m_bstr m s) = some buf)
    (ha : (SysAllocString m.heap (some buf)).2 ≠ nullptr)
    (hd : d < m.objs.length) :
    UBSTR.assign_copy m d s =
      UMachine.mk (m.objs.set d (m.heap.bufs.length + 1))
        (SysFreeString
          (BHeap.mk (m.heap.bufs ++ [some (cstr buf)]) m.heap.frees (m.heap.avail - 1))
          (m_bstr m d)) := by
  have e2 : (UBSTR.construct_copy m s).2 = m.objs.length := rfl
  simp only [UBSTR.assign_copy]
  rw [e2, construct_copy_ok m s buf hlive ha, swap_temp_destruct _ _ _ _ hd]
  rfl

theorem assign_copy_empty (m : UMachine) (d s : Nat)
    (he : m_bstr m s = nullptr) (hd : d < m.objs.length) :
    UBSTR.assign_copy m d s =
      UMachine.mk (m.objs.set d nullptr) (SysFreeString m.heap (m_bstr m d)) := by
  have e2 : (UBSTR.construct_copy m s).2 = m.objs.length := rfl
  simp only [UBSTR.assign_copy]
  rw [e2, construct_copy_empty m s he, swap_temp_destruct _ _ _ _ hd]
  rfl

/-- C18 (amended): when the allocation succeeds, copying a non-empty `UBSTR`
`s` makes an independent duplicate: the copy is the new last object, it holds
a buffer that was not allocated before and differs from the buffer of `s`, its
text equals the text of `s`, `s` still holds its buffer and its text, nothing
is freed, and once the buffer of `s` has been freed the copy still yields the
same text.  Copying an empty `UBSTR` yields an empty one and leaves the
allocator untouched.  The same holds for copy assignment `d = s` into another
live object `d` (whose buffer, if any, is an allocated one other than that of
`s`): `d` ends with the fresh duplicate, and the buffer `d` held before is
freed exactly once (nothing is freed when `d` was empty). -/
theorem copy_independent (m : UMachine) (d s : Nat) :
    ((∀ buf, m.heap.read (m_bstr m s) = some buf →
       (SysAllocString m.heap (some buf)).2 ≠ nullptr →
       (UBSTR.construct_copy m s).2 = m.objs.length ∧
       m_bstr (UBSTR.construct_copy m s).1 (UBSTR.construct_copy m s).2 ≠ nullptr ∧
       m_bstr (UBSTR.construct_copy m s).1 (UBSTR.construct_copy m s).2 ≠ m_bstr m s ∧
       m.heap.read (m_bstr (UBSTR.construct_copy m s).1 (UBSTR.construct_copy m s).2) = none ∧
       UBSTR.to_wstring (UBSTR.construct_copy m s).1 (UBSTR.construct_copy m s).2
         = UBSTR.to_wstring m s ∧
       m_bstr (UBSTR.construct_copy m s).1 s = m_bstr m s ∧
       UBSTR.to_wstring (UBSTR.construct_copy m s).1 s = UBSTR.to_wstring m s ∧
       (UBSTR.construct_copy m s).1.heap.frees = m.heap.frees ∧
       UBSTR.to_wstring
         (UMachine.mk (UBSTR.construct_copy m s).1.objs
           (SysFreeString (UBSTR.construct_copy m s).1.heap (m_bstr m s)))
         (UBSTR.construct_copy m s).2 = UBSTR.to_wstring m s) ∧
     (m_bstr m s = nullptr →
       (UBSTR.construct_copy m s).1.heap = m.heap ∧
       (UBSTR.construct_copy m s).1.objs = m.objs ++ [nullptr] ∧
       UBSTR.toBool (UBSTR.construct_copy m s).1 (UBSTR.construct_copy m s).2 = false)) ∧
    ((∀ buf, m.heap.read (m_bstr m s) = some buf →
       (SysAllocString m.heap (some buf)).2 ≠ nullptr →
       d < m.objs.length → d ≠ s → m_bstr m d ≠ m_bstr m s →
       (m_bstr m d ≠ nullptr → (m.heap.read (m_bstr m d)).isSome = true) →
       (UBSTR.assign_copy m d s).objs = m.objs.set d (m_bstr (UBSTR.assign_copy m d s) d) ∧
       m_bstr (UBSTR.assign_copy m d s) d ≠ nullptr ∧
       m_bstr (UBSTR.assign_copy m d s) d ≠ m_bstr m s ∧
       m.heap.read (m_bstr (UBSTR.assign_copy m d s) d) = none ∧
       UBSTR.to_wstring (UBSTR.assign_copy m d s) d = UBSTR.to_wstring m s ∧
       m_bstr (UBSTR.assign_copy m d s) s = m_bstr m s ∧
       UBSTR.to_wstring (UBSTR.assign_copy m d s) s = UBSTR.to_wstring m s ∧
       (UBSTR.assign_copy m d s).heap.frees
         = m.heap.frees ++ (if m_bstr m d ≠ nullptr then [m_bstr m d] else []) ∧
       UBSTR.to_wstring
         (UMachine.mk (UBSTR.assign_copy m d s).objs
           (SysFreeString (UBSTR.assign_copy m d s).heap (m_bstr m s))) d
         = UBSTR.to_wstring m s) ∧
     (m_bstr m s = nullptr → d < m.objs.length →
       UBSTR.toBool (UBSTR.assign_copy m d s) d = false ∧
       (UBSTR.assign_copy m d s).heap.bufs.length = m.heap.bufs.length ∧
       (UBSTR.assign_copy m d s).heap.avail = m.heap.avail ∧
       (UBSTR.assign_copy m d s).heap.frees
         = m.heap.frees ++ (if m_bstr m d ≠ nullptr then [m_bstr m d] else []))) := by
  constructor
  · constructor
    · intro buf hlive ha
      obtain ⟨f0, fne, bne, fnone, b0, hs, htext⟩ := copy_fresh_facts m s buf hlive
      have e2 : (UBSTR.construct_copy m s).2 = m.objs.length := rfl
      rw [e2, construct_copy_ok m s buf hlive ha, htext]
      have hnew := m_bstr_append_new m.objs
        (BHeap.mk (m.heap.bufs ++ [some (cstr buf)]) m.heap.frees (m.heap.avail - 1))
        (m.heap.bufs.length + 1)
      have hold := m_bstr_append_old m.objs
        (BHeap.mk (m.heap.bufs ++ [some (cstr buf)]) m.heap.frees (m.heap.avail - 1)) m.heap
        (m.heap.bufs.length + 1) s hs
      have hrd : (BHeap.mk (m.heap.bufs ++ [some (cstr buf)]) m.heap.frees
          (m.heap.avail - 1)).read (m_bstr m s) = some buf :=
        read_old m.heap.bufs m.heap.frees _ m.heap.avail _ _ _ buf hlive
      refine ⟨rfl, ?_, ?_, ?_, ?_, hold, ?_, rfl, ?_⟩
      · rw [hnew]; exact f0
      · rw [hnew]; exact fne
      · rw [hnew]; exact fnone
      · have h := to_wstring_of_live (m.objs ++ [m.heap.bufs.length + 1])
          (BHeap.mk (m.heap.bufs ++ [some (cstr buf)]) m.heap.frees (m.heap.avail - 1))
          m.objs.length (cstr buf) (by rw [hnew]; exact read_fresh _ _ _ _)
        rw [h, cstr_cstr]
      · exact to_wstring_of_live _ _ s buf (by rw [hold]; exact hrd)
      · have h := to_wstring_of_live (m.objs ++ [m.heap.bufs.length + 1])
          (SysFreeString (BHeap.mk (m.heap.bufs ++ [some (cstr buf)]) m.heap.frees
            (m.heap.avail - 1)) (m_bstr m s))
          m.objs.length (cstr buf) (by
            rw [m_bstr_append_new, read_after_free_other _ _ _ bne f0]
            exact read_fresh _ _ _ _)
        rw [h, cstr_cstr]
    · intro he
      have e2 : (UBSTR.construct_copy m s).2 = m.objs.length := rfl
      rw [e2, construct_copy_empty m s he]
      refine ⟨rfl, rfl, ?_⟩
      simp [UBSTR.toBool, m_bstr_append_new]
  · constructor
    · intro buf hlive ha hd hds hqb hq
      obtain ⟨f0, fne, bne, fnone, b0, hs, htext⟩ := copy_fresh_facts m s buf hlive
      have hqf : m_bstr m d ≠ m.heap.bufs.length + 1 := by
        by_cases hq0 : m_bstr m d = nullptr
        · rw [hq0]; exact fun e => f0 e.symm
        · obtain ⟨x, hx⟩ := Option.isSome_iff_exists.mp (hq hq0)
          exact (copy_fresh_facts m d x hx).2.2.1
      rw [assign_copy_ok m d s buf hlive ha hd, htext]
      have hdd : m_bstr (UMachine.mk (m.objs.set d (m.heap.bufs.length + 1))
          (SysFreeString (BHeap.mk (m.heap.bufs ++ [some (cstr buf)]) m.heap.frees
            (m.heap.avail - 1)) (m_bstr m d))) d = m.heap.bufs.length + 1 :=
        getD_set_self _ _ _ hd
      have hss : m_bstr (UMachine.mk (m.objs.set d (m.heap.bufs.length + 1))
          (SysFreeString (BHeap.mk (m.heap.bufs ++ [some (cstr buf)]) m.heap.frees
            (m.heap.avail - 1)) (m_bstr m d))) s = m_bstr m s :=
        getD_set_other _ _ _ _ hds
      have hrd : (BHeap.mk (m.heap.bufs ++ [some (cstr buf)]) m.heap.frees
          (m.heap.avail - 1)).read (m_bstr m s) = some buf :=
        read_old m.heap.bufs m.heap.frees _ m.heap.avail _ _ _ buf hlive
      refine ⟨?_, ?_, ?_, ?_, ?_, hss, ?_, ?_, ?_⟩
      · rw [hdd]
      · rw [hdd]; exact f0
      · rw [hdd]; exact fne
      · rw [hdd]; exact fnone
      · have h := to_wstring_of_live (m.objs.set d (m.heap.bufs.length + 1))
          (SysFreeString (BHeap.mk (m.heap.bufs ++ [some (cstr buf)]) m.heap.frees
            (m.heap.avail - 1)) (m_bstr m d)) d (cstr buf) (by
            rw [hdd, read_after_free_other _ _ _ hqf f0]
            exact read_fresh _ _ _ _)
        rw [h, cstr_cstr]
      · exact to_wstring_of_live _ _ s buf (by
          rw [hss, read_after_free_other _ _ _ hqb b0]; exact hrd)
      · rw [frees_SysFreeString]
      · have h := to_wstring_of_live (m.objs.set d (m.heap.bufs.length + 1))
          (SysFreeString (SysFreeString (BHeap.mk (m.heap.bufs ++ [some (cstr buf)]) m.heap.frees
            (m.heap.avail - 1)) (m_bstr m d)) (m_bstr m s)) d (cstr buf) (by
            have hdd2 : m_bstr (UMachine.mk (m.objs.set d (m.heap.bufs.length + 1))
                (SysFreeString (SysFreeString (BHeap.mk (m.heap.bufs ++ [some (cstr buf)])
                  m.heap.frees (m.heap.avail - 1)) (m_bstr m d)) (m_bstr m s))) d
                = m.heap.bufs.length + 1 := getD_set_self _ _ _ hd
            rw [hdd2, read_after_free_other _ _ _ bne f0,
              read_after_free_other _ _ _ hqf f0]
            exact read_fresh _ _ _ _)
        rw [h, cstr_cstr]
    · intro he hd
      rw [assign_copy_empty m d s he hd]
      refine ⟨?_, ?_, ?_, ?_⟩
      · have hdd : m_bstr (UMachine.mk (m.objs.set d nullptr)
            (SysFreeString m.heap (m_bstr m d))) d = nullptr := getD_set_self _ _ _ hd
        simp [UBSTR.toBool, hdd]
      · by_cases hq : m_bstr m d = nullptr <;> simp [SysFreeString, hq]
      · by_cases hq : m_bstr m d = nullptr <;> simp [SysFreeString, hq]
      · rw [frees_SysFreeString]

/-- Witness for C18 (amended) on the scene: object 0 holds the text `abc`; it
is copied, and it is assigned to object 1, which holds `xy`. -/
theorem copy_independent_witness :
    demoU.heap.read (m_bstr demoU 0) = some [97, 98, 99] ∧
    (SysAllocString demoU.heap (some [97, 98, 99])).2 ≠ nullptr ∧
    m_bstr (UBSTR.construct_copy demoU 0).1 (UBSTR.construct_copy demoU 0).2 ≠ m_bstr demoU 0 ∧
    UBSTR.to_wstring (UBSTR.construct_copy demoU 0).1 (UBSTR.construct_copy demoU 0).2
      = UBSTR.to_wstring demoU 0 ∧
    UBSTR.to_wstring (UBSTR.assign_copy demoU 1 0) 1 = UBSTR.to_wstring demoU 0 ∧
    (UBSTR.assign_copy demoU 1 0).heap.frees = [2] :=
  ⟨by decide, by decide,
   ((copy_independent demoU 1 0).1.1 [97, 98, 99] (by decide) (by decide)).2.2.1,
   ((copy_independent demoU 1 0).1.1 [97, 98, 99] (by decide) (by decide)).2.2.2.2.1,
   ((copy_independent demoU 1 0).2.1 [97, 98, 99] (by decide) (by decide) (by decide)
      (by decide) (by decide) (by decide)).2.2.2.2.1,
   ((copy_independent demoU 1 0).2.1 [97, 98, 99] (by decide) (by decide) (by decide)
      (by decide) (by decide) (by decide)).2.2.2.2.2.2.2.1⟩

theorem read_nullptr (h : BHeap) : h.read nullptr = none := by
  simp [BHeap.read]

theorem to_wstring_eq (m1 m2 : UMachine) (i j : Nat)
    (hp : m_bstr m1 i = m_bstr m2 j)
    (hr : m1.heap.read (m_bstr m2 j) = m2.heap.read (m_bstr m2 j)) :
    UBSTR.to_wstring m1 i = UBSTR.to_wstring m2 j := by
  simp only [UBSTR.to_wstring, UBSTR.toBool, hp, hr]

theorem getD_set_nullptr (l : List Ptr) (i : Nat) : (l.set i nullptr).getD i nullptr = nullptr := by
  by_cases hi : i < l.length
  · exact getD_set_self _ _ _ hi
  · have hle := Nat.le_of_not_lt hi
    rw [List.set_eq_of_length_le hle]
    exact getD_of_length_le _ _ hle

theorem construct_move_eq (m : UMachine) (s : Nat) :
    (UBSTR.construct_move m s).1 =
      UMachine.mk (m.objs.set s nullptr ++ [m_bstr m s]) m.heap := by
  have hnew : m_bstr (UMachine.mk (m.objs ++ [nullptr]) m.heap) m.objs.length = nullptr :=
    m_bstr_append_new _ _ _
  by_cases hs : s < m.objs.length
  · have hold : m_bstr (UMachine.mk (m.objs ++ [nullptr]) m.heap) s = m_bstr m s :=
      m_bstr_append_old _ _ _ _ _ hs
    simp only [UBSTR.construct_move, UBSTR.construct_default, UBSTR.swap, hnew, hold]
    rw [set_append_last_ptr, set_append_left_ptr _ _ _ _ hs]
  · have hle : m.objs.length ≤ s := Nat.le_of_not_lt hs
    have hb : m_bstr m s = nullptr := getD_of_length_le _ _ hle
    have hold : m_bstr (UMachine.mk (m.objs ++ [nullptr]) m.heap) s = nullptr := by
      by_cases he : s = m.objs.length
      · rw [he]; exact hnew
      · exact getD_of_length_le _ _ (by simp; omega)
    simp only [UBSTR.construct_move, UBSTR.construct_default, UBSTR.swap, hnew, hold, hb]
    rw [set_append_last_ptr, List.set_eq_of_length_le hle]
    by_cases he : s = m.objs.length
    · rw [he, set_append_last_ptr]
    · rw [set_append_beyond_ptr _ _ _ _ (by omega)]

/-! ## UBSTR: move -/

/-- C19, as stated, fails when an object is move-assigned to itself
(`s = std::move(s)`): on the scene, object 0 holds the buffer at address 1
with the text `abc`; after the move assignment of object 0 into object 0 it
still holds that buffer, so the source is not empty; nothing was freed. -/
theorem move_assign_self_keeps_buffer :
    m_bstr demoU 0 = 1 ∧ (0 : Nat) < demoU.objs.length ∧
    m_bstr (UBSTR.assign_move demoU 0 0) 0 = 1 ∧
    m_bstr (UBSTR.assign_move demoU 0 0) 0 ≠ nullptr ∧
    UBSTR.toBool (UBSTR.assign_move demoU 0 0) 0 = true ∧
    (UBSTR.assign_move demoU 0 0).objs = demoU.objs ∧
    (UBSTR.assign_move demoU 0 0).heap.frees = [] := by
  decide

/-- C19: moving a `UBSTR` transfers the buffer and empties the source.  After
move construction from `s` the new last object holds the very buffer `s` held,
`s` holds none, the allocator is untouched (nothing allocated, nothing freed)
and the text of the new object is the text `s` had.  After move assignment of
`s` into another live object `d` (which does not hold the buffer of `s`), `d`
holds the very buffer `s` held, `s` holds none, no object is left over,
nothing is allocated, the buffer `d` held before is freed exactly once
(nothing is freed when `d` was empty), the moved buffer is not freed and
still has its content, and the text of `d` is the text `s` had.  Move
assignment of a live object into itself changes nothing: the object keeps its
buffer and nothing is allocated or freed. -/
theorem move_transfers_buffer (m : UMachine) (d s : Nat) :
    ((UBSTR.construct_move m s).2 = m.objs.length ∧
      m_bstr (UBSTR.construct_move m s).1 (UBSTR.construct_move m s).2 = m_bstr m s ∧
      m_bstr (UBSTR.construct_move m s).1 s = nullptr ∧
      (UBSTR.construct_move m s).1.heap = m.heap ∧
      UBSTR.to_wstring (UBSTR.construct_move m s).1 (UBSTR.construct_move m s).2
        = UBSTR.to_wstring m s) ∧
    (d < m.objs.length → d ≠ s → (m_bstr m s ≠ nullptr → m_bstr m d ≠ m_bstr m s) →
      m_bstr (UBSTR.assign_move m d s) d = m_bstr m s ∧
      m_bstr (UBSTR.assign_move m d s) s = nullptr ∧
      (UBSTR.assign_move m d s).objs = (m.objs.set s nullptr).set d (m_bstr m s) ∧
      (UBSTR.assign_move m d s).heap = SysFreeString m.heap (m_bstr m d) ∧
      (UBSTR.assign_move m d s).heap.bufs.length = m.heap.bufs.length ∧
      (UBSTR.assign_move m d s).heap.frees
        = m.heap.frees ++ (if m_bstr m d ≠ nullptr then [m_bstr m d] else []) ∧
      (m_bstr m s ≠ nullptr →
        m_bstr m s ∉ (if m_bstr m d ≠ nullptr then [m_bstr m d] else [])) ∧
      (UBSTR.assign_move m d s).heap.read (m_bstr m s) = m.heap.read (m_bstr m s) ∧
      UBSTR.to_wstring (UBSTR.assign_move m d s) d = UBSTR.to_wstring m s) ∧
    (s < m.objs.length → UBSTR.assign_move m s s = m) := by
  have e2 : (UBSTR.construct_move m s).2 = m.objs.length := rfl
  have hl : (m.objs.set s nullptr).length = m.objs.length := by simp
  refine ⟨?_, ?_, ?_⟩
  · rw [e2, construct_move_eq]
    have hnew : m_bstr (UMachine.mk (m.objs.set s nullptr ++ [m_bstr m s]) m.heap)
        m.objs.length = m_bstr m s := by
      rw [← hl]; exact m_bstr_append_new _ _ _
    refine ⟨rfl, hnew, ?_, rfl, ?_⟩
    · by_cases hs : s < m.objs.length
      · have h1 := m_bstr_append_old (m.objs.set s nullptr) m.heap m.heap (m_bstr m s) s
          (by rw [hl]; exact hs)
        rw [h1]
        exact getD_set_nullptr _ _
      · have hle : m.objs.length ≤ s := Nat.le_of_not_lt hs
        have hb : m_bstr m s = nullptr := getD_of_length_le _ _ hle
        rw [hb, List.set_eq_of_length_le hle]
        by_cases he : s = m.objs.length
        · rw [he]; exact m_bstr_append_new _ _ _
        · exact getD_of_length_le _ _ (by simp; omega)
    · exact to_wstring_eq _ m _ s hnew rfl
  · intro hd hds hqb
    have hd2 : d < (m.objs.set s nullptr).length := by rw [hl]; exact hd
    have hq : (m.objs.set s nullptr).getD d nullptr = m_bstr m d :=
      getD_set_other _ _ _ _ (Ne.symm hds)
    have e : UBSTR.assign_move m d s =
        UMachine.mk ((m.objs.set s nullptr).set d (m_bstr m s))
          (SysFreeString m.heap (m_bstr m d)) := by
      simp only [UBSTR.assign_move]
      rw [e2, construct_move_eq, ← hl, swap_temp_destruct _ _ _ _ hd2, hq]
    rw [e]
    have hdd : m_bstr (UMachine.mk ((m.objs.set s nullptr).set d (m_bstr m s))
        (SysFreeString m.heap (m_bstr m d))) d = m_bstr m s := getD_set_self _ _ _ hd2
    have hrd : (SysFreeString m.heap (m_bstr m d)).read (m_bstr m s)
        = m.heap.read (m_bstr m s) := by
      by_cases hb : m_bstr m s = nullptr
      · rw [hb, read_nullptr, read_nullptr]
      · exact read_after_free_other _ _ _ (hqb hb) hb
    refine ⟨hdd, ?_, rfl, rfl, ?_, ?_, ?_, hrd, ?_⟩
    · show ((m.objs.set s nullptr).set d (m_bstr m s)).getD s nullptr = nullptr
      rw [getD_set_other _ _ _ _ hds]
      exact getD_set_nullptr _ _
    · by_cases hq0 : m_bstr m d = nullptr <;> simp [SysFreeString, hq0]
    · rw [frees_SysFreeString]
    · intro hb
      by_cases hq0 : m_bstr m d = nullptr
      · simp [hq0]
      · simp only [ne_eq, hq0, not_false_eq_true, if_true, List.mem_singleton]
        exact fun e => hqb hb e.symm
    · exact to_wstring_eq _ m d s hdd hrd
  · intro hs
    have hs2 : s < (m.objs.set s nullptr).length := by rw [hl]; exact hs
    have e : UBSTR.assign_move m s s =
        UMachine.mk ((m.objs.set s nullptr).set s (m_bstr m s))
          (SysFreeString m.heap ((m.objs.set s nullptr).getD s nullptr)) := by
      simp only [UBSTR.assign_move]
      rw [e2, construct_move_eq, ← hl, swap_temp_destruct _ _ _ _ hs2]
    rw [e, getD_set_nullptr, List.set_set]
    have h1 : m.objs.set s (m_bstr m s) = m.objs := set_getD_same m.objs s
    have h2 : SysFreeString m.heap nullptr = m.heap := by simp [SysFreeString]
    rw [h1, h2]

/-- Witness for C19 on the scene: object 0 (buffer 1, text `abc`) is
move-assigned into object 1 (buffer 2). -/
theorem move_transfers_buffer_witness :
    (1 : Nat) < demoU.objs.length ∧ (1 : Nat) ≠ 0 ∧
    (UBSTR.assign_move demoU 1 0).objs = [0, 1, 0] ∧
    (UBSTR.assign_move demoU 1 0).heap.frees = [2] ∧
    UBSTR.to_wstring (UBSTR.assign_move demoU 1 0) 1 = some [97, 98, 99] ∧
    UBSTR.assign_move demoU 0 0 = demoU :=
  ⟨by decide, by decide,
   ((move_transfers_buffer demoU 1 0).2.1 (by decide) (by decide) (by decide)).2.2.1,
   ((move_transfers_buffer demoU 1 0).2.1 (by decide) (by decide) (by decide)).2.2.2.2.2.1,
   ((move_transfers_buffer demoU 1 0).2.1 (by decide) (by decide) (by decide)).2.2.2.2.2.2.2.2,
   (move_transfers_buffer demoU 0 0).2.2 (by decide)⟩

/-! ## UBSTR: output slot -/

/-- C29: `As<U>` has a non-null precondition.  For every non-null handle the
query is made through the held reference and `As` returns its result handle
(the null-dereference branch is not reached); for a null handle there is no
guard: the query is made through the null reference, so `As` reaches the
branch without defined behaviour and returns no handle at all, not even a null
one. -/
theorem As_null_precondition (q : Query) (m : Machine) (h riid : Nat) :
    (m_ptr m h ≠ nullptr →
      (As q m h riid).isSome = true ∧
      ∃ r : Machine, As q m h riid = some (r, m.mem.length)) ∧
    (m_ptr m h = nullptr → As q m h riid = none) ∧
    (As q m h riid = none ↔ m_ptr m h = nullptr) := by
  refine ⟨?_, ?_, ?_⟩
  · intro hp
    rw [As_eq q m h riid hp]
    exact ⟨rfl, _, rfl⟩
  · intro hp
    simp [As, hp]
  · constructor
    · intro hn
      by_contra hp
      rw [As_eq q m h riid hp] at hn
      exact Option.noConfusion hn
    · intro hp
      simp [As, hp]

/-- Witness for C29 on the scene: handle 0 is non-null, handle 3 is null. -/
theorem As_null_precondition_witness :
    m_ptr demoMachine 0 ≠ nullptr ∧ m_ptr demoMachine 3 = nullptr ∧
    (As demoQuery demoMachine 0 IID_IA).isSome = true ∧
    As demoQuery demoMachine 3 IID_IA = none :=
  ⟨by decide, by decide,
   ((As_null_precondition demoQuery demoMachine 0 IID_IA).1 (by decide)).1,
   (As_null_precondition demoQuery demoMachine 3 IID_IA).2.1 (by decide)⟩

/-! ## Order of the null write and the release -/

theorem exec_append (m : Machine) (a b : List Step) : exec m (a ++ b) = exec (exec m a) b := by
  simp [exec, List.foldl_append]

theorem exec_InternalRelease (m : Machine) (i : Nat) :
    exec m (InternalRelease_steps m i) = InternalRelease m i := by
  by_cases h : m_ptr m i = nullptr
  · simp [InternalRelease_steps, InternalRelease, h, exec]
  · simp [InternalRelease_steps, InternalRelease, h, exec, Step.exec, setPtr]

theorem exec_InternalAddRef (m : Machine) (i : Nat) :
    exec m (InternalAddRef_steps m i) = InternalAddRef m i := by
  by_cases h : m_ptr m i = nullptr
  · simp [InternalAddRef_steps, InternalAddRef, h, exec]
  · simp [InternalAddRef_steps, InternalAddRef, h, exec, Step.exec]

theorem exec_InternalCopy (m : Machine) (i : Nat) (r : Ptr) :
    exec m (InternalCopy_steps m i r) = InternalCopy m i r := by
  by_cases h : m_ptr m i = r
  · simp [InternalCopy_steps, InternalCopy, h, exec]
  · simp only [InternalCopy_steps, InternalCopy, h, ne_eq, not_false_eq_true, if_true]
    rw [exec_append, exec_InternalAddRef, exec_append, exec_InternalRelease]
    rfl

theorem exec_InternalMove (m : Machine) (d s : Nat) :
    exec m (InternalMove_steps m d s) = InternalMove m d s := by
  by_cases h : m_ptr m d = m_ptr m s
  · simp [InternalMove_steps, InternalMove, h, exec]
  · simp only [InternalMove_steps, InternalMove, h, ne_eq, not_false_eq_true, if_true]
    rw [exec_append, exec_InternalRelease]
    rfl

theorem exec_steps (m : Machine) (op : RelOp) : exec m (op.steps m) = op.result m := by
  cases op with
  | destruct self => exact exec_InternalRelease m self
  | assign_nullptr self => exact exec_InternalRelease m self
  | set obj =>
    show exec m (if toBool m obj then InternalRelease_steps m obj else []) = (set m obj).1
    rw [set_eq]
    by_cases hb : toBool m obj = true
    · simp only [hb, if_true]; exact exec_InternalRelease m obj
    · have hp : m_ptr m obj = nullptr := by simpa [toBool] using hb
      simp only [hb, Bool.false_eq_true, if_false]
      rw [InternalRelease_of_eq m obj hp]
      rfl
  | attach obj p =>
    show exec m (InternalRelease_steps m obj ++ [Step.write obj p]) = attach m obj p
    rw [exec_append, exec_InternalRelease]
    rfl
  | CopyFrom self other => exact exec_InternalCopy m self other
  | assign_copy self other => exact exec_InternalCopy m self _
  | assign_move self other => exact exec_InternalMove m self other

theorem release_not_mem_addref (m : Machine) (i : Nat) (p : Ptr) :
    Step.Release p ∉ InternalAddRef_steps m i := by
  by_cases h : m_ptr m i = nullptr <;> simp [InternalAddRef_steps, h]

/-- Shape of the steps of an operation: nothing at all, or the steps of
`InternalRelease` on its handle followed by steps among which there is no
release. -/
theorem steps_shape (m : Machine) (op : RelOp) :
    op.steps m = [] ∨
    ∃ rest, op.steps m = InternalRelease_steps m op.self ++ rest ∧
      ∀ p, Step.Release p ∉ rest := by
  cases op with
  | destruct self => exact Or.inr ⟨[], by simp [RelOp.steps, RelOp.self], by simp⟩
  | assign_nullptr self => exact Or.inr ⟨[], by simp [RelOp.steps, RelOp.self], by simp⟩
  | set obj =>
    by_cases hb : toBool m obj = true
    · exact Or.inr ⟨[], by simp [RelOp.steps, RelOp.self, hb], by simp⟩
    · exact Or.inl (by simp [RelOp.steps, hb])
  | attach obj p =>
    exact Or.inr ⟨[Step.write obj p], rfl, by simp⟩
  | CopyFrom self other =>
    by_cases h : m_ptr m self = other
    · exact Or.inl (by simp [RelOp.steps, InternalCopy_steps, h])
    · refine Or.inr ⟨Step.write self other ::
        InternalAddRef_steps (exec m (InternalRelease_steps m self ++ [Step.write self other]))
          self, ?_, ?_⟩
      · simp [RelOp.steps, RelOp.self, InternalCopy_steps, h]
      · intro p hp
        rcases List.mem_cons.mp hp with h1 | h1
        · exact Step.noConfusion h1
        · exact release_not_mem_addref _ _ _ h1
  | assign_copy self other =>
    by_cases h : m_ptr m self = m_ptr m other
    · exact Or.inl (by simp [RelOp.steps, InternalCopy_steps, h])
    · refine Or.inr ⟨Step.write self (m_ptr m other) ::
        InternalAddRef_steps
          (exec m (InternalRelease_steps m self ++ [Step.write self (m_ptr m other)])) self,
        ?_, ?_⟩
      · simp [RelOp.steps, RelOp.self, InternalCopy_steps, h]
      · intro p hp
        rcases List.mem_cons.mp hp with h1 | h1
        · exact Step.noConfusion h1
        · exact release_not_mem_addref _ _ _ h1
  | assign_move self other =>
    by_cases h : m_ptr m self = m_ptr m other
    · exact Or.inl (by simp [RelOp.steps, InternalMove_steps, h])
    · refine Or.inr ⟨[Step.write self (m_ptr (exec m (InternalRelease_steps m self)) other),
        Step.write other nullptr], ?_, ?_⟩
      · simp [RelOp.steps, RelOp.self, InternalMove_steps, h]
      · intro p hp
        simp at hp

/-- Every release in the steps of an operation is the second step, right after
the write of null to the handle, and it is the release of what the handle
held. -/
theorem release_position (m : Machine) (op : RelOp) (pre post : List Step) (p : Ptr)
    (h : op.steps m = pre ++ Step.Release p :: post) :
    pre = [Step.write op.self nullptr] ∧ p = m_ptr m op.self ∧ p ≠ nullptr ∧
    ∀ p2, Step.Release p2 ∉ post := by
  rcases steps_shape m op with h0 | ⟨rest, hs, hrest⟩
  · rw [h0] at h
    exact absurd h (by simp)
  · by_cases hq : m_ptr m op.self = nullptr
    · have : Step.Release p ∈ rest := by
        have e : op.steps m = rest := by rw [hs]; simp [InternalRelease_steps, hq]
        rw [← e, h]; simp
      exact absurd this (hrest p)
    · have e : op.steps m =
          Step.write op.self nullptr :: Step.Release (m_ptr m op.self) :: rest := by
        rw [hs]; simp [InternalRelease_steps, hq]
      rw [e] at h
      cases pre with
      | nil => exact absurd (List.cons.inj h).1 (by simp)
      | cons a pre1 =>
        have h1 := List.cons.inj h
        cases pre1 with
        | nil =>
          have h2 := List.cons.inj h1.2
          have hp : m_ptr m op.self = p := Step.Release.inj h2.1
          refine ⟨by rw [h1.1], hp.symm, by rw [← hp]; exact hq, ?_⟩
          intro p2
          rw [← h2.2]; exact hrest p2
        | cons b pre2 =>
          have h2 := List.cons.inj h1.2
          have : Step.Release p ∈ rest := by rw [h2.2]; simp
          exact absurd this (hrest p)

/-- C27: in every operation that can issue a release on the held object
(destruction, null assignment, `set`, `attach`, `CopyFrom`, copy assignment,
move assignment), the steps run to the state the operation leaves, and at the
moment a release call is issued (the state after the steps before it) the
slot of the handle is null, so it does not hold the reference being released;
that reference is the non-null one the handle held when the operation
began. -/
theorem no_stale_slot (m : Machine) (op : RelOp) :
    exec m (op.steps m) = op.result m ∧
    ∀ (pre post : List Step) (p : Ptr), op.steps m = pre ++ Step.Release p :: post →
      m_ptr (exec m pre) op.self ≠ p ∧
      m_ptr (exec m pre) op.self = nullptr ∧
      p = m_ptr m op.self ∧ p ≠ nullptr := by
  refine ⟨exec_steps m op, ?_⟩
  intro pre post p h
  obtain ⟨hpre, hp, hp0, _⟩ := release_position m op pre post p h
  have hlt : op.self < m.mem.length := lt_length_of_m_ptr_ne m op.self (by rw [← hp]; exact hp0)
  have hnull : m_ptr (exec m pre) op.self = nullptr := by
    rw [hpre]
    exact m_ptr_setPtr_self m op.self nullptr hlt
  refine ⟨?_, hnull, hp, hp0⟩
  rw [hnull]
  exact fun e => hp0 e.symm

/-- Witness for C27 on the scene: copy assignment of handle 0 (reference 16)
into handle 2 (reference 32). -/
theorem no_stale_slot_witness :
    (RelOp.assign_copy 2 0).steps demoMachine
      = [Step.write 2 nullptr] ++ Step.Release 32 :: [Step.write 2 16, Step.AddRef 16] ∧
    m_ptr (exec demoMachine [Step.write 2 nullptr]) 2 ≠ 32 :=
  ⟨by decide,
   ((no_stale_slot demoMachine (RelOp.assign_copy 2 0)).2 [Step.write 2 nullptr]
      [Step.write 2 16, Step.AddRef 16] 32 (by decide)).1⟩

/-- C28, as stated, fails: in null assignment of handle 2 of the scene (which
holds the reference 32) the write that sets the slot to null is the first
step and the release call is the second, so the release does not occur before
that write. -/
theorem release_not_before_null_write :
    (RelOp.assign_nullptr 2).steps demoMachine = [Step.write 2 nullptr, Step.Release 32] ∧
    List.indexOf (Step.write 2 nullptr) ((RelOp.assign_nullptr 2).steps demoMachine) = 0 ∧
    List.indexOf (Step.Release 32) ((RelOp.assign_nullptr 2).steps demoMachine) = 1 ∧
    ¬ (List.indexOf (Step.Release 32) ((RelOp.assign_nullptr 2).steps demoMachine)
        < List.indexOf (Step.write 2 nullptr) ((RelOp.assign_nullptr 2).steps demoMachine)) := by
  decide

/-- C28 (amended): in the step sequence of every operation that gives up the
held reference, the write that sets the slot of the handle to null is the
first step, the release call on the old reference is the second, and all
other steps come after it: there is no second release, and the write that
stores a newly acquired reference into the slot (`attach`, `CopyFrom`, copy
and move assignment) comes after the release. -/
theorem release_after_null_write (m : Machine) (op : RelOp) (p : Ptr)
    (h : Step.Release p ∈ op.steps m) :
    p = m_ptr m op.self ∧ p ≠ nullptr ∧
    ∃ rest, op.steps m = Step.write op.self nullptr :: Step.Release p :: rest ∧
      (∀ p2, Step.Release p2 ∉ rest) ∧
      (∀ obj v, op = RelOp.attach obj v → rest = [Step.write obj v]) ∧
      (∀ self other, op = RelOp.CopyFrom self other →
        ∃ tail, rest = Step.write self other :: tail) ∧
      (∀ self other, op = RelOp.assign_copy self other →
        ∃ tail, rest = Step.write self (m_ptr m other) :: tail) ∧
      (∀ self other, op = RelOp.assign_move self other →
        rest = [Step.write self (m_ptr m other), Step.write other nullptr]) := by
  obtain ⟨pre, post, hsplit⟩ := List.append_of_mem h
  obtain ⟨hpre, hp, hp0, hpost⟩ := release_position m op pre post p hsplit
  rw [hpre] at hsplit
  refine ⟨hp, hp0, post, hsplit, hpost, ?_, ?_, ?_, ?_⟩
  · intro obj v he
    subst he
    have hq : m_ptr m obj ≠ nullptr := fun e => hp0 (hp.trans e)
    have e : (RelOp.attach obj v).steps m
        = [Step.write obj nullptr, Step.Release (m_ptr m obj), Step.write obj v] := by
      simp [RelOp.steps, InternalRelease_steps, hq]
    rw [e] at hsplit
    simpa using (List.cons.inj (List.cons.inj hsplit).2).2.symm
  · intro self other he
    subst he
    have hq : m_ptr m self ≠ nullptr := fun e => hp0 (hp.trans e)
    by_cases hne : m_ptr m self = other
    · have e : (RelOp.CopyFrom self other).steps m = [] := by
        simp [RelOp.steps, InternalCopy_steps, hne]
      rw [e] at hsplit
      exact absurd hsplit (by simp)
    · have e : (RelOp.CopyFrom self other).steps m
          = Step.write self nullptr :: Step.Release (m_ptr m self) :: Step.write self other ::
            InternalAddRef_steps
              (exec m (InternalRelease_steps m self ++ [Step.write self other])) self := by
        simp [RelOp.steps, InternalCopy_steps, InternalRelease_steps, hq, hne]
      rw [e] at hsplit
      exact ⟨_, ((List.cons.inj (List.cons.inj hsplit).2).2).symm⟩
  · intro self other he
    subst he
    have hq : m_ptr m self ≠ nullptr := fun e => hp0 (hp.trans e)
    by_cases hne : m_ptr m self = m_ptr m other
    · have e : (RelOp.assign_copy self other).steps m = [] := by
        simp [RelOp.steps, InternalCopy_steps, hne]
      rw [e] at hsplit
      exact absurd hsplit (by simp)
    · have e : (RelOp.assign_copy self other).steps m
          = Step.write self nullptr :: Step.Release (m_ptr m self) ::
            Step.write self (m_ptr m other) ::
            InternalAddRef_steps
              (exec m (InternalRelease_steps m self ++ [Step.write self (m_ptr m other)]))
              self := by
        simp [RelOp.steps, InternalCopy_steps, InternalRelease_steps, hq, hne]
      rw [e] at hsplit
      exact ⟨_, ((List.cons.inj (List.cons.inj hsplit).2).2).symm⟩
  · intro self other he
    subst he
    have hq : m_ptr m self ≠ nullptr := fun e => hp0 (hp.trans e)
    by_cases hne : m_ptr m self = m_ptr m other
    · have e : (RelOp.assign_move self other).steps m = [] := by
        simp [RelOp.steps, InternalMove_steps, hne]
      rw [e] at hsplit
      exact absurd hsplit (by simp)
    · have hso : self ≠ other := fun e => hne (by rw [e])
      have hrd : m_ptr (exec m (InternalRelease_steps m self)) other = m_ptr m other := by
        rw [exec_InternalRelease, InternalRelease_eq]
        exact getD_set_other _ _ _ _ hso
      have e : (RelOp.assign_move self other).steps m
          = [Step.write self nullptr, Step.Release (m_ptr m self),
             Step.write self (m_ptr m other), Step.write other nullptr] := by
        simp only [RelOp.steps, InternalMove_steps, hne, ne_eq, not_false_eq_true, if_true, hrd]
        simp [InternalRelease_steps, hq]
      rw [e] at hsplit
      exact ((List.cons.inj (List.cons.inj hsplit).2).2).symm

/-- Witness for C28 (amended) on the scene: `attach` of the reference 48 to
handle 2, which holds 32. -/
theorem release_after_null_write_witness :
    Step.Release 32 ∈ (RelOp.attach 2 48).steps demoMachine ∧
    ∃ rest, (RelOp.attach 2 48).steps demoMachine
      = Step.write 2 nullptr :: Step.Release 32 :: rest :=
  ⟨by decide,
   (release_after_null_write demoMachine (RelOp.attach 2 48) 32 (by decide)).2.2.imp
     (fun _ hr => hr.1)⟩

/-! ## ComException: construction from a status code -/

theorem drainText_none (w : EWorld) (c : ECall) (hr : HRESULT) (m_x : List wchar_t) :
    drainText w c (hr, none) m_x
      = some (EWorld.mk w.hr2 w.pei w.info (UMachine.mk (w.u.objs ++ [nullptr]) w.u.heap)
          (w.log ++ [c]), w.u.objs.length, if SUCCEEDED hr then [] else m_x) := by
  have hcx : UBSTR.construct_default w.u
      = (UMachine.mk (w.u.objs ++ [nullptr]) w.u.heap, w.u.objs.length) := rfl
  have hset : UBSTR.set (UMachine.mk (w.u.objs ++ [nullptr]) w.u.heap) w.u.objs.length
      = (UMachine.mk (w.u.objs ++ [nullptr]) w.u.heap, w.u.objs.length) := by
    simp [UBSTR.set, m_bstr_append_new]
  have ht : UBSTR.to_wstring (UMachine.mk (w.u.objs ++ [nullptr]) w.u.heap) w.u.objs.length
      = some [] := to_wstring_of_empty _ _ _ (m_bstr_append_new _ _ _)
  simp only [drainText, hcx, hset, readText, ht]
  by_cases hs : SUCCEEDED hr = true <;> simp [hs]

theorem drainText_some (w : EWorld) (c : ECall) (hr : HRESULT) (t m_x : List wchar_t) :
    drainText w c (hr, some t) m_x
      = some (EWorld.mk w.hr2 w.pei w.info
          (UMachine.mk (w.u.objs ++ [w.u.heap.bufs.length + 1])
            (BHeap.mk (w.u.heap.bufs ++ [some t]) w.u.heap.frees w.u.heap.avail))
          (w.log ++ [c]), w.u.objs.length, if SUCCEEDED hr then cstr t else m_x) := by
  have hcx : UBSTR.construct_default w.u
      = (UMachine.mk (w.u.objs ++ [nullptr]) w.u.heap, w.u.objs.length) := rfl
  have hset : UBSTR.set (UMachine.mk (w.u.objs ++ [nullptr]) w.u.heap) w.u.objs.length
      = (UMachine.mk (w.u.objs ++ [nullptr]) w.u.heap, w.u.objs.length) := by
    simp [UBSTR.set, m_bstr_append_new]
  have hst : UBSTR.store (UMachine.mk (w.u.objs ++ [nullptr]) (w.u.heap.place t).1)
      w.u.objs.length (w.u.heap.place t).2
      = UMachine.mk (w.u.objs ++ [w.u.heap.bufs.length + 1])
          (BHeap.mk (w.u.heap.bufs ++ [some t]) w.u.heap.frees w.u.heap.avail) := by
    simp only [UBSTR.store, BHeap.place, set_append_last_ptr]
  have ht : UBSTR.to_wstring (UMachine.mk (w.u.objs ++ [w.u.heap.bufs.length + 1])
      (BHeap.mk (w.u.heap.bufs ++ [some t]) w.u.heap.frees w.u.heap.avail)) w.u.objs.length
      = some (cstr t) :=
    to_wstring_of_live _ _ _ t (by rw [m_bstr_append_new]; exact read_fresh _ _ _ _)
  simp only [drainText, hcx, hset, readText, hst, ht]
  by_cases hs : SUCCEEDED hr = true <;> simp [hs]

/-- The value a text member has after its read: the null-terminated text of
the stored buffer when the read succeeds, the old value otherwise. -/
theorem drainText_spec (w : EWorld) (c : ECall) (r : HRESULT × Option (List wchar_t))
    (m_x : List wchar_t) :
    ∃ w1 : EWorld,
      drainText w c r m_x
        = some (w1, w.u.objs.length, if SUCCEEDED r.1 then cstr (r.2.getD []) else m_x) ∧
      w1.log = w.log ++ [c] ∧ w1.info = w.info ∧ w1.hr2 = w.hr2 ∧ w1.pei = w.pei := by
  obtain ⟨hr, out⟩ := r
  cases out with
  | none =>
    exact ⟨EWorld.mk w.hr2 w.pei w.info (UMachine.mk (w.u.objs ++ [nullptr]) w.u.heap)
      (w.log ++ [c]), by rw [drainText_none]; simp [cstr], rfl, rfl, rfl, rfl⟩
  | some t =>
    exact ⟨EWorld.mk w.hr2 w.pei w.info
      (UMachine.mk (w.u.objs ++ [w.u.heap.bufs.length + 1])
        (BHeap.mk (w.u.heap.bufs ++ [some t]) w.u.heap.frees w.u.heap.avail))
      (w.log ++ [c]), by rw [drainText_some]; rfl, rfl, rfl, rfl, rfl⟩

/-- Closed form of the constructor when the channel hands out an object. -/
theorem construct_attached (w : EWorld) (c : HRESULT)
    (h1 : w.hr2 = S_OK) (h2 : w.pei ≠ nullptr) :
    ∃ w1 : EWorld,
      ComException.construct w c = some (w1,
        ComException.mk c
          (if SUCCEEDED w.info.GetSource.1 then cstr (w.info.GetSource.2.getD []) else [])
          (if SUCCEEDED w.info.GetDescription.1 then cstr (w.info.GetDescription.2.getD [])
            else [])
          (if SUCCEEDED w.info.GetHelpFile.1 then cstr (w.info.GetHelpFile.2.getD []) else [])
          (if SUCCEEDED w.info.GetHelpContext.1 then w.info.GetHelpContext.2.getD 0 else 0)
          (if SUCCEEDED w.info.GetGUID.1 then w.info.GetGUID.2.getD GUID.zeroed
            else GUID.zeroed)) ∧
      w1.log = w.log ++ [ECall.GetErrorInfo, ECall.GetSource w.pei, ECall.GetDescription w.pei,
        ECall.GetHelpFile w.pei, ECall.GetHelpContext w.pei, ECall.GetGUID w.pei,
        ECall.Release w.pei] ∧
      w1.pei = nullptr := by
  obtain ⟨wa, ha, la, ia, _, pa⟩ := drainText_spec
    (EWorld.mk S_FALSE nullptr w.info w.u (w.log ++ [ECall.GetErrorInfo]))
    (ECall.GetSource w.pei) w.info.GetSource []
  obtain ⟨wb, hb, lb, ib, _, pb⟩ := drainText_spec wa
    (ECall.GetDescription w.pei) w.info.GetDescription []
  obtain ⟨wc, hc, lc, ic, _, pc⟩ := drainText_spec wb
    (ECall.GetHelpFile w.pei) w.info.GetHelpFile []
  have ib2 : wb.info = w.info := ib.trans ia
  have ic2 : wc.info = w.info := ic.trans ib2
  refine ⟨EWorld.mk wc.hr2 wc.pei wc.info
    (UBSTR.destruct (UBSTR.destruct (UBSTR.destruct wc.u wb.u.objs.length) wa.u.objs.length)
      w.u.objs.length)
    (((wc.log ++ [ECall.GetHelpContext w.pei]) ++ [ECall.GetGUID w.pei])
      ++ [ECall.Release w.pei]), ?_, ?_, ?_⟩
  · simp only [ComException.construct, GetErrorInfo, h1, h2, ne_eq, not_false_eq_true,
      and_self, if_true, ha, Option.some_bind, ia, hb, ib2, hc, ic2]
  · simp only [lc, lb, la, List.append_assoc, List.singleton_append, List.cons_append,
      List.nil_append]
  · exact pc.trans (pb.trans pa)

/-- C22: for every status code `c`, when the channel reports no attached error
info (its answer is not `S_OK` with a non-null pointer), the constructor
returns, and the `ComException` it builds has `hr()` equal to `c`,
`source()`, `description()` and `help_file()` empty, `help_context()` equal
to 0 and `guid()` equal to the all-zero GUID; no call other than the one query
is made.  A default-constructed `ComException` has the same members with
`hr()` equal to 0. -/
theorem no_error_info_defaults (w : EWorld) (c : HRESULT)
    (h : ¬ (w.hr2 = S_OK ∧ w.pei ≠ nullptr)) :
    (∃ w1 : EWorld, ComException.construct w c
        = some (w1, ComException.mk c [] [] [] 0 IID_NULL) ∧
      w1.log = w.log ++ [ECall.GetErrorInfo] ∧ w1.u = w.u) ∧
    (ComException.mk c [] [] [] 0 IID_NULL).hr = c ∧
    (ComException.mk c [] [] [] 0 IID_NULL).source = [] ∧
    (ComException.mk c [] [] [] 0 IID_NULL).description = [] ∧
    (ComException.mk c [] [] [] 0 IID_NULL).help_file = [] ∧
    (ComException.mk c [] [] [] 0 IID_NULL).help_context = 0 ∧
    (ComException.mk c [] [] [] 0 IID_NULL).guid = IID_NULL ∧
    ComException.construct_default = ComException.mk 0 [] [] [] 0 IID_NULL := by
  refine ⟨⟨EWorld.mk S_FALSE nullptr w.info w.u (w.log ++ [ECall.GetErrorInfo]), ?_, rfl, rfl⟩,
    rfl, rfl, rfl, rfl, rfl, rfl, rfl⟩
  have hc : ¬ ((GetErrorInfo w).1 = S_OK ∧ (GetErrorInfo w).2.1 ≠ nullptr) := h
  simp only [ComException.construct, hc, if_false]
  rfl

/-- Witness for C22: the world with nothing attached to the channel. -/
theorem no_error_info_defaults_witness :
    ¬ (quietWorld.hr2 = S_OK ∧ quietWorld.pei ≠ nullptr) ∧
    ∃ w1 : EWorld, ComException.construct quietWorld (-2147467259)
        = some (w1, ComException.mk (-2147467259) [] [] [] 0 IID_NULL) ∧
      w1.log = quietWorld.log ++ [ECall.GetErrorInfo] ∧ w1.u = quietWorld.u :=
  ⟨by decide, (no_error_info_defaults quietWorld (-2147467259) (by decide)).1⟩

/-- C23: for every status code `c`, when the channel hands out an error-info
object whose five reads all succeed and store the source `s`, the description
`d`, the help file `f` (texts without embedded terminator), the help context
`n` and the GUID `g`, the constructor returns and the `ComException` has
`hr() = c`, `source() = s`, `description() = d`, `help_file() = f`,
`help_context() = n` and `guid() = g`. -/
theorem all_reads_succeed (w : EWorld) (c : HRESULT) (s d f : List wchar_t) (n : DWORD)
    (g : GUID)
    (h1 : w.hr2 = S_OK) (h2 : w.pei ≠ nullptr)
    (hs : SUCCEEDED w.info.GetSource.1 = true ∧ w.info.GetSource.2 = some s)
    (hd : SUCCEEDED w.info.GetDescription.1 = true ∧ w.info.GetDescription.2 = some d)
    (hf : SUCCEEDED w.info.GetHelpFile.1 = true ∧ w.info.GetHelpFile.2 = some f)
    (hn : SUCCEEDED w.info.GetHelpContext.1 = true ∧ w.info.GetHelpContext.2 = some n)
    (hg : SUCCEEDED w.info.GetGUID.1 = true ∧ w.info.GetGUID.2 = some g)
    (ts : NoTerminator s) (td : NoTerminator d) (tf : NoTerminator f) :
    ∃ (w1 : EWorld) (e : ComException), ComException.construct w c = some (w1, e) ∧
      e.hr = c ∧ e.source = s ∧ e.description = d ∧ e.help_file = f ∧
      e.help_context = n ∧ e.guid = g := by
  obtain ⟨w1, he, _, _⟩ := construct_attached w c h1 h2
  refine ⟨w1, _, he, rfl, ?_, ?_, ?_, ?_, ?_⟩
  · simp [ComException.source, hs.1, hs.2, cstr_of_noTerminator s ts]
  · simp [ComException.description, hd.1, hd.2, cstr_of_noTerminator d td]
  · simp [ComException.help_file, hf.1, hf.2, cstr_of_noTerminator f tf]
  · simp [ComException.help_context, hn.1, hn.2]
  · simp [ComException.guid, hg.1, hg.2]

/-- Witness for C23: the world of the test with all five fields set. -/
theorem all_reads_succeed_witness :
    demoWorld.hr2 = S_OK ∧ demoWorld.pei ≠ nullptr ∧
    ∃ (w1 : EWorld) (e : ComException),
      ComException.construct demoWorld (-2147467259) = some (w1, e) ∧
      e.hr = -2147467259 ∧ e.source = [79, 98, 106] ∧ e.description = [98, 97, 100] ∧
      e.help_file = [104] ∧ e.help_context = 2 ∧
      e.guid = GUID.mk 982349371 36801 16544 [180, 149, 225, 61, 166, 95, 139, 52] :=
  ⟨by decide, by decide,
   all_reads_succeed demoWorld (-2147467259) [79, 98, 106] [98, 97, 100] [104] 2
     (GUID.mk 982349371 36801 16544 [180, 149, 225, 61, 166, 95, 139, 52])
     (by decide) (by decide) (by decide) (by decide) (by decide) (by decide) (by decide)
     (by decide) (by decide) (by decide)⟩

/-- C24, as stated, fails for a text with an embedded terminator: the object
of this world is attached, its source read succeeds and stores the buffer `O`,
terminator, `b`; the constructor returns, and `source()` is `O` alone, not the
value the object returned (`to_wstring` stops at the first terminator). -/
theorem embedded_terminator_cut :
    cutWorld.hr2 = S_OK ∧ cutWorld.pei ≠ nullptr ∧
    SUCCEEDED cutWorld.info.GetSource.1 = true ∧
    cutWorld.info.GetSource.2 = some [79, 0, 98] ∧
    (ComException.construct cutWorld (-2147467259)).map (fun r => r.2.source)
      = some [79] ∧
    (ComException.construct cutWorld (-2147467259)).map (fun r => r.2.source)
      ≠ some [79, 0, 98] := by
  decide

/-- C24: per-field independence.  When the channel hands out an error-info
object, then whichever of the five reads fail, the constructor returns, all
five reads are attempted, in order, and each member is decided by its own read
alone: it has the default (empty string, 0, all-zero GUID) when its read fails
and the value the object stored when its read succeeds (the initial empty or
zero value if the object stored nothing), a text being taken up to its first
terminator: the whole text when it has no embedded terminator. -/
theorem per_field_independence (w : EWorld) (c : HRESULT)
    (h1 : w.hr2 = S_OK) (h2 : w.pei ≠ nullptr) :
    ∃ (w1 : EWorld) (e : ComException), ComException.construct w c = some (w1, e) ∧
      e.hr = c ∧
      e.source
        = (if SUCCEEDED w.info.GetSource.1 then cstr (w.info.GetSource.2.getD []) else []) ∧
      e.description
        = (if SUCCEEDED w.info.GetDescription.1 then cstr (w.info.GetDescription.2.getD [])
            else []) ∧
      e.help_file
        = (if SUCCEEDED w.info.GetHelpFile.1 then cstr (w.info.GetHelpFile.2.getD [])
            else []) ∧
      e.help_context
        = (if SUCCEEDED w.info.GetHelpContext.1 then w.info.GetHelpContext.2.getD 0 else 0) ∧
      e.guid
        = (if SUCCEEDED w.info.GetGUID.1 then w.info.GetGUID.2.getD IID_NULL
            else IID_NULL) ∧
      [ECall.GetSource w.pei, ECall.GetDescription w.pei, ECall.GetHelpFile w.pei,
        ECall.GetHelpContext w.pei, ECall.GetGUID w.pei] <:+: w1.log ∧
      ((∀ t, w.info.GetSource.2 = some t → NoTerminator t) →
        e.source
          = (if SUCCEEDED w.info.GetSource.1 then w.info.GetSource.2.getD [] else [])) ∧
      ((∀ t, w.info.GetDescription.2 = some t → NoTerminator t) →
        e.description
          = (if SUCCEEDED w.info.GetDescription.1 then w.info.GetDescription.2.getD []
              else [])) ∧
      ((∀ t, w.info.GetHelpFile.2 = some t → NoTerminator t) →
        e.help_file
          = (if SUCCEEDED w.info.GetHelpFile.1 then w.info.GetHelpFile.2.getD []
              else [])) := by
  have hc : ∀ (o : Option (List wchar_t)), (∀ t, o = some t → NoTerminator t) →
      cstr (o.getD []) = o.getD [] := by
    intro o ho
    cases o with
    | none => rfl
    | some t => exact cstr_of_noTerminator t (ho t rfl)
  obtain ⟨w1, he, hl, _⟩ := construct_attached w c h1 h2
  refine ⟨w1, _, he, rfl, rfl, rfl, rfl, rfl, rfl, ?_, ?_, ?_, ?_⟩
  · rw [hl]
    exact ⟨w.log ++ [ECall.GetErrorInfo], [ECall.Release w.pei], by simp⟩
  · intro ts
    simp only [ComException.source, hc _ ts]
  · intro td
    simp only [ComException.description, hc _ td]
  · intro tf
    simp only [ComException.help_file, hc _ tf]

/-- Witness for C24: an object whose description and GUID reads fail. -/
theorem per_field_independence_witness :
    partWorld.hr2 = S_OK ∧ partWorld.pei ≠ nullptr ∧
    ∃ (w1 : EWorld) (e : ComException),
      ComException.construct partWorld (-2147467259) = some (w1, e) ∧
      e.source = [79, 98, 106] ∧ e.description = [] ∧ e.help_file = [104] ∧
      e.help_context = 2 ∧ e.guid = IID_NULL :=
  ⟨by decide, by decide,
   (per_field_independence partWorld (-2147467259) (by decide) (by decide)).imp
     (fun _ h => h.imp (fun _ k => ⟨k.1, k.2.2.1, k.2.2.2.1, k.2.2.2.2.1, k.2.2.2.2.2.1,
        k.2.2.2.2.2.2.1⟩))⟩

/-- C25: constructing a `ComException` from a status code queries the error
channel exactly once, as the first call.  When the channel hands out an
error-info object, the calls of the constructor are the query, the five reads
and then one release of that object, the last call, whatever the outcomes of
the reads; the channel no longer holds the object, and the value built has no
member that could refer to it (its members are a status, three strings, a
number and a GUID).  When the channel reports none, the query is the only
call and no release is issued. -/
theorem channel_queried_once (w : EWorld) (c : HRESULT) :
    (w.hr2 = S_OK ∧ w.pei ≠ nullptr →
      ∃ (w1 : EWorld) (e : ComException), ComException.construct w c = some (w1, e) ∧
        w1.log = w.log ++ [ECall.GetErrorInfo, ECall.GetSource w.pei,
          ECall.GetDescription w.pei, ECall.GetHelpFile w.pei, ECall.GetHelpContext w.pei,
          ECall.GetGUID w.pei, ECall.Release w.pei] ∧
        w1.pei = nullptr) ∧
    (¬ (w.hr2 = S_OK ∧ w.pei ≠ nullptr) →
      ∃ (w1 : EWorld) (e : ComException), ComException.construct w c = some (w1, e) ∧
        w1.log = w.log ++ [ECall.GetErrorInfo] ∧ w1.pei = nullptr) := by
  constructor
  · intro h
    obtain ⟨w1, he, hl, hp⟩ := construct_attached w c h.1 h.2
    exact ⟨w1, _, he, hl, hp⟩
  · intro h
    refine ⟨EWorld.mk S_FALSE nullptr w.info w.u (w.log ++ [ECall.GetErrorInfo]),
      ComException.mk c [] [] [] 0 GUID.zeroed, ?_, rfl, rfl⟩
    have hc : ¬ ((GetErrorInfo w).1 = S_OK ∧ (GetErrorInfo w).2.1 ≠ nullptr) := h
    simp only [ComException.construct, hc, if_false]
    rfl

/-- Witness for C25: the world of the test with an attached object at address
64. -/
theorem channel_queried_once_witness :
    (demoWorld.hr2 = S_OK ∧ demoWorld.pei ≠ nullptr) ∧
    ∃ (w1 : EWorld) (e : ComException),
      ComException.construct demoWorld 5 = some (w1, e) ∧
      w1.log = [ECall.GetErrorInfo, ECall.GetSource 64, ECall.GetDescription 64,
        ECall.GetHelpFile 64, ECall.GetHelpContext 64, ECall.GetGUID 64, ECall.Release 64] :=
  ⟨by decide,
   ((channel_queried_once demoWorld 5).1 (by decide)).imp
     (fun _ h => h.imp (fun _ k => ⟨k.1, k.2.1⟩))⟩

/-! ## ComException: value semantics -/

theorem objAt_set_self (st : List ComException) (i : Nat) (v : ComException)
    (h : i < st.length) : objAt (st.set i v) i = v := by
  simp [objAt, List.getD_eq_getElem?_getD, h]

theorem objAt_set_other (st : List ComException) (i j : Nat) (v : ComException)
    (h : i ≠ j) : objAt (st.set i v) j = objAt st j := by
  simp [objAt, List.getD_eq_getElem?_getD, List.getElem?_set_ne h]

theorem set_objAt_same (st : List ComException) (i : Nat) : st.set i (objAt st i) = st := by
  by_cases hi : i < st.length
  · apply List.ext_getElem (by simp)
    intro n h1 h2
    by_cases hn : i = n
    · subst hn
      simp [objAt, List.getD_eq_getElem?_getD, List.getElem?_eq_getElem hi]
    · simp [List.getElem_set_ne hn]
  · exact List.set_eq_of_length_le (Nat.le_of_not_lt hi)

theorem objAt_append_new (st : List ComException) (v : ComException) :
    objAt (st ++ [v]) st.length = v := by
  simp [objAt, List.getD_eq_getElem?_getD]

theorem objAt_append_old (st : List ComException) (v : ComException) (i : Nat)
    (h : i < st.length) : objAt (st ++ [v]) i = objAt st i := by
  simp [objAt, List.getD_eq_getElem?_getD, List.getElem?_append_left h]

theorem set_append_left_obj (l : List ComException) (x v : ComException) (d : Nat)
    (hd : d < l.length) : (l ++ [x]).set d v = l.set d v ++ [x] := by
  induction l generalizing d with
  | nil => simp at hd
  | cons a as ih =>
    cases d with
    | zero => rfl
    | succ n =>
      have hn : n < as.length := by simpa using hd
      simp [List.set, ih n hn]

theorem set_append_last_obj (l : List ComException) (x v : ComException) :
    (l ++ [x]).set l.length v = l ++ [v] := by
  induction l with
  | nil => rfl
  | cons a as ih => simp [List.set, ih]

theorem eraseIdx_append_last_obj (l : List ComException) (x : ComException) :
    (l ++ [x]).eraseIdx l.length = l := by
  induction l with
  | nil => rfl
  | cons a as ih => simp [List.eraseIdx, ih]

theorem swapMember_self {α : Type} (get : ComException → α)
    (put : ComException → α → ComException) (hput : ∀ e, put e (get e) = e)
    (st : List ComException) (a : Nat) : swapMember get put st a a = st := by
  have h1 : st.set a (put (objAt st a) (get (objAt st a))) = st := by
    rw [hput, set_objAt_same]
  simp only [swapMember, h1]

theorem swapMember_pair {α : Type} (get : ComException → α)
    (put : ComException → α → ComException)
    (st : List ComException) (a b : Nat) (xa xb : ComException)
    (hab : a ≠ b) (ha : a < st.length) (hb : b < st.length) :
    swapMember get put ((st.set a xa).set b xb) a b
      = (st.set a (put xa (get xb))).set b (put xb (get xa)) := by
  have ga : objAt ((st.set a xa).set b xb) a = xa := by
    rw [objAt_set_other _ _ _ _ (Ne.symm hab), objAt_set_self _ _ _ ha]
  have gb : objAt ((st.set a xa).set b xb) b = xb :=
    objAt_set_self _ _ _ (by simpa using hb)
  have e1 : ((st.set a xa).set b xb).set a (put xa (get xb))
      = (st.set a (put xa (get xb))).set b xb := by
    rw [List.set_comm _ _ _ (Ne.symm hab), List.set_set]
  have gb2 : objAt ((st.set a (put xa (get xb))).set b xb) b = xb :=
    objAt_set_self _ _ _ (by simpa using hb)
  simp only [swapMember, ga, gb, e1, gb2, List.set_set]

theorem swap_self (st : List ComException) (a : Nat) : ComException.swap st a a = st := by
  simp only [ComException.swap]
  rw [swapMember_self _ _ (fun _ => rfl), swapMember_self _ _ (fun _ => rfl),
    swapMember_self _ _ (fun _ => rfl), swapMember_self _ _ (fun _ => rfl),
    swapMember_self _ _ (fun _ => rfl), swapMember_self _ _ (fun _ => rfl)]

theorem swap_ne (st : List ComException) (a b : Nat)
    (hab : a ≠ b) (ha : a < st.length) (hb : b < st.length) :
    ComException.swap st a b = (st.set a (objAt st b)).set b (objAt st a) := by
  have e0 : st = (st.set a (objAt st a)).set b (objAt st b) := by
    rw [set_objAt_same]
    exact (set_objAt_same st b).symm
  simp only [ComException.swap]
  conv => lhs; rw [e0]
  rw [swapMember_pair _ _ st a b _ _ hab ha hb, swapMember_pair _ _ st a b _ _ hab ha hb,
    swapMember_pair _ _ st a b _ _ hab ha hb, swapMember_pair _ _ st a b _ _ hab ha hb,
    swapMember_pair _ _ st a b _ _ hab ha hb, swapMember_pair _ _ st a b _ _ hab ha hb]

theorem swap_eq (st : List ComException) (a b : Nat)
    (ha : a < st.length) (hb : b < st.length) :
    ComException.swap st a b = (st.set a (objAt st b)).set b (objAt st a) := by
  by_cases hab : a = b
  · subst hab
    rw [swap_self, List.set_set, set_objAt_same]
  · exact swap_ne st a b hab ha hb

theorem swap_temp_erase (st : List ComException) (t : ComException) (d : Nat)
    (hd : d < st.length) :
    (ComException.swap (st ++ [t]) d st.length).eraseIdx st.length = st.set d t := by
  have hne : d ≠ st.length := Nat.ne_of_lt hd
  rw [swap_ne _ _ _ hne (by simp; omega) (by simp), objAt_append_new,
    objAt_append_old _ _ _ hd, set_append_left_obj _ _ _ _ hd]
  have hl : (st.set d t).length = st.length := by simp
  rw [← hl, set_append_last_obj, eraseIdx_append_last_obj]

/-- C26, as stated, fails when an object is move-assigned to itself
(`e = std::move(e)`): object 0 of the store is the snapshot of the test, which
is not the default value; after the move assignment of object 0 into object 0
the store is what it was, so the source of the move is not left in the
default state. -/
theorem move_assign_self_not_default :
    (0 : Nat) < demoStore.length ∧
    objAt demoStore 0 ≠ ComException.construct_default ∧
    ComException.assign_move demoStore 0 0 = demoStore ∧
    objAt (ComException.assign_move demoStore 0 0) 0 ≠ ComException.construct_default ∧
    (objAt (ComException.assign_move demoStore 0 0) 0).hr = -2147467259 ∧
    (objAt (ComException.assign_move demoStore 0 0) 0).source = [79, 98, 106] := by
  decide

/-- C26: `ComException` has plain value semantics.  For a live object `e`
(cell `s`): the copy constructed from `e` is a new last object equal to `e`
in all six members and `e` is unchanged; the object move-constructed from `e`
is a new last object with the six members `e` had, and `e` is left in the
default state; copy assignment into a live object `d` makes `d` equal to `e`
and changes nothing else; move assignment into another live object `d` gives
`d` the six members `e` had and leaves `e` in the default state; move
assignment of `e` into itself changes nothing, so `e` keeps its six members.
`swap(a, b)` on live objects exchanges the two values, all six members at
once, and applied twice restores both. -/
theorem value_semantics (st : List ComException) (d s a b : Nat) :
    (s < st.length →
      (ComException.construct_copy st s).1 = st ++ [objAt st s] ∧
      (ComException.construct_copy st s).2 = st.length ∧
      (objAt (ComException.construct_copy st s).1 (ComException.construct_copy st s).2).hr
        = (objAt st s).hr ∧
      (objAt (ComException.construct_copy st s).1 (ComException.construct_copy st s).2).source
        = (objAt st s).source ∧
      (objAt (ComException.construct_copy st s).1
        (ComException.construct_copy st s).2).description = (objAt st s).description ∧
      (objAt (ComException.construct_copy st s).1
        (ComException.construct_copy st s).2).help_file = (objAt st s).help_file ∧
      (objAt (ComException.construct_copy st s).1
        (ComException.construct_copy st s).2).help_context = (objAt st s).help_context ∧
      (objAt (ComException.construct_copy st s).1 (ComException.construct_copy st s).2).guid
        = (objAt st s).guid ∧
      objAt (ComException.construct_copy st s).1 s = objAt st s ∧
      (ComException.construct_move st s).1
        = st.set s ComException.construct_default ++ [objAt st s] ∧
      (ComException.construct_move st s).2 = st.length ∧
      objAt (ComException.construct_move st s).1 (ComException.construct_move st s).2
        = objAt st s ∧
      objAt (ComException.construct_move st s).1 s = ComException.construct_default) ∧
    (s < st.length → d < st.length →
      ComException.assign_copy st d s = st.set d (objAt st s) ∧
      objAt (ComException.assign_copy st d s) d = objAt st s ∧
      objAt (ComException.assign_copy st d s) s = objAt st s) ∧
    (s < st.length → d < st.length → d ≠ s →
      ComException.assign_move st d s
        = (st.set s ComException.construct_default).set d (objAt st s) ∧
      objAt (ComException.assign_move st d s) d = objAt st s ∧
      objAt (ComException.assign_move st d s) s = ComException.construct_default) ∧
    (s < st.length →
      ComException.assign_move st s s = st ∧
      objAt (ComException.assign_move st s s) s = objAt st s) ∧
    (a < st.length → b < st.length →
      objAt (ComException.swap st a b) a = objAt st b ∧
      objAt (ComException.swap st a b) b = objAt st a ∧
      (ComException.swap st a b).length = st.length ∧
      ComException.swap (ComException.swap st a b) a b = st) := by
  have hmove : s < st.length → (ComException.construct_move st s).1
      = st.set s ComException.construct_default ++ [objAt st s] := by
    intro hs
    have hne : st.length ≠ s := Nat.ne_of_gt hs
    show ComException.swap (st ++ [ComException.construct_default]) st.length s = _
    rw [swap_ne _ _ _ hne (by simp) (by simp; omega), objAt_append_new,
      objAt_append_old _ _ _ hs, set_append_last_obj, set_append_left_obj _ _ _ _ hs]
  have hswap : a < st.length → b < st.length →
      objAt (ComException.swap st a b) a = objAt st b ∧
      objAt (ComException.swap st a b) b = objAt st a := by
    intro ha hb
    rw [swap_eq st a b ha hb]
    constructor
    · by_cases hab : a = b
      · subst hab
        exact objAt_set_self _ _ _ (by simpa using ha)
      · rw [objAt_set_other _ _ _ _ (Ne.symm hab), objAt_set_self _ _ _ ha]
    · exact objAt_set_self _ _ _ (by simpa using hb)
  refine ⟨?_, ?_, ?_, ?_, ?_⟩
  · intro hs
    have hc : (ComException.construct_copy st s).1 = st ++ [objAt st s] := rfl
    have e2 : (ComException.construct_copy st s).2 = st.length := rfl
    have hnew : objAt (ComException.construct_copy st s).1 (ComException.construct_copy st s).2
        = objAt st s := by
      rw [hc, e2]; exact objAt_append_new _ _
    have e3 : (ComException.construct_move st s).2 = st.length := rfl
    have hl : (st.set s ComException.construct_default).length = st.length := by simp
    refine ⟨hc, e2, by rw [hnew], by rw [hnew], by rw [hnew], by rw [hnew], by rw [hnew],
      by rw [hnew], ?_, hmove hs, e3, ?_, ?_⟩
    · rw [hc]; exact objAt_append_old _ _ _ hs
    · rw [e3, hmove hs, ← hl]; exact objAt_append_new _ _
    · rw [hmove hs, objAt_append_old _ _ _ (by rw [hl]; exact hs)]
      exact objAt_set_self _ _ _ hs
  · intro hs hd
    have e : ComException.assign_copy st d s = st.set d (objAt st s) := by
      show (ComException.swap (st ++ [objAt st s]) d st.length).eraseIdx st.length = _
      exact swap_temp_erase st _ d hd
    rw [e]
    refine ⟨rfl, objAt_set_self _ _ _ hd, ?_⟩
    by_cases hds : d = s
    · subst hds
      exact objAt_set_self _ _ _ hd
    · exact objAt_set_other _ _ _ _ hds
  · intro hs hd hds
    have hl : (st.set s ComException.construct_default).length = st.length := by simp
    have e : ComException.assign_move st d s
        = (st.set s ComException.construct_default).set d (objAt st s) := by
      show (ComException.swap (ComException.construct_move st s).1 d st.length).eraseIdx
        st.length = _
      rw [hmove hs, ← hl]
      exact swap_temp_erase _ _ d (by rw [hl]; exact hd)
    rw [e]
    refine ⟨rfl, objAt_set_self _ _ _ (by rw [hl]; exact hd), ?_⟩
    rw [objAt_set_other _ _ _ _ hds]
    exact objAt_set_self _ _ _ hs
  · intro hs
    have hl : (st.set s ComException.construct_default).length = st.length := by simp
    have e : ComException.assign_move st s s = st := by
      show (ComException.swap (ComException.construct_move st s).1 s st.length).eraseIdx
        st.length = _
      rw [hmove hs, ← hl, swap_temp_erase _ _ s (by rw [hl]; exact hs), List.set_set]
      exact set_objAt_same st s
    exact ⟨e, by rw [e]⟩
  · intro ha hb
    obtain ⟨h1, h2⟩ := hswap ha hb
    have hlen : (ComException.swap st a b).length = st.length := by
      rw [swap_eq st a b ha hb]; simp
    refine ⟨h1, h2, hlen, ?_⟩
    rw [swap_eq (ComException.swap st a b) a b (by rw [hlen]; exact ha)
      (by rw [hlen]; exact hb), h1, h2, swap_eq st a b ha hb]
    apply List.ext_getElem (by simp)
    intro n hn1 hn2
    by_cases hbn : b = n
    · subst hbn
      simp [objAt, List.getD_eq_getElem?_getD, List.getElem?_eq_getElem hb]
    · rw [List.getElem_set_ne hbn]
      by_cases han : a = n
      · subst han
        simp [objAt, List.getD_eq_getElem?_getD, List.getElem?_eq_getElem ha]
      · rw [List.getElem_set_ne han, List.getElem_set_ne hbn, List.getElem_set_ne han]

/-- Witness for C26: the snapshot of the test (object 0) and a default object
(object 1). -/
theorem value_semantics_witness :
    (0 : Nat) < demoStore.length ∧ (1 : Nat) < demoStore.length ∧
    objAt (ComException.assign_move demoStore 1 0) 1 = objAt demoStore 0 ∧
    objAt (ComException.assign_move demoStore 1 0) 0 = ComException.construct_default ∧
    objAt (ComException.assign_copy demoStore 1 0) 1 = objAt demoStore 0 ∧
    ComException.assign_move demoStore 0 0 = demoStore ∧
    ComException.swap (ComException.swap demoStore 0 1) 0 1 = demoStore :=
  ⟨by decide, by decide,
   ((value_semantics demoStore 1 0 0 1).2.2.1 (by decide) (by decide) (by decide)).2.1,
   ((value_semantics demoStore 1 0 0 1).2.2.1 (by decide) (by decide) (by decide)).2.2,
   ((value_semantics demoStore 1 0 0 1).2.1 (by decide) (by decide)).2.1,
   ((value_semantics demoStore 1 0 0 1).2.2.2.1 (by decide)).1,
   ((value_semantics demoStore 1 0 0 1).2.2.2.2 (by decide) (by decide)).2.2.2⟩

/-! ## UBSTR: the ownership invariant in counting form -/

theorem live_le_one (h : BHeap) (p : Ptr) : live h p ≤ 1 := by
  unfold live
  split <;> omega

theorem live_nullptr (h : BHeap) : live h nullptr = 0 := by
  simp [live, read_nullptr]

theorem live_eq_one_iff (h : BHeap) (p : Ptr) : live h p = 1 ↔ (h.read p).isSome = true := by
  unfold live
  split <;> simp_all

theorem ind_id_self (p : Ptr) (hp : p ≠ nullptr) : ind id p p = 1 := by
  simp [ind, hp]

theorem ind_id_ne (q p : Ptr) (h : q ≠ p) : ind id q p = 0 := by
  simp [ind, h]

theorem ind_le_one (f : Ptr → Nat) (q : Ptr) (o : Nat) : ind f q o ≤ 1 := by
  unfold ind
  split <;> omega

theorem exists_of_cnt_pos (l : List Ptr) (p : Ptr) (h : 1 ≤ cnt id l p) :
    ∃ i, i < l.length ∧ l.getD i nullptr = p ∧ p ≠ nullptr := by
  induction l with
  | nil => simp [cnt] at h
  | cons x xs ih =>
    by_cases hx : x ≠ nullptr ∧ x = p
    · exact ⟨0, by simp, hx.2, by rw [← hx.2]; exact hx.1⟩
    · have h2 : cnt id (x :: xs) p = cnt id xs p := by
        simp only [cnt, List.countP_cons, id]
        simp [hx]
      rw [h2] at h
      obtain ⟨i, hi, hg, hp⟩ := ih h
      exact ⟨i + 1, by simpa using hi, by simpa using hg, hp⟩

theorem two_le_cnt_of_two (l : List Ptr) (i j : Nat) (p : Ptr)
    (hi : i < l.length) (hj : j < l.length) (hij : i ≠ j)
    (gi : l.getD i nullptr = p) (gj : l.getD j nullptr = p) (hp : p ≠ nullptr) :
    2 ≤ cnt id l p := by
  have h1 := cnt_set id l i nullptr p hi
  rw [ind_nullptr, gi, ind_id_self p hp] at h1
  have h2 := cnt_set id (l.set i nullptr) j nullptr p (by simpa using hj)
  rw [ind_nullptr, getD_set_other _ _ _ _ hij, gj, ind_id_self p hp] at h2
  omega

/-- The predicate of exclusive ownership says that every address is held by at
most as many objects as there are allocated buffers at it. -/
theorem exclusive_iff_cnt (m : UMachine) :
    ExclusiveOwnership m ↔ ∀ p, cnt id m.objs p ≤ live m.heap p := by
  constructor
  · intro h p
    by_cases h0 : cnt id m.objs p = 0
    · omega
    · obtain ⟨i, hi, gi, hp⟩ := exists_of_cnt_pos m.objs p (by omega)
      have hl : live m.heap p = 1 := by
        rw [live_eq_one_iff, ← gi]
        exact h.2 i hi (by show m.objs.getD i nullptr ≠ nullptr; rw [gi]; exact hp)
      rw [hl]
      by_contra hc
      have h2 : 2 ≤ cnt id m.objs p := by omega
      have h1 := cnt_set id m.objs i nullptr p hi
      rw [ind_nullptr, gi, ind_id_self p hp] at h1
      obtain ⟨j, hj, gj, _⟩ := exists_of_cnt_pos (m.objs.set i nullptr) p (by omega)
      have hij : i ≠ j := by
        intro e
        rw [← e, getD_set_nullptr] at gj
        exact hp gj.symm
      rw [getD_set_other _ _ _ _ hij] at gj
      exact h.1 i j hi (by simpa using hj) hij
        (by show m.objs.getD i nullptr ≠ nullptr; rw [gi]; exact hp)
        (by show m.objs.getD i nullptr = m.objs.getD j nullptr; rw [gi, gj])
  · intro h
    constructor
    · intro i j hi hj hij hp he
      have h2 := two_le_cnt_of_two m.objs i j (m_bstr m i) hi hj hij rfl he.symm hp
      have := h (m_bstr m i)
      have := live_le_one m.heap (m_bstr m i)
      omega
    · intro i hi hp
      have h1 := one_le_cnt_of_holds id m.objs i (m_bstr m i) hi rfl hp
      have h2 := h (m_bstr m i)
      have h3 := live_le_one m.heap (m_bstr m i)
      rw [← live_eq_one_iff]
      have h4 : cnt id m.objs (id (m_bstr m i)) = cnt id m.objs (m_bstr m i) := rfl
      omega

/-- No leak says that every address has at least as many holders as allocated
buffers. -/
theorem noLeak_iff_cnt (m : UMachine) :
    NoLeak m ↔ ∀ p, live m.heap p ≤ cnt id m.objs p := by
  constructor
  · intro h p
    by_cases hl : (m.heap.read p).isSome = true
    · obtain ⟨i, hi, gi⟩ := h p hl
      have hp : p ≠ nullptr := by
        intro e
        rw [e, read_nullptr] at hl
        simp at hl
      have h1 := one_le_cnt_of_holds id m.objs i p hi gi hp
      have h3 := live_le_one m.heap p
      have h4 : cnt id m.objs (id p) = cnt id m.objs p := rfl
      omega
    · have : live m.heap p = 0 := by simp [live, hl]
      omega
  · intro h p hl
    have h1 : live m.heap p = 1 := (live_eq_one_iff _ _).mpr hl
    obtain ⟨i, hi, gi, _⟩ := exists_of_cnt_pos m.objs p (by have := h p; omega)
    exact ⟨i, hi, gi⟩

/-! ## UBSTR: the allocator and the number of allocated buffers -/

theorem live_fresh (h : BHeap) : live h (h.bufs.length + 1) = 0 := by
  have := read_none_of_gt h (h.bufs.length + 1) (Nat.lt_succ_self _)
  simp [live, this]

theorem live_alloc (h : BHeap) (psz : Option (List wchar_t)) (p : Ptr) :
    live (SysAllocString h psz).1 p = live h p + ind id (SysAllocString h psz).2 p := by
  cases psz with
  | none => simp [SysAllocString, ind_nullptr]
  | some w =>
    by_cases ha : h.avail = 0
    · simp [SysAllocString, ha, ind_nullptr]
    · simp only [SysAllocString, ha, if_false]
      by_cases hp : h.bufs.length + 1 = p
      · subst hp
        rw [live_fresh, ind_id_self _ (Nat.succ_ne_zero _)]
        simp [live, BHeap.read, nullptr]
      · rw [ind_id_ne _ _ hp]
        have hr : (BHeap.mk (h.bufs ++ [some (cstr w)]) h.frees (h.avail - 1)).read p
            = h.read p := by
          unfold BHeap.read
          by_cases h0 : p = nullptr
          · simp [h0]
          · simp only [h0, if_false]
            have h0n : p ≠ 0 := h0
            by_cases hlt : p - 1 < h.bufs.length
            · simp [List.getD_eq_getElem?_getD, List.getElem?_append_left hlt]
            · have hne : p - 1 ≠ h.bufs.length := fun e =>
                hp (by rw [← e]; exact Nat.succ_pred_eq_of_ne_zero h0n)
              have h1 : h.bufs.length < p - 1 :=
                Nat.lt_of_le_of_ne (Nat.le_of_not_lt hlt) (Ne.symm hne)
              have h2 : (h.bufs ++ [some (cstr w)]).length ≤ p - 1 := by
                rw [List.length_append, List.length_singleton]
                exact h1
              have h3 : h.bufs.length ≤ p - 1 := Nat.le_of_lt h1
              simp [List.getD_eq_getElem?_getD, List.getElem?_eq_none h2,
                List.getElem?_eq_none h3]
        simp only [live, hr]
        simp

theorem live_free (h : BHeap) (q p : Ptr) (hq : q = nullptr ∨ live h q = 1) :
    live (SysFreeString h q) p + ind id q p = live h p := by
  by_cases h0 : q = nullptr
  · subst h0
    simp [SysFreeString, ind_nullptr]
  · have hl : live h q = 1 := hq.resolve_left h0
    by_cases hp : q = p
    · subst hp
      rw [ind_id_self _ h0, hl]
      simp [live, read_after_free_self]
    · rw [ind_id_ne _ _ hp]
      by_cases hp0 : p = nullptr
      · subst hp0
        simp [live, read_nullptr]
      · simp [live, read_after_free_other h q p hp hp0]

theorem alloc_bufs_frees (h : BHeap) (psz : Option (List wchar_t)) :
    (SysAllocString h psz).1.frees = h.frees ∧
    (((SysAllocString h psz).2 = nullptr ∧ (SysAllocString h psz).1 = h) ∨
     ((SysAllocString h psz).2 = h.bufs.length + 1 ∧
      (SysAllocString h psz).1.bufs.length = h.bufs.length + 1)) := by
  cases psz with
  | none => simp [SysAllocString]
  | some w =>
    by_cases ha : h.avail = 0
    · simp [SysAllocString, ha]
    · simp [SysAllocString, ha]

theorem live_zero_iff (h : BHeap) (p : Ptr) : live h p = 0 ↔ h.read p = none := by
  unfold live
  cases h.read p <;> simp

theorem live_of_gt (h : BHeap) (p : Ptr) (hp : h.bufs.length < p) : live h p = 0 :=
  (live_zero_iff h p).mpr (read_none_of_gt h p hp)

/-- The bookkeeping of frees, with the reads counted. -/
theorem freedOnce_iff (h : BHeap) :
    FreedOnce h ↔ h.frees.Nodup ∧
      ∀ p, p ∈ h.frees ↔ (p ≠ nullptr ∧ p ≤ h.bufs.length ∧ live h p = 0) := by
  unfold FreedOnce
  constructor
  · intro ⟨h1, h2⟩
    exact ⟨h1, fun p => by rw [h2 p, live_zero_iff]⟩
  · intro ⟨h1, h2⟩
    exact ⟨h1, fun p => by rw [h2 p, live_zero_iff]⟩

theorem FreedOnce_alloc (h : BHeap) (psz : Option (List wchar_t)) (hF : FreedOnce h) :
    FreedOnce (SysAllocString h psz).1 := by
  obtain ⟨hfr, hcase⟩ := alloc_bufs_frees h psz
  rcases hcase with ⟨_, e⟩ | ⟨e2, el⟩
  · rw [e]; exact hF
  · rw [freedOnce_iff] at hF ⊢
    obtain ⟨h1, h2⟩ := hF
    refine ⟨by rw [hfr]; exact h1, fun p => ?_⟩
    rw [hfr, h2 p, el, live_alloc, e2]
    by_cases hp : h.bufs.length + 1 = p
    · subst hp
      rw [ind_id_self _ (Nat.succ_ne_zero _)]
      constructor
      · intro ⟨_, hle, _⟩
        exact absurd hle (Nat.not_succ_le_self _)
      · intro ⟨_, _, hz⟩
        omega
    · rw [ind_id_ne _ _ hp]
      constructor
      · intro ⟨a, b, c⟩
        exact ⟨a, Nat.le_succ_of_le b, by omega⟩
      · intro ⟨a, b, c⟩
        exact ⟨a, Nat.le_of_lt_succ (Nat.lt_of_le_of_ne b (fun e => hp e.symm)), by omega⟩

theorem free_bufs_length (h : BHeap) (q : Ptr) :
    (SysFreeString h q).bufs.length = h.bufs.length := by
  unfold SysFreeString
  split <;> simp

theorem FreedOnce_free (h : BHeap) (q : Ptr) (hq : q = nullptr ∨ live h q = 1)
    (hF : FreedOnce h) : FreedOnce (SysFreeString h q) := by
  by_cases h0 : q = nullptr
  · subst h0
    simpa [SysFreeString] using hF
  · have hl : live h q = 1 := hq.resolve_left h0
    rw [freedOnce_iff] at hF ⊢
    obtain ⟨h1, h2⟩ := hF
    have hle : q ≤ h.bufs.length := by
      by_contra hc
      have := live_of_gt h q (Nat.lt_of_not_le hc)
      omega
    have hnot : q ∉ h.frees := by
      intro hm
      have := ((h2 q).mp hm).2.2
      omega
    rw [frees_SysFreeString, if_pos h0, free_bufs_length]
    refine ⟨List.Nodup.append h1 (List.nodup_singleton q) (by simpa using hnot), fun p => ?_⟩
    have hb := live_free h q p hq
    rw [List.mem_append, List.mem_singleton, h2 p]
    by_cases hp : q = p
    · subst hp
      rw [ind_id_self _ h0] at hb
      constructor
      · intro _
        exact ⟨h0, hle, by omega⟩
      · intro _
        exact Or.inr rfl
    · rw [ind_id_ne _ _ hp] at hb
      constructor
      · rintro (⟨a, b, c⟩ | e)
        · exact ⟨a, b, by omega⟩
        · exact absurd e.symm hp
      · intro ⟨a, b, c⟩
        exact Or.inl ⟨a, b, by omega⟩

/-! ## UBSTR: closed forms of the operations -/

theorem UBSTR_set_eq (m : UMachine) (s : Nat) :
    (UBSTR.set m s).1 =
      UMachine.mk (m.objs.set s nullptr) (SysFreeString m.heap (m_bstr m s)) := by
  unfold UBSTR.set
  by_cases h : m_bstr m s = nullptr
  · have h2 : m.objs.set s nullptr = m.objs := by
      have := set_getD_same m.objs s
      unfold m_bstr at h
      rw [h] at this
      exact this
    simp [h, h2, SysFreeString]
  · simp [h]

theorem receive_eq (m : UMachine) (s : Nat) (t : List wchar_t) :
    GivesBSTR (UBSTR.set m s).1 (UBSTR.set m s).2 t =
      UMachine.mk
        (m.objs.set s (SysAllocString (SysFreeString m.heap (m_bstr m s)) (some t)).2)
        (SysAllocString (SysFreeString m.heap (m_bstr m s)) (some t)).1 := by
  have h2 : (UBSTR.set m s).2 = s := rfl
  rw [h2, UBSTR_set_eq]
  simp [GivesBSTR, UBSTR.store, List.set_set]

theorem assign_copy_eq (m : UMachine) (d s : Nat) (hd : d < m.objs.length) :
    UBSTR.assign_copy m d s =
      UMachine.mk (m.objs.set d (SysAllocString m.heap (m.heap.read (m_bstr m s))).2)
        (SysFreeString (SysAllocString m.heap (m.heap.read (m_bstr m s))).1
          (m_bstr m d)) :=
  swap_temp_destruct m.objs (SysAllocString m.heap (m.heap.read (m_bstr m s))).1
    (SysAllocString m.heap (m.heap.read (m_bstr m s))).2 d hd

theorem assign_move_eq (m : UMachine) (d s : Nat) (hd : d < m.objs.length) :
    UBSTR.assign_move m d s =
      UMachine.mk ((m.objs.set s nullptr).set d (m_bstr m s))
        (SysFreeString m.heap ((m.objs.set s nullptr).getD d nullptr)) := by
  have h1 : UBSTR.assign_move m d s =
      UBSTR.destruct (UBSTR.swap (UBSTR.construct_move m s).1 d (UBSTR.construct_move m s).2)
        (UBSTR.construct_move m s).2 := rfl
  have h2 : (UBSTR.construct_move m s).2 = (m.objs.set s nullptr).length := by
    simp [UBSTR.construct_move, UBSTR.construct_default]
  rw [h1, h2, construct_move_eq]
  exact swap_temp_destruct (m.objs.set s nullptr) m.heap (m_bstr m s) d (by simpa using hd)

theorem cnt_swap (l : List Ptr) (a b : Nat) (ha : a < l.length) (hb : b < l.length) (p : Ptr) :
    cnt id ((l.set a (l.getD b nullptr)).set b (l.getD a nullptr)) p = cnt id l p := by
  have h1 := cnt_set id l a (l.getD b nullptr) p ha
  have h2 := cnt_set id (l.set a (l.getD b nullptr)) b (l.getD a nullptr) p (by simpa using hb)
  have h3 : (l.set a (l.getD b nullptr)).getD b nullptr = l.getD b nullptr := by
    by_cases e : a = b
    · subst e
      exact getD_set_self _ _ _ ha
    · exact getD_set_other _ _ _ _ e
  rw [h3] at h2
  omega

theorem live_of_held (m : UMachine) (hE : ∀ p, cnt id m.objs p ≤ live m.heap p) (d : Nat) :
    m_bstr m d = nullptr ∨ live m.heap (m_bstr m d) = 1 := by
  by_cases h0 : m_bstr m d = nullptr
  · exact Or.inl h0
  · right
    have hd : d < m.objs.length := by
      by_contra hc
      exact h0 (getD_of_length_le m.objs d (Nat.le_of_not_lt hc))
    have h1 := one_le_cnt_of_holds id m.objs d (m_bstr m d) hd rfl h0
    have h2 := hE (m_bstr m d)
    have h3 := live_le_one m.heap (m_bstr m d)
    have h4 : cnt id m.objs (id (m_bstr m d)) = cnt id m.objs (m_bstr m d) := rfl
    omega

/-! ## UBSTR: every operation keeps holders and allocated buffers in step -/

/-- The balance of one operation: at every address, what the objects gain or
lose in holders is what the allocator gains or loses in allocated buffers; and
the bookkeeping of frees stays exact. -/
theorem step_facts (op : UOp) (m : UMachine)
    (hE : ∀ p, cnt id m.objs p ≤ live m.heap p) (hok : op.ok m) :
    (∀ p, cnt id (op.run m).objs p + live m.heap p =
        cnt id m.objs p + live (op.run m).heap p) ∧
    (FreedOnce m.heap → FreedOnce (op.run m).heap) := by
  cases op with
  | construct_default =>
    refine ⟨fun p => ?_, fun hF => hF⟩
    show cnt id (m.objs ++ [nullptr]) p + live m.heap p = cnt id m.objs p + live m.heap p
    rw [cnt_append, ind_nullptr, Nat.add_zero]
  | construct_wsz wsz =>
    refine ⟨fun p => ?_, fun hF => FreedOnce_alloc m.heap wsz hF⟩
    show cnt id (m.objs ++ [(SysAllocString m.heap wsz).2]) p + live m.heap p =
      cnt id m.objs p + live (SysAllocString m.heap wsz).1 p
    rw [cnt_append, live_alloc]
    omega
  | construct_wstring ws =>
    refine ⟨fun p => ?_, fun hF => FreedOnce_alloc m.heap (c_str ws) hF⟩
    show cnt id (m.objs ++ [(SysAllocString m.heap (c_str ws)).2]) p + live m.heap p =
      cnt id m.objs p + live (SysAllocString m.heap (c_str ws)).1 p
    rw [cnt_append, live_alloc]
    omega
  | construct_copy obj =>
    refine ⟨fun p => ?_, fun hF => FreedOnce_alloc m.heap _ hF⟩
    show cnt id (m.objs ++ [(SysAllocString m.heap (m.heap.read (m_bstr m obj))).2]) p
        + live m.heap p =
      cnt id m.objs p + live (SysAllocString m.heap (m.heap.read (m_bstr m obj))).1 p
    rw [cnt_append, live_alloc]
    omega
  | construct_move obj =>
    have hobj : obj < m.objs.length := hok
    have e : (UOp.construct_move obj).run m =
        UMachine.mk (m.objs.set obj nullptr ++ [m_bstr m obj]) m.heap :=
      construct_move_eq m obj
    rw [e]
    refine ⟨fun p => ?_, fun hF => hF⟩
    show cnt id (m.objs.set obj nullptr ++ [m_bstr m obj]) p + live m.heap p =
      cnt id m.objs p + live m.heap p
    have h1 := cnt_set id m.objs obj nullptr p hobj
    rw [ind_nullptr] at h1
    rw [cnt_append]
    have h2 : ind id (m.objs.getD obj nullptr) p = ind id (m_bstr m obj) p := rfl
    omega
  | assign_copy self other =>
    have hself : self < m.objs.length := hok.1
    have e : (UOp.assign_copy self other).run m = _ := assign_copy_eq m self other hself
    rw [e]
    have hq := live_of_held m hE self
    have hq2 : m_bstr m self = nullptr ∨
        live (SysAllocString m.heap (m.heap.read (m_bstr m other))).1 (m_bstr m self) = 1 := by
      rcases hq with h0 | h1
      · exact Or.inl h0
      · right
        have := live_alloc m.heap (m.heap.read (m_bstr m other)) (m_bstr m self)
        have := live_le_one (SysAllocString m.heap (m.heap.read (m_bstr m other))).1
          (m_bstr m self)
        omega
    refine ⟨fun p => ?_, fun hF => FreedOnce_free _ _ hq2 (FreedOnce_alloc m.heap _ hF)⟩
    show cnt id (m.objs.set self (SysAllocString m.heap (m.heap.read (m_bstr m other))).2) p
        + live m.heap p =
      cnt id m.objs p + live (SysFreeString
        (SysAllocString m.heap (m.heap.read (m_bstr m other))).1 (m_bstr m self)) p
    have h1 := cnt_set id m.objs self
      (SysAllocString m.heap (m.heap.read (m_bstr m other))).2 p hself
    have h2 := live_alloc m.heap (m.heap.read (m_bstr m other)) p
    have h3 := live_free (SysAllocString m.heap (m.heap.read (m_bstr m other))).1
      (m_bstr m self) p hq2
    have h4 : ind id (m.objs.getD self nullptr) p = ind id (m_bstr m self) p := rfl
    omega
  | assign_move self other =>
    have hself : self < m.objs.length := hok.1
    have hother : other < m.objs.length := hok.2
    have e : (UOp.assign_move self other).run m = _ := assign_move_eq m self other hself
    rw [e]
    have hq : (m.objs.set other nullptr).getD self nullptr = nullptr ∨
        live m.heap ((m.objs.set other nullptr).getD self nullptr) = 1 := by
      by_cases hso : other = self
      · left
        rw [hso]
        exact getD_set_nullptr _ _
      · rw [getD_set_other _ _ _ _ hso]
        exact live_of_held m hE self
    refine ⟨fun p => ?_, fun hF => FreedOnce_free _ _ hq hF⟩
    show cnt id ((m.objs.set other nullptr).set self (m_bstr m other)) p + live m.heap p =
      cnt id m.objs p +
        live (SysFreeString m.heap ((m.objs.set other nullptr).getD self nullptr)) p
    have h1 := cnt_set id m.objs other nullptr p hother
    rw [ind_nullptr] at h1
    have h2 := cnt_set id (m.objs.set other nullptr) self (m_bstr m other) p
      (by simpa using hself)
    have h3 := live_free m.heap ((m.objs.set other nullptr).getD self nullptr) p hq
    have h4 : ind id (m.objs.getD other nullptr) p = ind id (m_bstr m other) p := rfl
    omega
  | swap a b =>
    refine ⟨fun p => ?_, fun hF => hF⟩
    show cnt id ((m.objs.set a (m.objs.getD b nullptr)).set b (m.objs.getD a nullptr)) p
        + live m.heap p = cnt id m.objs p + live m.heap p
    rw [cnt_swap m.objs a b hok.1 hok.2 p]
  | set obj =>
    have hobj : obj < m.objs.length := hok
    have e : (UOp.set obj).run m = _ := UBSTR_set_eq m obj
    rw [e]
    have hq := live_of_held m hE obj
    refine ⟨fun p => ?_, fun hF => FreedOnce_free _ _ hq hF⟩
    show cnt id (m.objs.set obj nullptr) p + live m.heap p =
      cnt id m.objs p + live (SysFreeString m.heap (m_bstr m obj)) p
    have h1 := cnt_set id m.objs obj nullptr p hobj
    rw [ind_nullptr] at h1
    have h3 := live_free m.heap (m_bstr m obj) p hq
    have h4 : ind id (m.objs.getD obj nullptr) p = ind id (m_bstr m obj) p := rfl
    omega
  | receive obj t =>
    have hobj : obj < m.objs.length := hok
    have e : (UOp.receive obj t).run m = _ := receive_eq m obj t
    rw [e]
    have hq := live_of_held m hE obj
    refine ⟨fun p => ?_, fun hF => FreedOnce_alloc _ _ (FreedOnce_free _ _ hq hF)⟩
    show cnt id (m.objs.set obj
          (SysAllocString (SysFreeString m.heap (m_bstr m obj)) (some t)).2) p
        + live m.heap p =
      cnt id m.objs p +
        live (SysAllocString (SysFreeString m.heap (m_bstr m obj)) (some t)).1 p
    have h1 := cnt_set id m.objs obj
      (SysAllocString (SysFreeString m.heap (m_bstr m obj)) (some t)).2 p hobj
    have h2 := live_alloc (SysFreeString m.heap (m_bstr m obj)) (some t) p
    have h3 := live_free m.heap (m_bstr m obj) p hq
    have h4 : ind id (m.objs.getD obj nullptr) p = ind id (m_bstr m obj) p := rfl
    omega
  | destruct self =>
    have hself : self < m.objs.length := hok
    have hq := live_of_held m hE self
    refine ⟨fun p => ?_, fun hF => FreedOnce_free _ _ hq hF⟩
    show cnt id (m.objs.eraseIdx self) p + live m.heap p =
      cnt id m.objs p + live (SysFreeString m.heap (m_bstr m self)) p
    have h1 := cnt_eraseIdx id m.objs self p hself
    have h3 := live_free m.heap (m_bstr m self) p hq
    have h4 : ind id (m.objs.getD self nullptr) p = ind id (m_bstr m self) p := rfl
    omega

/-! ## UBSTR: programs -/

theorem startU_facts (a : Nat) :
    (∀ p, cnt id (startU a).objs p = 0) ∧ (∀ p, live (startU a).heap p = 0) ∧
    FreedOnce (startU a).heap := by
  have hl : ∀ p, live (startU a).heap p = 0 := by
    intro p
    by_cases h0 : p = nullptr
    · rw [h0]; exact live_nullptr _
    · exact live_of_gt _ p (Nat.pos_of_ne_zero h0)
  refine ⟨fun p => rfl, hl, ?_⟩
  rw [freedOnce_iff]
  refine ⟨List.nodup_nil, fun p => ?_⟩
  constructor
  · intro hm
    exact absurd hm (List.not_mem_nil p)
  · intro ⟨h0, hle, _⟩
    exact absurd (Nat.le_zero.mp hle) h0

/-- A program keeps the three facts: holders never exceed allocated buffers,
allocated buffers never exceed holders, and the bookkeeping of frees is
exact. -/
theorem run_invariant (ops : List UOp) (m : UMachine)
    (hE : ∀ p, cnt id m.objs p ≤ live m.heap p)
    (hN : ∀ p, live m.heap p ≤ cnt id m.objs p)
    (hF : FreedOnce m.heap) (hok : okAll ops m) :
    (∀ p, cnt id (runAll ops m).objs p ≤ live (runAll ops m).heap p) ∧
    (∀ p, live (runAll ops m).heap p ≤ cnt id (runAll ops m).objs p) ∧
    FreedOnce (runAll ops m).heap := by
  induction ops generalizing m with
  | nil => exact ⟨hE, hN, hF⟩
  | cons op ops ih =>
    obtain ⟨hb, hf⟩ := step_facts op m hE hok.1
    exact ih (op.run m)
      (fun p => by have := hb p; have := hE p; omega)
      (fun p => by have := hb p; have := hN p; omega)
      (hf hF) hok.2

/-- C21: exclusive buffer ownership of `UBSTR`.  The predicate of exclusive
ownership (no two live objects hold the same buffer, and every buffer an
object holds is allocated) is preserved by every operation: construction
(default, from a sequence, from a string), copy and move construction, copy
and move assignment, swap, set (alone, and followed by a producer storing a
new buffer) and destruction.  And when a program that starts with no object
and nothing allocated has destroyed all its objects, nothing is allocated any
more and the log of frees holds every address that was allocated exactly once
and no other address: no leak and no double free. -/
theorem exclusive_ownership_preserved (op : UOp) (m : UMachine)
    (hE : ExclusiveOwnership m) (hok : op.ok m)
    (ops : List UOp) (a : Nat) (hall : okAll ops (startU a))
    (hend : (runAll ops (startU a)).objs = []) :
    ExclusiveOwnership (op.run m) ∧
    ExclusiveOwnership (runAll ops (startU a)) ∧
    (∀ p, (runAll ops (startU a)).heap.read p = none) ∧
    (∀ p, (runAll ops (startU a)).heap.frees.count p =
      if p ≠ nullptr ∧ p ≤ (runAll ops (startU a)).heap.bufs.length then 1 else 0) := by
  have hEc := (exclusive_iff_cnt m).mp hE
  obtain ⟨hb, _⟩ := step_facts op m hEc hok
  obtain ⟨s1, s2, s3⟩ := startU_facts a
  obtain ⟨r1, r2, r3⟩ := run_invariant ops (startU a)
    (fun p => by rw [s1 p]; exact Nat.zero_le _)
    (fun p => by rw [s2 p]; exact Nat.zero_le _) s3 hall
  have hz : ∀ p, live (runAll ops (startU a)).heap p = 0 := by
    intro p
    have h1 := r2 p
    rw [hend] at h1
    exact Nat.le_zero.mp h1
  refine ⟨(exclusive_iff_cnt _).mpr (fun p => by have := hb p; have := hEc p; omega),
    (exclusive_iff_cnt _).mpr r1, fun p => (live_zero_iff _ p).mp (hz p), fun p => ?_⟩
  rw [freedOnce_iff] at r3
  obtain ⟨hnd, hmem⟩ := r3
  by_cases hc : p ≠ nullptr ∧ p ≤ (runAll ops (startU a)).heap.bufs.length
  · rw [if_pos hc]
    exact List.count_eq_one_of_mem hnd ((hmem p).mpr ⟨hc.1, hc.2, hz p⟩)
  · rw [if_neg hc]
    exact List.count_eq_zero_of_not_mem (fun hm => hc ⟨((hmem p).mp hm).1, ((hmem p).mp hm).2.1⟩)

theorem demoU_exclusive : ExclusiveOwnership demoU := by
  constructor
  · intro i j hi hj hij hp
    have hi3 : i < 3 := hi
    have hj3 : j < 3 := hj
    interval_cases i <;> interval_cases j <;> simp_all [m_bstr, demoU, nullptr]
  · intro i hi hp
    have hi3 : i < 3 := hi
    interval_cases i <;> simp_all [m_bstr, demoU, nullptr, BHeap.read]

theorem demoProgram_ok : okAll demoProgram (startU 5) := by
  simp only [demoProgram, okAll, UOp.ok]
  decide

theorem exclusive_ownership_preserved_witness :
    ExclusiveOwnership demoU ∧ (UOp.assign_copy 0 1).ok demoU ∧
    okAll demoProgram (startU 5) ∧ (runAll demoProgram (startU 5)).objs = [] ∧
    ExclusiveOwnership ((UOp.assign_copy 0 1).run demoU) ∧
    ExclusiveOwnership (runAll demoProgram (startU 5)) ∧
    (∀ p, (runAll demoProgram (startU 5)).heap.read p = none) ∧
    (∀ p, (runAll demoProgram (startU 5)).heap.frees.count p =
      if p ≠ nullptr ∧ p ≤ (runAll demoProgram (startU 5)).heap.bufs.length then 1 else 0) :=
  ⟨demoU_exclusive, ⟨by decide, by decide⟩, demoProgram_ok, by decide,
    exclusive_ownership_preserved (UOp.assign_copy 0 1) demoU demoU_exclusive
      ⟨by decide, by decide⟩ demoProgram 5 demoProgram_ok (by decide)⟩

end ComTools
